import Mathlib

/-! SophgenV3, the generation page (`frontend/src/pages/Generation.jsx`).

A shallow embedding of the generation orchestration code of the dashboard:
the input validator (`validateInput`), the request encoder and the staged run
(`handleGenerate`), the reset handler (`handleReset`) and the sample importer
(the `onClick` handler of the *Sample* button).

JavaScript strings are modelled as lists of characters.  Every character class
used by the source (`\d`, `\w`, `\s`, the set stripped by `trim`) lies in the
basic multilingual plane, so reading a string unit by unit or code point by
code point gives the same answers.
-/

namespace Sophgen

/-! ## Strings and character classes -/

/-- A JavaScript string. -/
abbrev Str := List Char

/-- The regular-expression class `\d` (no `u`/`i` flag): `[0-9]`. -/
def isDigit (c : Char) : Bool :=
  decide (48 ≤ c.toNat ∧ c.toNat ≤ 57)

/-- The regular-expression class `\w`: `[A-Za-z0-9_]`. -/
def isWord (c : Char) : Bool :=
  decide ((65 ≤ c.toNat ∧ c.toNat ≤ 90) ∨ (97 ≤ c.toNat ∧ c.toNat ≤ 122)
    ∨ (48 ≤ c.toNat ∧ c.toNat ≤ 57) ∨ c.toNat = 95)

/-- The regular-expression class `\s`, which is also the set of characters
removed by `String.prototype.trim`: the ECMAScript `WhiteSpace` and
`LineTerminator` code points (TAB, LF, VT, FF, CR, SP, NBSP, U+1680,
U+2000..U+200A, LS, PS, U+202F, U+205F, U+3000, U+FEFF). -/
def isSpace (c : Char) : Bool :=
  decide ((9 ≤ c.toNat ∧ c.toNat ≤ 13) ∨ c.toNat = 32 ∨ c.toNat = 160 ∨ c.toNat = 5760
    ∨ (8192 ≤ c.toNat ∧ c.toNat ≤ 8202) ∨ c.toNat = 8232 ∨ c.toNat = 8233
    ∨ c.toNat = 8239 ∨ c.toNat = 8287 ∨ c.toNat = 12288 ∨ c.toNat = 65279)

/-- The class `[\w-]` of the CWE-id expression. -/
def isWordOrDash (c : Char) : Bool :=
  isWord c || c == '-'

/-- `String.prototype.trimStart`. -/
def trimStart (s : Str) : Str :=
  s.dropWhile isSpace

/-- `String.prototype.trimEnd`. -/
def trimEnd (s : Str) : Str :=
  (s.reverse.dropWhile isSpace).reverse

/-- `String.prototype.trim`. -/
def trim (s : Str) : Str :=
  trimEnd (trimStart s)

/-- `Array.prototype.join(sep)`. -/
def jsJoin (sep : Str) : List Str → Str
  | [] => []
  | [x] => x
  | x :: y :: rest => x ++ sep ++ jsJoin sep (y :: rest)

/-- Decimal rendering of a natural number, as produced by a template literal
`${n}` for a non-negative integer. -/
def decimal (n : Nat) : Str :=
  Nat.toDigits 10 n

/-! ## `String.prototype.split` with a regular expression

`split` walks the string from left to right.  At every position it tries the
expression anchored at that position (`matcher`); on a match it emits the text
collected since the previous match, then the captured groups, and continues
right after the match.  A matcher returns the captures and the number of
characters matched, which is positive for every expression used here; the
counter `skip` steps over the matched characters. -/

/-- The loop of `split`: `skip` characters of the current match are still to be
stepped over, `acc` is the text since the last match, reversed. -/
def splitGo (matcher : Str → Option (List Str × Nat)) : Nat → Str → Str → List Str
  | _, acc, [] => [acc.reverse]
  | skip + 1, acc, _ :: cs => splitGo matcher skip acc cs
  | 0, acc, c :: cs =>
    match matcher (c :: cs) with
    | some (caps, len) => acc.reverse :: (caps ++ splitGo matcher (len - 1) [] cs)
    | none => splitGo matcher 0 (c :: acc) cs

/-- The method `s.split(re)` for an expression whose anchored matcher is `matcher`. -/
def jsSplit (matcher : Str → Option (List Str × Nat)) (s : Str) : List Str :=
  splitGo matcher 0 [] s

/-- The expression `/\r?\n/` anchored at the start of `s`: no capture group. -/
def matchNewline : Str → Option (List Str × Nat)
  | [] => none
  | c :: rest =>
    if c = '\n' then some ([], 1)
    else if c = '\r' then
      match rest with
      | d :: _ => if d = '\n' then some ([], 2) else none
      | [] => none
    else none

/-- The expression `/(\d+)\.\s/` anchored at the start of `s`.  The greedy `\d+`
takes the whole run of digits; giving digits back never helps, since the
character after a shorter run is a digit and not the `.`.  The single capture
group is the run of digits. -/
def matchMarker (s : Str) : Option (List Str × Nat) :=
  let ds := s.takeWhile isDigit
  match s.dropWhile isDigit with
  | dot :: w :: _ =>
    if ds ≠ [] ∧ dot = '.' ∧ isSpace w = true then some ([ds], ds.length + 2) else none
  | _ => none

/-! ## Regions of interest, the encoder of `handleGenerate` and the sample importer -/

/-- One entry of the `rois` state: `{ roi, line }`. -/
structure Roi where
  roi : Str
  line : Str
  deriving DecidableEq, Repr

/-- The mapping `rois.map((r, i) => ...)` of the encoder, with the template
literal written out: decimal label `i + 1`, a dot, a space, the code; the
entries are numbered starting from `i`. -/
def numberedFrom : Nat → List Roi → List Str
  | _, [] => []
  | i, r :: rs => (decimal (i + 1) ++ '.' :: ' ' :: r.roi) :: numberedFrom (i + 1) rs

/-- The constant `roiStr` of `handleGenerate`. -/
def roiStr (rois : List Roi) : Str :=
  jsJoin ['\n'] (numberedFrom 0 rois)

/-- The constant `lineStr` of `handleGenerate`. -/
def lineStr (rois : List Roi) : Str :=
  jsJoin ['\n'] (rois.map fun r => r.line)

/-- The `for (let i = 1; i < roiParts.length; i += 2)` loop of the importer, run on
the parts from index 1 on.  A part pair is pushed when `code` is truthy, that is
a non-empty string; `lines[parsedRois.length] || ''` is the line at that index,
or the empty string when there is none. -/
def parseLoop (lines : List Str) : List Str → List Roi → List Roi
  | _ :: code :: rest, parsedRois =>
    if code ≠ [] then
      parseLoop lines rest
        (parsedRois ++ [{ roi := trim code, line := (lines[parsedRois.length]?).getD [] }])
    else parseLoop lines rest parsedRois
  | _, parsedRois => parsedRois

/-- The line list of the importer:
`rawLines.split(/\r?\n/).map(l => l.trim()).filter(l => l)`. -/
def sampleLines (rawLines : Str) : List Str :=
  ((jsSplit matchNewline rawLines).map trim).filter fun l => decide (l ≠ [])

/-- The sample importer: the value passed to `setRois` for the blobs `rawRoi` and
`rawLines`. -/
def importSample (rawRoi rawLines : Str) : List Roi :=
  let lines := sampleLines rawLines
  let roiParts := jsSplit matchMarker rawRoi
  let parsedRois := parseLoop lines (roiParts.drop 1) []
  if parsedRois.length = 0 then [{ roi := rawRoi, line := rawLines }] else parsedRois

/-! ## Regular expressions of the validator

The two expressions tested by `validateInput` are anchored at both ends and
carry no flag, so `re.test(s)` holds exactly when the whole of `s` belongs to
the language of the expression.  Membership is decided with derivatives. -/

/-- Abstract syntax of the expressions used by the validator. -/
inductive Re where
  | none : Re
  | eps : Re
  | cls : (Char → Bool) → Re
  | alt : Re → Re → Re
  | seq : Re → Re → Re
  | star : Re → Re

/-- The expression `r+`. -/
def Re.plus (r : Re) : Re :=
  Re.seq r (Re.star r)

/-- Whether the expression accepts the empty string. -/
def Re.nullable : Re → Bool
  | Re.none => false
  | Re.eps => true
  | Re.cls _ => false
  | Re.alt a b => a.nullable || b.nullable
  | Re.seq a b => a.nullable && b.nullable
  | Re.star _ => true

/-- The derivative of an expression with respect to a character. -/
def Re.deriv : Re → Char → Re
  | Re.none, _ => Re.none
  | Re.eps, _ => Re.none
  | Re.cls p, c => if p c then Re.eps else Re.none
  | Re.alt a b, c => Re.alt (a.deriv c) (b.deriv c)
  | Re.seq a b, c =>
    if a.nullable then Re.alt (Re.seq (a.deriv c) b) (b.deriv c) else Re.seq (a.deriv c) b
  | Re.star a, c => Re.seq (a.deriv c) (Re.star a)

/-- The method `re.test(s)` for an expression anchored with `^` and `$`. -/
def Re.test : Re → Str → Bool
  | r, [] => r.nullable
  | r, c :: cs => (r.deriv c).test cs

/-- The language of an expression. -/
def Re.Matches : Re → Str → Prop
  | Re.none, _ => False
  | Re.eps, s => s = []
  | Re.cls p, s => ∃ c, s = [c] ∧ p c = true
  | Re.alt a b, s => a.Matches s ∨ b.Matches s
  | Re.seq a b, s => ∃ u v, s = u ++ v ∧ a.Matches u ∧ b.Matches v
  | Re.star a, s => ∃ parts : List Str, s = parts.flatten ∧ ∀ u ∈ parts, u ≠ [] ∧ a.Matches u

/-- The expression `/^(\d+|(\d+-\d+))$/` of the line check. -/
def lineRe : Re :=
  Re.alt (Re.cls isDigit).plus
    (Re.seq (Re.cls isDigit).plus (Re.seq (Re.cls fun c => c == '-') (Re.cls isDigit).plus))

/-- The expression `/^[\w-]+(,\s*[\w-]+)*$/` of the CWE-id check. -/
def cweRe : Re :=
  Re.seq (Re.cls isWordOrDash).plus
    (Re.star (Re.seq (Re.cls fun c => c == ',')
      (Re.seq (Re.star (Re.cls isSpace)) (Re.cls isWordOrDash).plus)))

/-! ## The validator `validateInput` -/

/-- The keys of the `newErrors` object: `funcCode`, `funcName`, `cweIds`, `rois`,
and the computed keys `roi_<index>` and `line_<index>`. -/
inductive ErrKey where
  | funcCode : ErrKey
  | funcName : ErrKey
  | cweIds : ErrKey
  | rois : ErrKey
  | roi : Nat → ErrKey
  | line : Nat → ErrKey
  deriving DecidableEq, Repr

/-- The `newErrors` object: its entries, in the order they are assigned.  No key
is assigned twice. -/
abbrev Errors := List (ErrKey × String)

/-- The guard `!s || s.trim() === ''` used for the code, name and CWE fields and
for the code of a region. -/
def isBlank (s : Str) : Bool :=
  decide (s = []) || decide (trim s = [])

/-- The guard of the line check:
the condition `!item.line || !re.test(item.line.trim())`. -/
def lineRejected (line : Str) : Bool :=
  decide (line = []) || !lineRe.test (trim line)

/-- The body of the `rois.forEach((item, index) => ...)` callback. -/
def roiChecks (index : Nat) (item : Roi) : Errors :=
  (if isBlank item.roi then [(ErrKey.roi index, "ROI code is required.")] else [])
    ++ (if lineRejected item.line then
          [(ErrKey.line index, "Invalid line format (e.g., 1 or 6-8).")] else [])

/-- The loop `rois.forEach`, the first item having index `index`. -/
def forEachRoi : Nat → List Roi → Errors
  | _, [] => []
  | index, item :: rest => roiChecks index item ++ forEachRoi (index + 1) rest

/-- Rule 3 of the validator, the CWE-id field. -/
def cweIdsErrors (cweIds : Str) : Errors :=
  if isBlank cweIds then [(ErrKey.cweIds, "CWE IDs are required.")]
  else if !cweRe.test (trim cweIds) then
    [(ErrKey.cweIds, "CWE IDs must be comma-separated (e.g., CWE-78, CWE-89).")]
  else []

/-- Rule 4 of the validator, the region list. -/
def roisErrors (rois : List Roi) : Errors :=
  if rois.length = 0 then [(ErrKey.rois, "At least one Region of Interest (ROI) is required.")]
  else forEachRoi 0 rois

/-- The object `newErrors` built by `validateInput` from the four form fields. -/
def newErrors (funcCode funcName cweIds : Str) (rois : List Roi) : Errors :=
  (if isBlank funcCode then [(ErrKey.funcCode, "Function code is required.")] else [])
    ++ (if isBlank funcName then [(ErrKey.funcName, "Function name is required.")] else [])
    ++ cweIdsErrors cweIds
    ++ roisErrors rois

/-- The value returned by `validateInput`: `Object.keys(newErrors).length === 0`. -/
def validateInput (funcCode funcName cweIds : Str) (rois : List Roi) : Bool :=
  decide ((newErrors funcCode funcName cweIds rois).length = 0)

/-- The number of entries of the error object under the key `k`. -/
def countKey (e : Errors) (k : ErrKey) : Nat :=
  (e.filter fun p => decide (p.1 = k)).length

/-- Whether the error object has the key `k`. -/
def hasKey (e : Errors) (k : ErrKey) : Bool :=
  e.any fun p => decide (p.1 = k)

/-! ## The staged run `handleGenerate`

`handleGenerate` is an `async` function.  It is cut at its `await` points: each
piece returns the effects it performs, in order, and the point at which it is
suspended, if any.  A remote call is observed as the event `call`; the moment
its promise settles is the event `reply`. -/

/-- The React state of the component, one field per `useState`. -/
structure Ui where
  funcCode : Str
  funcName : Str
  cweIds : Str
  rois : List Roi
  errors : Errors
  skipValidation : Bool
  generationStep : Nat
  showModal : Bool
  errorModal : Option Str
  deriving DecidableEq

/-- The initial values of the `useState` declarations. -/
def Ui.initial : Ui :=
  { funcCode := [], funcName := [], cweIds := [], rois := [{ roi := [], line := [] }],
    errors := [], skipValidation := false, generationStep := 0, showModal := false,
    errorModal := none }

/-- The three remote calls of `api.js` used by a run, with their request bodies:
`generateResearch({ cwe_id })`,
`generateInjection({ func_name, func_code, lines, rois, cwe_ids })` and
`generateValidation({ func_name, func_code, merged_roi_lines })`. -/
inductive Call where
  | research (cwe_id : Str) : Call
  | injection (func_name func_code lines rois cwe_ids : Str) : Call
  | validation (func_name func_code merged_roi_lines : Str) : Call
  deriving DecidableEq

/-- How an awaited call settles: the promise resolves with a response whose
`data` is truthy or falsy, or it rejects with an error whose `message` is a
string or is missing. -/
inductive Reply where
  | data (truthy : Bool) : Reply
  | rejected (message : Option Str) : Reply
  deriving DecidableEq

/-- The observable effects of the handlers. -/
inductive Event where
  | setErrors (e : Errors) : Event
  | setGenerationStep (n : Nat) : Event
  | setShowModal (b : Bool) : Event
  | setErrorModal (m : Option Str) : Event
  | call (c : Call) : Event
  | reply (r : Reply) : Event
  | consoleError : Event
  deriving DecidableEq

/-- The points at which `handleGenerate` is suspended: inside the research loop
(on the call for `cweId`, the identifiers `rest` still to come), on the injection
call, on the validation call. -/
inductive Await where
  | research (cweId : Str) (rest : List Str) : Await
  | injection : Await
  | validation : Await
  deriving DecidableEq

/-- A suspended execution of `handleGenerate`: the state values its closure
captured and the `await` it is waiting on. -/
structure Pending where
  ctx : Ui
  awaiting : Await
  deriving DecidableEq

/-- The separator `','` of `cweIds.split(',')`, tried at the start of `s`. -/
def matchComma : Str → Option (List Str × Nat)
  | [] => none
  | c :: _ => if c = ',' then some ([], 1) else none

/-- The constant `cweList`:
`cweIds.split(',').map(id => id.trim()).filter(id => id)`. -/
def cweList (cweIds : Str) : List Str :=
  ((jsSplit matchComma cweIds).map trim).filter fun id => decide (id ≠ [])

/-- The message kept by the `catch` block:
`error.message || "An unexpected error occurred."`. -/
def messageOr (message : Option Str) : Str :=
  match message with
  | some m => if m = [] then "An unexpected error occurred.".toList else m
  | none => "An unexpected error occurred.".toList

/-- The `catch` block: the error is logged, its message is stored in the error
modal and the step is set to 0. -/
def failure (message : Option Str) : List Event :=
  [Event.consoleError, Event.setErrorModal (some (messageOr message)), Event.setGenerationStep 0]

/-- Lines 126-127: the run finishes. -/
def finish : List Event × Option Pending :=
  ([Event.setGenerationStep 5, Event.setShowModal true], none)

/-- Lines 116-127: the validation step, skipped when `skipValidation` is set. -/
def validationStep (ctx : Ui) : List Event × Option Pending :=
  if !ctx.skipValidation then
    ([Event.setGenerationStep 4,
      Event.call (Call.validation ctx.funcName ctx.funcCode (lineStr ctx.rois))],
     some { ctx := ctx, awaiting := Await.validation })
  else finish

/-- Lines 97-109: the step is set to 2 and the injection call is issued. -/
def injectionStep (ctx : Ui) : List Event × Option Pending :=
  ([Event.setGenerationStep 2,
    Event.call (Call.injection ctx.funcName ctx.funcCode (lineStr ctx.rois) (roiStr ctx.rois)
      ctx.cweIds)],
   some { ctx := ctx, awaiting := Await.injection })

/-- Lines 91-94: the head of the `for (const cweId of cweList)` loop, for the
identifiers still to be researched. -/
def researchLoop (ctx : Ui) : List Str → List Event × Option Pending
  | [] => injectionStep ctx
  | cweId :: rest =>
    ([Event.call (Call.research cweId)], some { ctx := ctx, awaiting := Await.research cweId rest })

/-- What a suspended execution does when its awaited call settles, up to the
next `await` or the end of the function. -/
def resume (p : Pending) : Reply → List Event × Option Pending
  | Reply.rejected message => (failure message, none)
  | Reply.data truthy =>
    match p.awaiting with
    | Await.research cweId rest =>
      if truthy then researchLoop p.ctx rest
      else (failure (some ("Research failed for ".toList ++ cweId)), none)
    | Await.injection =>
      if truthy then
        (Event.setGenerationStep 3 :: (validationStep p.ctx).1, (validationStep p.ctx).2)
      else (failure (some "Injection failed".toList), none)
    | Await.validation =>
      if truthy then finish else (failure (some "Validation failed".toList), none)

/-- Lines 84-91: `handleGenerate` up to its first `await`.  `validateInput` stores
the error object and the function returns when it has a key. -/
def startGenerate (ui : Ui) : List Event × Option Pending :=
  if validateInput ui.funcCode ui.funcName ui.cweIds ui.rois then
    (Event.setErrors (newErrors ui.funcCode ui.funcName ui.cweIds ui.rois)
        :: Event.setGenerationStep 1 :: (researchLoop ui (cweList ui.cweIds)).1,
      (researchLoop ui (cweList ui.cweIds)).2)
  else ([Event.setErrors (newErrors ui.funcCode ui.funcName ui.cweIds ui.rois)], none)

/-- The events of a suspended execution when its successive calls settle as
`replies`; the execution stays suspended when the replies run out. -/
def settle : Option Pending → List Reply → List Event
  | none, _ => []
  | some _, [] => []
  | some p, r :: rs => Event.reply r :: ((resume p r).1 ++ settle (resume p r).2 rs)

/-- One run: all events of `handleGenerate` started in state `ui`, the calls it
issues settling as `replies`. -/
def handleGenerate (ui : Ui) (replies : List Reply) : List Event :=
  (startGenerate ui).1 ++ settle (startGenerate ui).2 replies

/-- The effect of one event on the React state. -/
def Ui.apply (ui : Ui) : Event → Ui
  | Event.setErrors e => { ui with errors := e }
  | Event.setGenerationStep n => { ui with generationStep := n }
  | Event.setShowModal b => { ui with showModal := b }
  | Event.setErrorModal m => { ui with errorModal := m }
  | Event.call _ => ui
  | Event.reply _ => ui
  | Event.consoleError => ui

/-- The React state after a sequence of events. -/
def Ui.applyAll (ui : Ui) (events : List Event) : Ui :=
  events.foldl Ui.apply ui

/-- The remote calls among a sequence of events, in order. -/
def callsOf : List Event → List Call
  | [] => []
  | Event.call c :: rest => c :: callsOf rest
  | _ :: rest => callsOf rest

/-- The settled replies among a sequence of events, in order. -/
def repliesOf : List Event → List Reply
  | [] => []
  | Event.reply r :: rest => r :: repliesOf rest
  | _ :: rest => repliesOf rest

/-- The values passed to `setGenerationStep` among a sequence of events, in order. -/
def stepsOf : List Event → List Nat
  | [] => []
  | Event.setGenerationStep n :: rest => n :: stepsOf rest
  | _ :: rest => stepsOf rest

/-- The injection call of a run started in state `ui`. -/
def injectionCall (ui : Ui) : Call :=
  Call.injection ui.funcName ui.funcCode (lineStr ui.rois) (roiStr ui.rois) ui.cweIds

/-- The validation call of a run started in state `ui`, if the run has one. -/
def validationCalls (ui : Ui) : List Call :=
  if ui.skipValidation then [] else [Call.validation ui.funcName ui.funcCode (lineStr ui.rois)]

/-- The calls of a run in which every call succeeds: one research call per
identifier, the injection call, the validation call. -/
def plannedCalls (ui : Ui) : List Call :=
  (cweList ui.cweIds).map Call.research ++ injectionCall ui :: validationCalls ui

/-- The calls a suspended execution still has to issue once the call it awaits
has succeeded. -/
def Pending.expected (p : Pending) : List Call :=
  match p.awaiting with
  | Await.research _ rest => rest.map Call.research ++ injectionCall p.ctx :: validationCalls p.ctx
  | Await.injection => validationCalls p.ctx
  | Await.validation => []

/-- The values a suspended execution still has to pass to `setGenerationStep`
while its calls succeed. -/
def Pending.stepsLeft (p : Pending) : List Nat :=
  match p.awaiting with
  | Await.research _ _ => if p.ctx.skipValidation then [2, 3, 5] else [2, 3, 4, 5]
  | Await.injection => if p.ctx.skipValidation then [3, 5] else [3, 4, 5]
  | Await.validation => [5]

/-- The identifier of a research call. -/
def Call.researchId : Call → Option Str
  | Call.research cwe_id => some cwe_id
  | _ => none

/-- Whether a call is the injection call. -/
def Call.isInjection : Call → Bool
  | Call.injection _ _ _ _ _ => true
  | _ => false

/-- Whether a call is the validation call. -/
def Call.isValidation : Call → Bool
  | Call.validation _ _ _ => true
  | _ => false

/-- Events that neither issue a call nor settle one. -/
def Event.quiet : Event → Bool
  | Event.call _ => false
  | Event.reply _ => false
  | _ => true

/-- Well-ordered traces: a call is issued only when no call is outstanding and no
call has failed; a call that succeeds is followed by the rest of the trace, a
call that fails is followed by the `catch` block and nothing else. -/
inductive Orderly : List Event → Prop where
  | done : Orderly []
  | quiet (e : Event) (evs : List Event) : e.quiet = true → Orderly evs → Orderly (e :: evs)
  | inflight (c : Call) : Orderly [Event.call c]
  | ok (c : Call) (evs : List Event) :
      Orderly evs → Orderly (Event.call c :: Event.reply (Reply.data true) :: evs)
  | failed (c : Call) (r : Reply) (message : Option Str) :
      r ≠ Reply.data true → Orderly (Event.call c :: Event.reply r :: failure message)

/-- The order in which a run sets the step while its calls succeed. -/
def stepOrder (skipValidation : Bool) : List Nat :=
  if skipValidation then [1, 2, 3, 5] else [1, 2, 3, 4, 5]

/-! ## The other handlers of the page and the page as a transition system -/

/-- The handler `handleReset`. -/
def handleReset (ui : Ui) : Ui :=
  { ui with funcCode := [], funcName := [], cweIds := [], rois := [{ roi := [], line := [] }],
            errors := [], generationStep := 0, showModal := false, errorModal := none }

/-- The handler `handleAddRoi`. -/
def handleAddRoi (ui : Ui) : Ui :=
  { ui with rois := ui.rois ++ [{ roi := [], line := [] }] }

/-- The handler `handleRemoveRoi`: `rois.filter((_, i) => i !== index)`. -/
def handleRemoveRoi (ui : Ui) (index : Nat) : Ui :=
  { ui with rois := ui.rois.eraseIdx index }

/-- The two fields of a region that `handleRoiChange` can write. -/
inductive RoiField where
  | roi : RoiField
  | line : RoiField
  deriving DecidableEq

/-- The assignment `newRois[index][field] = value`. -/
def setRoiField (field : RoiField) (value : Str) : Nat → List Roi → List Roi
  | _, [] => []
  | 0, r :: rest =>
    (match field with
      | RoiField.roi => { r with roi := value }
      | RoiField.line => { r with line := value }) :: rest
  | index + 1, r :: rest => r :: setRoiField field value index rest

/-- The handler `handleRoiChange`, for an index inside the list: the value passed
to `setRois`.  The handler copies the array and assigns into the region object
itself (`newRois[index][field] = value`), so the assignment is also seen through
every other array that holds the object; `Live.perform` describes that. -/
def handleRoiChange (ui : Ui) (index : Nat) (field : RoiField) (value : Str) : Ui :=
  { ui with rois := setRoiField field value index ui.rois }

/-- The field `merged_roi_lines` of a sample, which arrives as a string, as a
number or not at all.  The numbers covered are the non-negative safe integers,
`n < 2^53`: for these `String(n)` is the decimal numeral of `n`.  Other numbers
(fractions, negative numbers, integers that are not safe, which `String` rounds
or, from `1e21` on, prints with an exponent) are not values of this type. -/
inductive LinesField where
  | absent : LinesField
  | str (s : Str) : LinesField
  | num (n : Nat) (safe : n < 2 ^ 53) : LinesField
  deriving DecidableEq

/-- The constant `rawLines`:
`res.data.merged_roi_lines ? String(res.data.merged_roi_lines) : ''`.  The empty
string and the number 0 are falsy. -/
def rawLinesOf : LinesField → Str
  | LinesField.absent => []
  | LinesField.str s => s
  | LinesField.num n _ => if n = 0 then [] else decimal n

/-- The `data` of a sample response. -/
structure SampleData where
  func_name : Str
  raw_code : Str
  cwe_ids : Str
  roi : Option Str
  merged_roi_lines : LinesField
  deriving DecidableEq

/-- How the `getSample` call settles: resolved with `data` (falsy when absent),
or rejected. -/
inductive SampleReply where
  | data (d : Option SampleData) : SampleReply
  | rejected : SampleReply
  deriving DecidableEq

/-- The body of the Sample button handler after `await getSample()`. -/
def sampleSettled (ui : Ui) : SampleReply → Ui
  | SampleReply.data none => ui
  | SampleReply.data (some d) =>
    { ui with funcName := d.func_name, funcCode := d.raw_code, cweIds := d.cwe_ids,
              rois := importSample (d.roi.getD []) (rawLinesOf d.merged_roi_lines) }
  | SampleReply.rejected => { ui with errorModal := some "Failed to load sample data.".toList }

/-- The page: its React state, the suspended executions of `handleGenerate`
and the number of `getSample` calls not yet settled. -/
structure Page where
  ui : Ui
  runs : List Pending
  samples : Nat
  deriving DecidableEq

/-- The freshly mounted page. -/
def Page.initial : Page :=
  { ui := Ui.initial, runs := [], samples := 0 }

/-- What can happen to the page: the user operates a control, or an awaited
call settles.  (`View Results` leaves the page and is not listed.) -/
inductive Action where
  | setFuncCode (value : Str) : Action
  | setFuncName (value : Str) : Action
  | setCweIds (value : Str) : Action
  | setSkipValidation (checked : Bool) : Action
  | addRoi : Action
  | removeRoi (index : Nat) : Action
  | roiChange (index : Nat) (field : RoiField) (value : Str) : Action
  | reset : Action
  | sample : Action
  | generate : Action
  | closeResult : Action
  | startNew : Action
  | closeError : Action
  | errorReset : Action
  | retry : Action
  | runSettles (i : Nat) (r : Reply) : Action
  | sampleSettles (r : SampleReply) : Action
  deriving DecidableEq

/-- Whether the control is rendered and not disabled, respectively whether the
settling call exists.  The configuration inputs are rendered when
`generationStep === 0`; the text area, Sample and Generate are disabled when
`generationStep > 0`; Reset is disabled when `generationStep > 0 &&
generationStep < 5`; the buttons of a modal exist while the modal is shown. -/
def Page.enabled (p : Page) : Action → Bool
  | Action.setFuncCode _ => decide (p.ui.generationStep = 0)
  | Action.setFuncName _ => decide (p.ui.generationStep = 0)
  | Action.setCweIds _ => decide (p.ui.generationStep = 0)
  | Action.setSkipValidation _ => decide (p.ui.generationStep = 0)
  | Action.addRoi => decide (p.ui.generationStep = 0)
  | Action.removeRoi index => decide (p.ui.generationStep = 0 ∧ index < p.ui.rois.length)
  | Action.roiChange index _ _ => decide (p.ui.generationStep = 0 ∧ index < p.ui.rois.length)
  | Action.reset => !(decide (p.ui.generationStep > 0) && decide (p.ui.generationStep < 5))
  | Action.sample => decide (p.ui.generationStep = 0)
  | Action.generate => decide (p.ui.generationStep = 0)
  | Action.closeResult => p.ui.showModal
  | Action.startNew => p.ui.showModal
  | Action.closeError => p.ui.errorModal.isSome
  | Action.errorReset => p.ui.errorModal.isSome
  | Action.retry => p.ui.errorModal.isSome
  | Action.runSettles i _ => decide (i < p.runs.length)
  | Action.sampleSettles _ => decide (0 < p.samples)

/-- The suspended executions after the `i`-th one has run on to `next`. -/
def replaceRun (runs : List Pending) (i : Nat) (next : Option Pending) : List Pending :=
  runs.take i ++ next.toList ++ runs.drop (i + 1)

/-- The page after an action. -/
def Page.perform (p : Page) : Action → Page
  | Action.setFuncCode value => { p with ui := { p.ui with funcCode := value } }
  | Action.setFuncName value => { p with ui := { p.ui with funcName := value } }
  | Action.setCweIds value => { p with ui := { p.ui with cweIds := value } }
  | Action.setSkipValidation checked => { p with ui := { p.ui with skipValidation := checked } }
  | Action.addRoi => { p with ui := handleAddRoi p.ui }
  | Action.removeRoi index => { p with ui := handleRemoveRoi p.ui index }
  | Action.roiChange index field value => { p with ui := handleRoiChange p.ui index field value }
  | Action.reset => { p with ui := handleReset p.ui }
  | Action.sample => { p with samples := p.samples + 1 }
  | Action.generate =>
    { p with ui := p.ui.applyAll (startGenerate p.ui).1,
             runs := p.runs ++ (startGenerate p.ui).2.toList }
  | Action.closeResult => { p with ui := { p.ui with showModal := false } }
  | Action.startNew => { p with ui := handleReset p.ui }
  | Action.closeError => { p with ui := { p.ui with errorModal := none } }
  | Action.errorReset => { p with ui := handleReset p.ui }
  | Action.retry =>
    { p with ui := ({ p.ui with errorModal := none } : Ui).applyAll (startGenerate p.ui).1,
             runs := p.runs ++ (startGenerate p.ui).2.toList }
  | Action.runSettles i r =>
    match p.runs.get? i with
    | some run =>
      { p with ui := p.ui.applyAll (resume run r).1,
               runs := replaceRun p.runs i (resume run r).2 }
    | none => p
  | Action.sampleSettles r => { p with ui := sampleSettled p.ui r, samples := p.samples - 1 }

/-- The stages of the specification. -/
inductive Stage where
  | Idle | Researching | CheckingKnowledge | Injecting | Validating | Completed | Failed
  deriving DecidableEq, Repr

/-- The stage shown by a value of `generationStep`, after the comment of its
declaration: `0: Idle, 1-4: Steps, 5: Finished`. -/
def stageOfStep : Nat → Stage
  | 0 => Stage.Idle
  | 1 => Stage.Researching
  | 2 => Stage.CheckingKnowledge
  | 3 => Stage.Injecting
  | 4 => Stage.Validating
  | _ => Stage.Completed

/-- The stage of the specification that a React state presents: `Failed` while
the error modal ("Generation Failed") is up, otherwise the stage of the step. -/
def Ui.stage (ui : Ui) : Stage :=
  if ui.errorModal.isSome then Stage.Failed else stageOfStep ui.generationStep

/-! ## Notions used to state the properties -/

/-- A filled-in form on the freshly mounted page: function `f`, identifiers
`CWE-1, CWE-2`, one region with code `a` at line `1`. -/
def exampleUi : Ui :=
  { Ui.initial with funcCode := ['f'], funcName := ['f'], cweIds := "CWE-1, CWE-2".toList,
                    rois := [{ roi := ['a'], line := ['1'] }] }

/-- Whether the marker expression `/(\d+)\.\s/` matches at some position of `s`. -/
def hasMarker : Str → Bool
  | [] => false
  | c :: cs => (matchMarker (c :: cs)).isSome || hasMarker cs

/-- The parts into which the importer cuts an encoded list whose codes hold no
marker: label, code and line break, label, code and line break, ..., label,
code. -/
def partsFrom : Nat → List Roi → List Str
  | _, [] => []
  | i, [r] => [decimal (i + 1), r.roi]
  | i, r :: r2 :: rs => decimal (i + 1) :: (r.roi ++ ['\n']) :: partsFrom (i + 1) (r2 :: rs)

/-- The example form after Generate was pressed and the first research call
resolved with a falsy payload. -/
def failedPage : Page :=
  (({ ui := exampleUi, runs := [], samples := 0 } : Page).perform Action.generate).perform
    (Action.runSettles 0 (Reply.data false))

/-- A non-empty run of decimal digits. -/
def Digits (s : Str) : Prop :=
  s ≠ [] ∧ ∀ c ∈ s, isDigit c = true

/-- The line grammar in words: one or more digits, or one or more digits, a
single `-`, and one or more digits. -/
def LineGrammar (s : Str) : Prop :=
  Digits s ∨ ∃ a b, s = a ++ '-' :: b ∧ Digits a ∧ Digits b

/-- A CWE token: one or more characters of `[A-Za-z0-9_-]`. -/
def Token (t : Str) : Prop :=
  t ≠ [] ∧ ∀ c ∈ t, isWordOrDash c = true

/-- A possibly empty run of white space. -/
def Spaces (w : Str) : Prop :=
  ∀ c ∈ w, isSpace c = true

/-- A comma-separated list of one or more tokens.  White space may follow each
comma; when `before` is set it may precede each comma as well. -/
inductive CommaList (before : Bool) : Str → Prop where
  | one (t : Str) : Token t → CommaList before t
  | more (t w1 w2 rest : Str) : Token t → Spaces w1 → (before = false → w1 = []) → Spaces w2 →
      CommaList before rest → CommaList before (t ++ w1 ++ ',' :: (w2 ++ rest))

/-- The captured codes that the importer loop turns into regions: of the parts
after the first, every second one, when it is a non-empty string. -/
def codesOf : List Str → List Str
  | _ :: code :: rest => if code ≠ [] then code :: codesOf rest else codesOf rest
  | _ => []

/-- The regions the importer loop builds from the captured codes: the code
trimmed, with the line at the same position, counted from `k`, or the empty
string where the line list has no such position. -/
def pairUp (lines : List Str) : Nat → List Str → List Roi
  | _, [] => []
  | k, code :: codes =>
    { roi := trim code, line := (lines[k]?).getD [] } :: pairUp lines (k + 1) codes

/-- The parts of a split with every label replaced by `label`. -/
def relabel (label : Str) : List Str → List Str
  | _ :: code :: rest => label :: code :: relabel label rest
  | rest => rest

/-- The events of the research loop when every research call succeeds. -/
def researchEvents : List Str → List Event
  | [] => []
  | cweId :: rest =>
    Event.call (Call.research cweId) :: Event.reply (Reply.data true) :: researchEvents rest

/-- The replies of a run in which every planned call succeeds. -/
def allTruthy (ui : Ui) : List Reply :=
  List.replicate (plannedCalls ui).length (Reply.data true)

/-- Two states hold the same request: the five values that `handleGenerate` reads. -/
def SameRequest (a b : Ui) : Prop :=
  a.funcCode = b.funcCode ∧ a.funcName = b.funcName ∧ a.cweIds = b.cweIds ∧ a.rois = b.rois
    ∧ a.skipValidation = b.skipValidation

/-- The encoding of the codes in the words of the specification: the strings
`"<i+1>. <code_i>"`, with the decimal numeral of `i + 1`, joined by line breaks. -/
def numberedListing (rois : List Roi) : Str :=
  List.intercalate ['\n']
    (rois.enum.map fun p => (Nat.repr (p.1 + 1)).toList ++ ['.', ' '] ++ p.2.roi)

/-- The encoding of the lines in the words of the specification: the lineSpecs
joined by line breaks. -/
def lineListing (rois : List Roi) : Str :=
  List.intercalate ['\n'] (rois.map fun r => r.line)

/-- Performs the actions one after the other, as long as each is available
when its turn comes. -/
def Page.performAll : Page → List Action → Option Page
  | p, [] => some p
  | p, a :: rest => if p.enabled a = true then (p.perform a).performAll rest else none

/-- The page on which the example request was typed in, a sample was requested,
Generate was pressed, both research calls succeeded, the sample request failed
and Reset was pressed in the error dialog: the injection call is in flight. -/
def stalePage : Page :=
  { ui := handleReset exampleUi,
    runs := [{ ctx := exampleUi, awaiting := Await.injection }], samples := 0 }

/-- The actions that lead from the freshly mounted page to `stalePage`. -/
def stalePath : List Action :=
  [Action.setFuncCode ['f'], Action.setFuncName ['f'], Action.setCweIds "CWE-1, CWE-2".toList,
   Action.roiChange 0 RoiField.roi ['a'], Action.roiChange 0 RoiField.line ['1'],
   Action.sample, Action.generate, Action.runSettles 0 (Reply.data true),
   Action.runSettles 0 (Reply.data true), Action.sampleSettles SampleReply.rejected,
   Action.errorReset]

/-- An occurrence of the marker expression in `s`: somewhere in `s` stand one or
more digits, a `.` and one white-space character. -/
def MarkerOccurs (s : Str) : Prop :=
  ∃ pre ds w rest, s = pre ++ (ds ++ '.' :: w :: rest) ∧ Digits ds ∧ isSpace w = true

/-- A piece of the raw CWE string that holds the identifier `id`: the identifier
with white space before and after it. -/
def Padded (piece id : Str) : Prop :=
  Token id ∧ ∃ a b, Spaces a ∧ Spaces b ∧ piece = a ++ id ++ b

/-- The example request with white space around every field. -/
def paddedUi : Ui :=
  { Ui.initial with funcCode := " g() ".toList, funcName := " g ".toList,
                    cweIds := " CWE-1,  CWE-2 ".toList,
                    rois := [{ roi := " a ".toList, line := " 1 ".toList }] }

/-- The state after the four request fields were typed over. -/
def retype (ui : Ui) (fc fn ids : Str) (rois : List Roi) : Ui :=
  { ui with funcCode := fc, funcName := fn, cweIds := ids, rois := rois }

/-- The call a suspended execution is waiting on. -/
def Pending.call (p : Pending) : Call :=
  match p.awaiting with
  | Await.research cweId _ => Call.research cweId
  | Await.injection => injectionCall p.ctx
  | Await.validation => Call.validation p.ctx.funcName p.ctx.funcCode (lineStr p.ctx.rois)

/-- The `message` of the error that reaches the `catch` block when the call `c`
settles as `r`: the message of the rejection, or the message of the `Error`
thrown after the call for a falsy payload (lines 93, 110 and 122). -/
def thrown (c : Call) : Reply → Option Str
  | Reply.rejected message => message
  | Reply.data _ =>
    match c with
    | Call.research cwe_id => some ("Research failed for ".toList ++ cwe_id)
    | Call.injection _ _ _ _ _ => some "Injection failed".toList
    | Call.validation _ _ _ => some "Validation failed".toList

/-- The value of `generationStep` set last before the call is issued: 1 before
the research loop, 2 before the injection call, 4 before the validation call. -/
def Call.step : Call → Nat
  | Call.research _ => 1
  | Call.injection _ _ _ _ _ => 2
  | Call.validation _ _ _ => 4

/-! ## The region objects

The arrays `rois` of different renders share their region objects.  The
definitions above describe every handler by the value it passes to its setter;
the definitions below add what an assignment into a shared object does to the
array that a suspended execution of `handleGenerate` holds. -/

/-- The page together with the identity of its region objects.  In the source a
region is an object and the arrays `rois` of different renders share their
objects: `handleAddRoi` and `handleRemoveRoi` build a new array around the
objects of the old one, `handleRoiChange` copies the array and assigns into the
object at `index`, `handleReset` and the sample importer create new objects.
A suspended execution of `handleGenerate` holds the array of the render that
started it.  `ids` names the object behind each entry of `page.ui.rois`,
`runIds` the objects behind the entries of the array held by each suspended
execution, `fresh` is the next unused name. -/
structure Live where
  page : Page
  ids : List Nat
  runIds : List (List Nat)
  fresh : Nat
  deriving DecidableEq

/-- The freshly mounted page: one region object. -/
def Live.initial : Live :=
  { page := Page.initial, ids := [0], runIds := [], fresh := 1 }

/-- The assignment `newRois[index][field] = value` seen through an array whose
entries are the objects `ids`: the entry that is the object `id` changes. -/
def assignShared (field : RoiField) (value : Str) (id : Nat) : List Nat → List Roi → List Roi
  | i :: ids, r :: rs =>
    (if i = id then
        (match field with
          | RoiField.roi => { r with roi := value }
          | RoiField.line => { r with line := value })
      else r) :: assignShared field value id ids rs
  | _, rs => rs

/-- What a suspended execution sees of the assignment.  The constants `roiStr`
and `lineStr` are computed from `rois` after the research loop (lines 100-101):
an execution that is still in the loop will read the changed object; a later
one has read its regions already. -/
def shareEdit (field : RoiField) (value : Str) (id : Nat) (run : Pending) (ids : List Nat) :
    Pending :=
  match run.awaiting with
  | Await.research _ _ =>
    { run with ctx := { run.ctx with rois := assignShared field value id ids run.ctx.rois } }
  | _ => run

/-- The assignment as seen by all suspended executions. -/
def shareEdits (field : RoiField) (value : Str) (id : Nat) :
    List Pending → List (List Nat) → List Pending
  | run :: runs, ids :: rest => shareEdit field value id run ids :: shareEdits field value id runs rest
  | runs, _ => runs

/-- The page after an action, with the region objects: the state changes as in
`Page.perform`; in addition the assignment of `handleRoiChange` reaches the
suspended executions that hold the object, and the names follow the arrays. -/
def Live.perform (l : Live) : Action → Live
  | Action.addRoi =>
    { l with page := l.page.perform Action.addRoi, ids := l.ids ++ [l.fresh],
             fresh := l.fresh + 1 }
  | Action.removeRoi index =>
    { l with page := l.page.perform (Action.removeRoi index), ids := l.ids.eraseIdx index }
  | Action.roiChange index field value =>
    match l.ids[index]? with
    | some id =>
      { l with page := { l.page.perform (Action.roiChange index field value) with
                          runs := shareEdits field value id l.page.runs l.runIds } }
    | none => { l with page := l.page.perform (Action.roiChange index field value) }
  | Action.reset =>
    { l with page := l.page.perform Action.reset, ids := [l.fresh], fresh := l.fresh + 1 }
  | Action.startNew =>
    { l with page := l.page.perform Action.startNew, ids := [l.fresh], fresh := l.fresh + 1 }
  | Action.errorReset =>
    { l with page := l.page.perform Action.errorReset, ids := [l.fresh], fresh := l.fresh + 1 }
  | Action.generate =>
    { l with page := l.page.perform Action.generate,
             runIds := l.runIds ++ (startGenerate l.page.ui).2.toList.map fun _ => l.ids }
  | Action.retry =>
    { l with page := l.page.perform Action.retry,
             runIds := l.runIds ++ (startGenerate l.page.ui).2.toList.map fun _ => l.ids }
  | Action.runSettles i r =>
    match l.page.runs.get? i with
    | some run =>
      { l with page := l.page.perform (Action.runSettles i r),
               runIds := l.runIds.take i ++ ((resume run r).2.toList.map fun _ => l.runIds.getD i [])
                 ++ l.runIds.drop (i + 1) }
    | none => { l with page := l.page.perform (Action.runSettles i r) }
  | Action.sampleSettles (SampleReply.data (some d)) =>
    { l with page := l.page.perform (Action.sampleSettles (SampleReply.data (some d))),
             ids := List.range' l.fresh
               (importSample (d.roi.getD []) (rawLinesOf d.merged_roi_lines)).length,
             fresh := l.fresh
               + (importSample (d.roi.getD []) (rawLinesOf d.merged_roi_lines)).length }
  | a => { l with page := l.page.perform a }

/-- Performs the actions one after the other, as long as each is available
when its turn comes. -/
def Live.performAll : Live → List Action → Option Live
  | l, [] => some l
  | l, a :: rest => if l.page.enabled a = true then (l.perform a).performAll rest else none

/-- The actions of the failing input of C2: the request `f`, `f`, `CWE-1`,
region `{a, 1}` is typed in and a sample is requested; Generate is pressed;
the sample request fails and Retry is pressed in its dialog, which starts a
second execution; the research call of the first execution resolves with a
falsy payload and its dialog is closed; the region is edited to `{"", x}`. -/
def editedPath : List Action :=
  [Action.setFuncCode ['f'], Action.setFuncName ['f'], Action.setCweIds "CWE-1".toList,
   Action.roiChange 0 RoiField.roi ['a'], Action.roiChange 0 RoiField.line ['1'],
   Action.sample, Action.generate, Action.sampleSettles SampleReply.rejected, Action.retry,
   Action.runSettles 0 (Reply.data false), Action.closeError,
   Action.roiChange 0 RoiField.roi [], Action.roiChange 0 RoiField.line ['x']]

/-- The actions that lead from the freshly mounted page to a page on which the
injection call of a run is in flight and the error dialog of a failed sample
request is up: `stalePath` without its last action, the reset. -/
def inflightPath : List Action :=
  [Action.setFuncCode ['f'], Action.setFuncName ['f'], Action.setCweIds "CWE-1, CWE-2".toList,
   Action.roiChange 0 RoiField.roi ['a'], Action.roiChange 0 RoiField.line ['1'],
   Action.sample, Action.generate, Action.runSettles 0 (Reply.data true),
   Action.runSettles 0 (Reply.data true), Action.sampleSettles SampleReply.rejected]

/-- The page reached by `inflightPath`: the stored step is 2, the run started
from the example request is suspended on its injection call, and the error
dialog of the failed sample request is up. -/
def inflightPage : Page :=
  { ui := { exampleUi with generationStep := 2,
                           errorModal := some "Failed to load sample data.".toList },
    runs := [{ ctx := exampleUi, awaiting := Await.injection }], samples := 0 }

/-- The page reached by `editedPath`, with its region objects: the page shows
step 0 and the region `{"", x}`; the second run is suspended on its research
call and its array holds the same region object. -/
def editedLive : Live :=
  { page :=
      { ui := { exampleUi with cweIds := "CWE-1".toList, rois := [{ roi := [], line := ['x'] }] },
        runs := [{ ctx := { exampleUi with
                              cweIds := "CWE-1".toList, rois := [{ roi := [], line := ['x'] }],
                              generationStep := 1,
                              errorModal := some "Failed to load sample data.".toList },
                   awaiting := Await.research "CWE-1".toList [] }],
        samples := 0 },
    ids := [0], runIds := [[0]], fresh := 1 }

/-! ## Character classes -/

theorem isDigit_not_isSpace {c : Char} (h : isDigit c = true) : isSpace c = false := by
  simp only [isDigit, isSpace, decide_eq_true_eq, decide_eq_false_iff_not] at *
  omega

theorem isDigit_ne_dot {c : Char} (h : isDigit c = true) : c ≠ '.' := by
  rintro rfl
  revert h
  decide

theorem digitChar_isDigit (n : Nat) (h : n < 10) : isDigit (Nat.digitChar n) = true := by
  interval_cases n <;> decide

theorem toDigitsCore_isDigit (fuel : Nat) : ∀ (n : Nat) (ds : List Char),
    (∀ c ∈ ds, isDigit c = true) → ∀ c ∈ Nat.toDigitsCore 10 fuel n ds, isDigit c = true := by
  induction fuel with
  | zero => intro n ds h; simpa [Nat.toDigitsCore] using h
  | succ fuel ih =>
    intro n ds h
    have hd : isDigit (Nat.digitChar (n % 10)) = true := digitChar_isDigit _ (Nat.mod_lt _ (by decide))
    have h' : ∀ c ∈ Nat.digitChar (n % 10) :: ds, isDigit c = true := by
      intro c hc
      rcases List.mem_cons.1 hc with rfl | hc
      · exact hd
      · exact h c hc
    simp only [Nat.toDigitsCore]
    split
    · exact h'
    · exact ih _ _ h'

theorem toDigitsCore_ne_nil (fuel : Nat) : ∀ (n : Nat) (ds : List Char),
    ds ≠ [] → Nat.toDigitsCore 10 fuel n ds ≠ [] := by
  induction fuel with
  | zero => intro n ds h; simpa [Nat.toDigitsCore] using h
  | succ fuel ih =>
    intro n ds _
    simp only [Nat.toDigitsCore]
    split
    · simp
    · exact ih _ _ (by simp)

theorem decimal_isDigit (n : Nat) : ∀ c ∈ decimal n, isDigit c = true :=
  toDigitsCore_isDigit _ _ _ (by simp)

theorem decimal_ne_nil (n : Nat) : decimal n ≠ [] := by
  unfold decimal Nat.toDigits
  simp only [Nat.toDigitsCore]
  split
  · simp
  · exact toDigitsCore_ne_nil _ _ _ (by simp)

/-! ## Trimming -/

/-- A string is fixed by `dropWhile` exactly when it is empty or starts with a
character outside the class. -/
theorem dropWhile_eq_self_cases {p : Char → Bool} {s : Str} (h : s.dropWhile p = s) :
    s = [] ∨ ∃ c cs, s = c :: cs ∧ p c = false := by
  cases s with
  | nil => exact Or.inl rfl
  | cons c cs =>
    right
    refine ⟨c, cs, rfl, ?_⟩
    cases hp : p c with
    | false => rfl
    | true =>
      exfalso
      rw [List.dropWhile_cons_of_pos hp] at h
      have h1 := (List.dropWhile_suffix p (l := cs)).length_le
      rw [h] at h1
      simp at h1

theorem trimStart_of_trim_eq {s : Str} (h : trim s = s) : trimStart s = s := by
  have h1 : (trimStart s).length ≤ s.length := (List.dropWhile_suffix isSpace).length_le
  have h2 : (trim s).length ≤ (trimStart s).length := by
    unfold trim trimEnd
    rw [List.length_reverse]
    exact ((List.dropWhile_suffix isSpace).length_le).trans (by simp)
  rw [h] at h2
  exact (List.dropWhile_suffix isSpace).eq_of_length (le_antisymm h1 h2)

theorem trimEnd_of_trim_eq {s : Str} (h : trim s = s) : trimEnd s = s := by
  have h1 := trimStart_of_trim_eq h
  unfold trim at h
  rwa [h1] at h

/-- A non-empty string fixed by `trim` starts with a character that is not white space. -/
theorem head_of_trim_eq {s : Str} (h : trim s = s) (hne : s ≠ []) :
    ∃ c cs, s = c :: cs ∧ isSpace c = false := by
  rcases dropWhile_eq_self_cases (trimStart_of_trim_eq h) with h0 | h0
  · exact absurd h0 hne
  · exact h0

/-- A non-empty string fixed by `trim` ends with a character that is not white space. -/
theorem last_of_trim_eq {s : Str} (h : trim s = s) (hne : s ≠ []) :
    ∃ d ds, s.reverse = d :: ds ∧ isSpace d = false := by
  have h1 : s.reverse.dropWhile isSpace = s.reverse := by
    have := congrArg List.reverse (trimEnd_of_trim_eq h)
    simpa [trimEnd] using this
  rcases dropWhile_eq_self_cases h1 with h0 | h0
  · exact absurd (List.reverse_eq_nil_iff.1 h0) hne
  · exact h0

/-- White space appended to a trimmed, non-empty string is removed by `trim`. -/
theorem trim_append_spaces {s ws : Str} (h : trim s = s) (hne : s ≠ [])
    (hws : ∀ c ∈ ws, isSpace c = true) : trim (s ++ ws) = s := by
  obtain ⟨c, cs, hs, hc⟩ := head_of_trim_eq h hne
  obtain ⟨d, ds, hr, hd⟩ := last_of_trim_eq h hne
  have e1 : trimStart (s ++ ws) = s ++ ws := by
    unfold trimStart
    rw [hs, List.cons_append, List.dropWhile_cons_of_neg (by simp [hc])]
  unfold trim
  rw [e1]
  unfold trimEnd
  rw [List.reverse_append, List.dropWhile_append_of_pos (by simpa using hws), hr,
    List.dropWhile_cons_of_neg (by simp [hd]), ← hr, List.reverse_reverse]

/-- The guard `isBlank` holds exactly for the strings made of white space only. -/
theorem isBlank_iff (s : Str) : isBlank s = true ↔ ∀ c ∈ s, isSpace c = true := by
  unfold isBlank
  simp only [Bool.or_eq_true, decide_eq_true_eq]
  constructor
  · rintro (h | h)
    · simp [h]
    · unfold trim trimEnd at h
      rw [List.reverse_eq_nil_iff, List.dropWhile_eq_nil_iff] at h
      have h2 : trimStart s = [] := by
        rcases hts : trimStart s with _ | ⟨c, cs⟩
        · rfl
        · exfalso
          have h3 := List.head?_dropWhile_not isSpace s
          unfold trimStart at hts
          rw [hts] at h3
          have h4 : isSpace c = true := h c (by rw [List.mem_reverse]; unfold trimStart; rw [hts]; simp)
          simp [h4] at h3
      unfold trimStart at h2
      exact List.dropWhile_eq_nil_iff.1 h2
  · intro h
    right
    have h2 : trimStart s = [] := List.dropWhile_eq_nil_iff.2 h
    unfold trim
    rw [h2]
    rfl

theorem isBlank_false_iff (s : Str) : isBlank s = false ↔ trim s ≠ [] := by
  unfold isBlank
  cases s with
  | nil => simp [trim, trimStart, trimEnd]
  | cons c cs => simp

/-! ## Splitting at markers -/

theorem matchMarker_marker {ds : Str} (w : Char) (rest : Str) (hne : ds ≠ [])
    (hds : ∀ c ∈ ds, isDigit c = true) (hw : isSpace w = true) :
    matchMarker (ds ++ '.' :: w :: rest) = some ([ds], ds.length + 2) := by
  have hdot : isDigit '.' = false := by decide
  have e1 : (ds ++ '.' :: w :: rest).takeWhile isDigit = ds := by
    rw [List.takeWhile_append_of_pos hds, List.takeWhile_cons_of_neg (by simp [hdot]),
      List.append_nil]
  have e2 : (ds ++ '.' :: w :: rest).dropWhile isDigit = '.' :: w :: rest := by
    rw [List.dropWhile_append_of_pos hds, List.dropWhile_cons_of_neg (by simp [hdot])]
  unfold matchMarker
  simp only [e1, e2]
  simp [hne, hw]

theorem matchMarker_some {s : Str} {r : List Str × Nat} (h : matchMarker s = some r) :
    ∃ ds w rest, s = ds ++ '.' :: w :: rest ∧ ds ≠ [] ∧ (∀ c ∈ ds, isDigit c = true)
      ∧ isSpace w = true ∧ r = ([ds], ds.length + 2) := by
  unfold matchMarker at h
  have hs := List.takeWhile_append_dropWhile isDigit s
  generalize hd : s.dropWhile isDigit = d at h hs
  match d, h with
  | dot :: w :: rest, h =>
    simp only at h
    split at h
    · rename_i hc
      obtain ⟨h1, h2, h3⟩ := hc
      refine ⟨s.takeWhile isDigit, w, rest, ?_, h1, ?_, h3, ?_⟩
      · rw [← h2]; exact hs.symm
      · intro c hc; exact List.mem_takeWhile_imp hc
      · exact (Option.some.inj h).symm
    · exact absurd h (by simp)

theorem matchMarker_append {s : Str} (u : Str) (h : (matchMarker s).isSome = true) :
    (matchMarker (s ++ u)).isSome = true := by
  obtain ⟨r, hr⟩ := Option.isSome_iff_exists.1 h
  obtain ⟨ds, w, rest, rfl, hne, hds, hw, -⟩ := matchMarker_some hr
  have := matchMarker_marker w (rest ++ u) hne hds hw
  simp only [List.append_assoc, List.cons_append]
  rw [this]; rfl

theorem matchMarker_newline (rest : Str) : matchMarker ('\n' :: rest) = none := by
  unfold matchMarker
  have : isDigit '\n' = false := by decide
  simp only [List.takeWhile_cons_of_neg (by simp [this] : ¬ isDigit '\n' = true),
    List.dropWhile_cons_of_neg (by simp [this] : ¬ isDigit '\n' = true)]
  split
  · simp
  · rfl

theorem matchMarker_before_newline {t : Str} (rest : Str)
    (h : (matchMarker (t ++ '\n' :: rest)).isSome = true) :
    (matchMarker (t ++ ['\n'])).isSome = true := by
  obtain ⟨r, hr⟩ := Option.isSome_iff_exists.1 h
  obtain ⟨ds, w, rest', he, hne, hds, hw, -⟩ := matchMarker_some hr
  rcases List.append_eq_append_iff.1 he with ⟨a, h1, h2⟩ | ⟨c, h1, h2⟩
  · exfalso
    cases a with
    | nil => simp at h2
    | cons x a =>
      simp only [List.cons_append, List.cons.injEq] at h2
      have : isDigit '\n' = true := hds _ (by rw [h1, ← h2.1]; simp)
      exact absurd this (by decide)
  · cases c with
    | nil => simp at h2
    | cons x c =>
      simp only [List.cons_append, List.cons.injEq] at h2
      obtain ⟨rfl, h2⟩ := h2
      cases c with
      | nil =>
        simp only [List.nil_append, List.cons.injEq] at h2
        obtain ⟨rfl, -⟩ := h2
        subst h1
        have := matchMarker_marker '\n' [] hne hds hw
        simp only [List.append_assoc, List.cons_append, List.nil_append]
        rw [this]; rfl
      | cons y c =>
        simp only [List.cons_append, List.cons.injEq] at h2
        obtain ⟨hwy, -⟩ := h2
        subst h1
        rw [hwy] at hw
        have := matchMarker_marker y (c ++ ['\n']) hne hds hw
        simp only [List.append_assoc, List.cons_append]
        rw [this]; rfl

theorem hasMarker_cons (c : Char) (cs : Str) :
    hasMarker (c :: cs) = ((matchMarker (c :: cs)).isSome || hasMarker cs) := rfl

theorem splitGo_skip (m : Str → Option (List Str × Nat)) (acc rest : Str) :
    ∀ (x : Str), splitGo m x.length acc (x ++ rest) = splitGo m 0 acc rest := by
  intro x
  induction x with
  | nil => rfl
  | cons c cs ih =>
    simp only [List.length_cons, List.cons_append, splitGo]
    exact ih

theorem splitGo_none (m : Str → Option (List Str × Nat)) (acc : Str) (c : Char) (cs : Str)
    (h : m (c :: cs) = none) : splitGo m 0 acc (c :: cs) = splitGo m 0 (c :: acc) cs := by
  simp only [splitGo, h]

theorem splitGo_some (m : Str → Option (List Str × Nat)) (acc : Str) (c : Char) (cs : Str)
    (caps : List Str) (len : Nat) (h : m (c :: cs) = some (caps, len)) :
    splitGo m 0 acc (c :: cs) = acc.reverse :: (caps ++ splitGo m (len - 1) [] cs) := by
  simp only [splitGo, h]

/-- Text without a marker is collected unchanged, up to the end of the string
or to a line break. -/
theorem splitGo_marker_free (rest : Str) (hrest : rest = [] ∨ ∃ more, rest = '\n' :: more) :
    ∀ (x acc : Str), hasMarker (x ++ ['\n']) = false →
      splitGo matchMarker 0 acc (x ++ rest) = splitGo matchMarker 0 (x.reverse ++ acc) rest := by
  intro x
  induction x with
  | nil => intro acc _; rfl
  | cons c cs ih =>
    intro acc h
    rw [List.cons_append, hasMarker_cons, Bool.or_eq_false_iff] at h
    have hnone : matchMarker (c :: (cs ++ rest)) = none := by
      rcases hm : matchMarker (c :: (cs ++ rest)) with _ | r
      · rfl
      · exfalso
        have hs : (matchMarker ((c :: cs) ++ rest)).isSome = true := by
          rw [List.cons_append, hm]; rfl
        have : (matchMarker ((c :: cs) ++ ['\n'])).isSome = true := by
          rcases hrest with rfl | ⟨more, rfl⟩
          · rw [List.append_nil] at hs
            exact matchMarker_append _ hs
          · exact matchMarker_before_newline _ hs
        rw [List.cons_append, h.1] at this
        exact absurd this (by simp)
    rw [List.cons_append, splitGo_none _ _ _ _ hnone, ih _ h.2]
    simp

/-- A marker written by the encoder is recognised and split off. -/
theorem splitGo_label (k : Nat) (acc rest : Str) :
    splitGo matchMarker 0 acc (decimal k ++ '.' :: ' ' :: rest)
      = acc.reverse :: decimal k :: splitGo matchMarker 0 [] rest := by
  have hm := matchMarker_marker ' ' rest (decimal_ne_nil k) (decimal_isDigit k) (by decide)
  rcases hd : decimal k with _ | ⟨d, ds⟩
  · exact absurd hd (decimal_ne_nil k)
  · rw [hd, List.cons_append] at hm
    rw [List.cons_append, splitGo_some _ _ _ _ _ _ hm]
    have := splitGo_skip matchMarker [] rest (ds ++ ['.', ' '])
    simp only [List.length_append, List.length_cons, List.length_nil, List.append_assoc,
      List.cons_append, List.nil_append] at this
    have e : (d :: ds).length + 2 - 1 = ds.length + (0 + 1 + 1) := by
      simp only [List.length_cons]; omega
    rw [e, this]
    rfl

theorem jsJoin_cons_cons (sep x y : Str) (rest : List Str) :
    jsJoin sep (x :: y :: rest) = x ++ sep ++ jsJoin sep (y :: rest) := rfl

theorem roiStr_cons_cons (i : Nat) (r r2 : Roi) (rs : List Roi) :
    jsJoin ['\n'] (numberedFrom i (r :: r2 :: rs))
      = decimal (i + 1) ++ '.' :: ' ' ::
          (r.roi ++ '\n' :: jsJoin ['\n'] (numberedFrom (i + 1) (r2 :: rs))) := by
  show jsJoin ['\n'] (_ :: (_ :: numberedFrom (i + 1 + 1) rs)) = _
  rw [jsJoin_cons_cons]
  simp [numberedFrom]

/-- The parts produced by splitting the encoded list of codes. -/
theorem splitGo_roiStr : ∀ (rs : List Roi) (i : Nat) (acc : Str), rs ≠ [] →
    (∀ r ∈ rs, hasMarker (r.roi ++ ['\n']) = false) →
    splitGo matchMarker 0 acc (jsJoin ['\n'] (numberedFrom i rs)) = acc.reverse :: partsFrom i rs
  | [], _, _, h, _ => absurd rfl h
  | [r], i, acc, _, hm => by
    have h1 := splitGo_marker_free [] (Or.inl rfl) r.roi [] (hm r (by simp))
    simp only [List.append_nil] at h1
    simp only [numberedFrom, jsJoin, partsFrom]
    rw [splitGo_label, h1]
    simp [splitGo]
  | r :: r2 :: rs, i, acc, _, hm => by
    have ih := splitGo_roiStr (r2 :: rs) (i + 1) ('\n' :: r.roi.reverse) (by simp)
      (fun x hx => hm x (List.mem_cons_of_mem _ hx))
    have h1 := splitGo_marker_free ('\n' :: jsJoin ['\n'] (numberedFrom (i + 1) (r2 :: rs)))
      (Or.inr ⟨_, rfl⟩) r.roi [] (hm r (by simp))
    rw [roiStr_cons_cons, splitGo_label, h1, splitGo_none _ _ _ _ (matchMarker_newline _),
      List.append_nil, ih]
    simp [partsFrom]

/-! ## The importer on the output of the encoder -/

theorem line_at_length (pre : List Roi) (r : Roi) (rest : List Roi) :
    (((pre ++ r :: rest).map fun r => r.line)[pre.length]?).getD [] = r.line := by
  rw [List.map_append, List.getElem?_append_right (by simp)]
  simp

/-- The importer loop rebuilds the regions from the parts of the encoded list. -/
theorem parseLoop_partsFrom : ∀ (rs : List Roi) (i : Nat) (pre : List Roi),
    (∀ r ∈ rs, r.roi ≠ [] ∧ trim r.roi = r.roi) →
    parseLoop ((pre ++ rs).map fun r => r.line) (partsFrom i rs) pre = pre ++ rs
  | [], _, pre, _ => by simp [partsFrom, parseLoop]
  | [r], i, pre, h => by
    obtain ⟨h1, h2⟩ := h r (by simp)
    have hl := line_at_length pre r []
    have hr : ({ roi := r.roi, line := r.line } : Roi) = r := rfl
    rw [partsFrom, parseLoop, if_pos (by simp [h1]), h2, hl, hr, parseLoop]
    intro _ _ _ hx
    cases hx
  | r :: r2 :: rs, i, pre, h => by
    obtain ⟨h1, h2⟩ := h r (by simp)
    have ih := parseLoop_partsFrom (r2 :: rs) (i + 1) (pre ++ [r])
      (fun x hx => h x (List.mem_cons_of_mem _ hx))
    have ht : trim (r.roi ++ ['\n']) = r.roi :=
      trim_append_spaces h2 h1 (by intro c hc; rw [List.mem_singleton.1 hc]; decide)
    have hl := line_at_length pre r (r2 :: rs)
    have hr : ({ roi := r.roi, line := r.line } : Roi) = r := rfl
    simp only [List.append_assoc, List.singleton_append] at ih
    rw [partsFrom, parseLoop, if_pos (by simp [h1]), ht, hl, hr, ih]

/-- A line without line break that does not end in a carriage return is
collected unchanged by the line splitter. -/
theorem splitGo_line (rest : Str) : ∀ (l acc : Str), (∀ c ∈ l, c ≠ '\n') →
    l.getLast? ≠ some '\r' →
    splitGo matchNewline 0 acc (l ++ rest) = splitGo matchNewline 0 (l.reverse ++ acc) rest
  | [], _, _, _ => rfl
  | [c], acc, h1, h2 => by
    have hc : c ≠ '\n' := h1 c (by simp)
    have hr : c ≠ '\r' := by simpa using h2
    have : matchNewline (c :: rest) = none := by simp [matchNewline, hc, hr]
    simp only [List.singleton_append, List.reverse_singleton]
    exact splitGo_none _ _ _ _ this
  | c :: d :: cs, acc, h1, h2 => by
    have hc : c ≠ '\n' := h1 c (by simp)
    have hd : d ≠ '\n' := h1 d (by simp)
    have : matchNewline (c :: (d :: cs ++ rest)) = none := by
      simp [matchNewline, hc, hd]
    have ih := splitGo_line rest (d :: cs) (c :: acc)
      (fun x hx => h1 x (List.mem_cons_of_mem _ hx)) (by simpa using h2)
    rw [List.cons_append, splitGo_none _ _ _ _ this, ih]
    simp

/-- Splitting the joined lines gives the lines back. -/
theorem splitGo_lineStr : ∀ (l : Str) (ls : List Str) (acc : Str),
    (∀ x ∈ l :: ls, (∀ c ∈ x, c ≠ '\n') ∧ x.getLast? ≠ some '\r') →
    splitGo matchNewline 0 acc (jsJoin ['\n'] (l :: ls)) = (acc.reverse ++ l) :: ls
  | l, [], acc, h => by
    obtain ⟨h1, h2⟩ := h l (by simp)
    have := splitGo_line [] l acc h1 h2
    simp only [List.append_nil] at this
    simp [jsJoin, this, splitGo]
  | l, l2 :: ls, acc, h => by
    obtain ⟨h1, h2⟩ := h l (by simp)
    have ih := splitGo_lineStr l2 ls [] (fun x hx => h x (List.mem_cons_of_mem _ hx))
    have hm : matchNewline ('\n' :: jsJoin ['\n'] (l2 :: ls)) = some ([], 1) := by
      simp [matchNewline]
    rw [jsJoin_cons_cons, List.append_assoc, splitGo_line _ l acc h1 h2, List.singleton_append,
      splitGo_some _ _ _ _ _ _ hm, ih]
    simp

/-- The importer reads back the line list written by the encoder. -/
theorem sampleLines_lineStr (rois : List Roi)
    (h : ∀ r ∈ rois, r.line ≠ [] ∧ trim r.line = r.line ∧ ∀ c ∈ r.line, c ≠ '\n') :
    sampleLines (lineStr rois) = rois.map fun r => r.line := by
  cases rois with
  | nil => decide
  | cons r rs =>
    have hs : jsSplit matchNewline (lineStr (r :: rs)) = (r :: rs).map fun r => r.line := by
      unfold jsSplit lineStr
      rw [List.map_cons, splitGo_lineStr]
      · simp
      · intro x hx
        rw [← List.map_cons, List.mem_map] at hx
        obtain ⟨q, hq, rfl⟩ := hx
        obtain ⟨h1, h2, h3⟩ := h q hq
        refine ⟨h3, ?_⟩
        obtain ⟨d, ds, hr, hd⟩ := last_of_trim_eq h2 h1
        rw [List.getLast?_eq_head?_reverse, hr]
        simp only [List.head?_cons, ne_eq, Option.some.injEq]
        rintro rfl
        exact absurd hd (by decide)
    unfold sampleLines
    rw [hs, List.map_map]
    have e1 : (List.map (trim ∘ fun r => r.line) (r :: rs)) = (r :: rs).map fun r => r.line := by
      apply List.map_congr_left
      intro q hq
      exact (h q hq).2.1
    rw [e1, List.filter_eq_self]
    intro x hx
    rw [List.mem_map] at hx
    obtain ⟨q, hq, rfl⟩ := hx
    simpa using (h q hq).1

/-! ## Correctness of the derivative matcher -/

theorem Re.nullable_iff (r : Re) : r.nullable = true ↔ r.Matches [] := by
  induction r with
  | none => simp [Re.nullable, Re.Matches]
  | eps => simp [Re.nullable, Re.Matches]
  | cls p => simp [Re.nullable, Re.Matches]
  | alt a b iha ihb => simp [Re.nullable, Re.Matches, iha, ihb]
  | seq a b iha ihb =>
    simp only [Re.nullable, Re.Matches, Bool.and_eq_true, iha, ihb]
    constructor
    · rintro ⟨h1, h2⟩; exact ⟨[], [], rfl, h1, h2⟩
    · rintro ⟨u, v, h, h1, h2⟩
      obtain ⟨rfl, rfl⟩ := List.append_eq_nil.1 h.symm
      exact ⟨h1, h2⟩
  | star a _ =>
    simp only [Re.nullable, Re.Matches, true_iff]
    exact ⟨[], rfl, by simp⟩

theorem Re.deriv_iff (r : Re) (c : Char) : ∀ s : Str, (r.deriv c).Matches s ↔ r.Matches (c :: s) := by
  induction r with
  | none => intro s; simp [Re.deriv, Re.Matches]
  | eps => intro s; simp [Re.deriv, Re.Matches]
  | cls p =>
    intro s
    simp only [Re.deriv, Re.Matches]
    constructor
    · intro h
      split at h
      · rename_i hp
        simp only [Re.Matches] at h
        exact ⟨c, by rw [h], hp⟩
      · simp [Re.Matches] at h
    · rintro ⟨d, h, hp⟩
      simp only [List.cons.injEq] at h
      obtain ⟨rfl, rfl⟩ := h
      simp [hp, Re.Matches]
  | alt a b iha ihb => intro s; simp [Re.deriv, Re.Matches, iha, ihb]
  | seq a b iha ihb =>
    intro s
    have key : (∃ u v, c :: s = u ++ v ∧ a.Matches u ∧ b.Matches v) ↔
        (∃ u v, s = u ++ v ∧ a.Matches (c :: u) ∧ b.Matches v)
          ∨ (a.Matches [] ∧ b.Matches (c :: s)) := by
      constructor
      · rintro ⟨u, v, h, h1, h2⟩
        cases u with
        | nil => right; simp only [List.nil_append] at h; rw [h]; exact ⟨h1, h2⟩
        | cons d u =>
          left
          simp only [List.cons_append, List.cons.injEq] at h
          obtain ⟨rfl, rfl⟩ := h
          exact ⟨u, v, rfl, h1, h2⟩
      · rintro (⟨u, v, rfl, h1, h2⟩ | ⟨h1, h2⟩)
        · exact ⟨c :: u, v, rfl, h1, h2⟩
        · exact ⟨[], c :: s, rfl, h1, h2⟩
    simp only [Re.deriv]
    split
    · rename_i hn
      simp only [Re.Matches, iha, ihb]
      rw [key]
      simp [(Re.nullable_iff a).1 hn]
    · rename_i hn
      simp only [Re.Matches, iha]
      rw [key]
      have : ¬ a.Matches [] := fun h => hn ((Re.nullable_iff a).2 h)
      simp [this]
  | star a iha =>
    intro s
    simp only [Re.deriv, Re.Matches, iha]
    constructor
    · rintro ⟨u, v, rfl, h1, parts, rfl, h2⟩
      refine ⟨(c :: u) :: parts, by simp, ?_⟩
      intro x hx
      rcases List.mem_cons.1 hx with rfl | hx
      · exact ⟨by simp, h1⟩
      · exact h2 x hx
    · rintro ⟨parts, h, h2⟩
      cases parts with
      | nil => simp at h
      | cons p ps =>
        obtain ⟨hp, hm⟩ := h2 p (by simp)
        cases p with
        | nil => exact absurd rfl hp
        | cons d u =>
          simp only [List.flatten_cons, List.cons_append, List.cons.injEq] at h
          obtain ⟨rfl, rfl⟩ := h
          exact ⟨u, ps.flatten, rfl, hm, ps, rfl, fun x hx => h2 x (List.mem_cons_of_mem _ hx)⟩

/-- The derivative matcher decides membership in the language of the expression. -/
theorem Re.test_iff : ∀ (s : Str) (r : Re), r.test s = true ↔ r.Matches s
  | [], r => by simp [Re.test, Re.nullable_iff]
  | c :: cs, r => by
    rw [Re.test, Re.test_iff cs, Re.deriv_iff]

theorem matches_star_cls (p : Char → Bool) (s : Str) :
    (Re.star (Re.cls p)).Matches s ↔ ∀ c ∈ s, p c = true := by
  simp only [Re.Matches]
  constructor
  · rintro ⟨parts, rfl, h⟩ c hc
    obtain ⟨u, hu, hcu⟩ := List.mem_flatten.1 hc
    obtain ⟨-, d, rfl, hd⟩ := h u hu
    rw [List.mem_singleton.1 hcu]
    exact hd
  · intro h
    refine ⟨s.map fun c => [c], ?_, ?_⟩
    · clear h
      induction s with
      | nil => rfl
      | cons c cs ih => simp [← ih]
    · intro u hu
      obtain ⟨c, hc, rfl⟩ := List.mem_map.1 hu
      exact ⟨by simp, c, rfl, h c hc⟩

theorem matches_plus_cls (p : Char → Bool) (s : Str) :
    (Re.cls p).plus.Matches s ↔ s ≠ [] ∧ ∀ c ∈ s, p c = true := by
  unfold Re.plus
  simp only [Re.Matches.eq_5, matches_star_cls]
  simp only [Re.Matches]
  constructor
  · rintro ⟨u, v, rfl, ⟨c, rfl, hc⟩, hv⟩
    refine ⟨by simp, ?_⟩
    intro d hd
    rcases List.mem_append.1 hd with h | h
    · rw [List.mem_singleton.1 h]; exact hc
    · exact hv d h
  · rintro ⟨hne, h⟩
    cases s with
    | nil => exact absurd rfl hne
    | cons c cs =>
      exact ⟨[c], cs, rfl, ⟨c, rfl, h c (by simp)⟩, fun d hd => h d (List.mem_cons_of_mem _ hd)⟩

theorem matches_char (a : Char) (s : Str) :
    (Re.cls fun c => c == a).Matches s ↔ s = [a] := by
  simp only [Re.Matches, beq_iff_eq]
  constructor
  · rintro ⟨c, rfl, rfl⟩; rfl
  · rintro rfl; exact ⟨a, rfl, rfl⟩

/-- The line expression accepts exactly the strings of the line grammar. -/
theorem lineRe_iff (s : Str) : lineRe.test s = true ↔ LineGrammar s := by
  rw [Re.test_iff]
  unfold lineRe LineGrammar Digits
  simp only [Re.Matches.eq_4, Re.Matches.eq_5, matches_plus_cls, matches_char]
  constructor
  · rintro (h | ⟨u, v, rfl, hu, w, b, rfl, rfl, hb⟩)
    · exact Or.inl h
    · exact Or.inr ⟨u, b, rfl, hu, hb⟩
  · rintro (h | ⟨a, b, rfl, ha, hb⟩)
    · exact Or.inl h
    · exact Or.inr ⟨a, _, rfl, ha, ['-'], b, rfl, rfl, hb⟩

/-! ## The comma-separated grammar of the CWE-id expression -/

theorem matches_sepToken (p : Str) :
    (Re.seq (Re.cls fun c => c == ',')
      (Re.seq (Re.star (Re.cls isSpace)) (Re.cls isWordOrDash).plus)).Matches p
      ↔ ∃ w t, p = ',' :: (w ++ t) ∧ Spaces w ∧ Token t := by
  simp only [Re.Matches.eq_5, matches_plus_cls, matches_char, matches_star_cls]
  constructor
  · rintro ⟨u, v, rfl, rfl, w, t, rfl, hw, ht⟩
    exact ⟨w, t, rfl, hw, ht⟩
  · rintro ⟨w, t, rfl, hw, ht⟩
    exact ⟨[','], w ++ t, rfl, rfl, w, t, rfl, hw, ht⟩

theorem commaList_of_parts : ∀ (parts : List Str) (t : Str), Token t →
    (∀ p ∈ parts, ∃ w t', p = ',' :: (w ++ t') ∧ Spaces w ∧ Token t') →
    CommaList false (t ++ parts.flatten)
  | [], t, ht, _ => by simpa using CommaList.one t ht
  | p :: ps, t, ht, h => by
    obtain ⟨w, t', rfl, hw, ht'⟩ := h p (by simp)
    have ih := commaList_of_parts ps t' ht' (fun q hq => h q (List.mem_cons_of_mem _ hq))
    have := @CommaList.more false t [] w _ ht (by intro c hc; cases hc) (fun _ => rfl) hw ih
    simpa using this

theorem parts_of_commaList {s : Str} (h : CommaList false s) :
    ∃ t parts, s = t ++ List.flatten parts ∧ Token t ∧
      ∀ p ∈ parts, ∃ w t', p = ',' :: (w ++ t') ∧ Spaces w ∧ Token t' := by
  induction h with
  | one t ht => exact ⟨t, [], by simp, ht, by simp⟩
  | more t w1 w2 rest ht _ hb hw2 _ ih =>
    obtain ⟨t', parts, rfl, ht', hp⟩ := ih
    refine ⟨t, (',' :: (w2 ++ t')) :: parts, ?_, ht, ?_⟩
    · simp [hb rfl]
    · intro p hp'
      rcases List.mem_cons.1 hp' with rfl | hp'
      · exact ⟨w2, t', rfl, hw2, ht'⟩
      · exact hp p hp'

/-- The CWE-id expression accepts exactly the comma-separated token lists in
which white space may follow a comma. -/
theorem cweRe_iff (s : Str) : cweRe.test s = true ↔ CommaList false s := by
  rw [Re.test_iff]
  unfold cweRe
  rw [Re.Matches.eq_5]
  simp only [matches_plus_cls]
  constructor
  · rintro ⟨u, v, rfl, hu, hv⟩
    rw [Re.Matches.eq_6] at hv
    obtain ⟨parts, rfl, hp⟩ := hv
    exact commaList_of_parts parts u hu (fun p hp' => (matches_sepToken p).1 (hp p hp').2)
  · intro h
    obtain ⟨t, parts, rfl, ht, hp⟩ := parts_of_commaList h
    refine ⟨t, parts.flatten, rfl, ht, ?_⟩
    rw [Re.Matches.eq_6]
    refine ⟨parts, rfl, fun p hp' => ⟨?_, (matches_sepToken p).2 (hp p hp')⟩⟩
    obtain ⟨w, t', rfl, -, -⟩ := hp p hp'
    simp

/-! ## The validator -/

theorem lineRejected_false_iff (line : Str) :
    lineRejected line = false ↔ LineGrammar (trim line) := by
  unfold lineRejected
  simp only [Bool.or_eq_false_iff, decide_eq_false_iff_not, Bool.not_eq_false', lineRe_iff]
  constructor
  · exact fun h => h.2
  · intro h
    refine ⟨?_, h⟩
    rintro rfl
    rcases h with h | ⟨a, b, h, -, -⟩
    · exact h.1 rfl
    · have : trim [] = [] := rfl
      rw [this] at h
      simp at h

theorem lineGrammar_no_newline {s : Str} (h : LineGrammar s) : ∀ c ∈ s, c ≠ '\n' := by
  have hd : ∀ {t : Str}, Digits t → ∀ c ∈ t, c ≠ '\n' := by
    intro t ht c hc hn
    have := ht.2 c hc
    rw [hn] at this
    exact absurd this (by decide)
  rcases h with h | ⟨a, b, rfl, ha, hb⟩
  · exact hd h
  · intro c hc
    rcases List.mem_append.1 hc with h | h
    · exact hd ha c h
    · rcases List.mem_cons.1 h with rfl | h
      · decide
      · exact hd hb c h

theorem lineGrammar_ne_nil {s : Str} (h : LineGrammar s) : s ≠ [] := by
  rcases h with h | ⟨a, b, rfl, -, -⟩
  · exact h.1
  · simp

theorem forEachRoi_eq_nil : ∀ (rois : List Roi) (i : Nat),
    forEachRoi i rois = [] ↔ ∀ r ∈ rois, isBlank r.roi = false ∧ lineRejected r.line = false
  | [], _ => by simp [forEachRoi]
  | r :: rs, i => by
    simp only [forEachRoi, List.append_eq_nil, forEachRoi_eq_nil rs (i + 1), roiChecks,
      List.mem_cons, forall_eq_or_imp]
    cases isBlank r.roi <;> cases lineRejected r.line <;> simp

theorem roisErrors_eq_nil (rois : List Roi) :
    roisErrors rois = [] ↔
      rois ≠ [] ∧ ∀ r ∈ rois, isBlank r.roi = false ∧ lineRejected r.line = false := by
  unfold roisErrors
  cases rois with
  | nil => simp
  | cons r rs => simp [forEachRoi_eq_nil]

/-! ## Round trip -/

/-- The importer inverts the encoder on region lists whose codes and lines are
trimmed and non-empty, whose codes hold no marker and whose lines hold no line
break. -/
theorem importSample_encoded (rois : List Roi) (hne : rois ≠ [])
    (h : ∀ r ∈ rois, r.roi ≠ [] ∧ trim r.roi = r.roi ∧ hasMarker (r.roi ++ ['\n']) = false
      ∧ r.line ≠ [] ∧ trim r.line = r.line ∧ ∀ c ∈ r.line, c ≠ '\n') :
    importSample (roiStr rois) (lineStr rois) = rois := by
  have h1 : jsSplit matchMarker (roiStr rois) = [] :: partsFrom 0 rois :=
    splitGo_roiStr rois 0 [] hne (fun r hr => (h r hr).2.2.1)
  have h2 : sampleLines (lineStr rois) = rois.map fun r => r.line :=
    sampleLines_lineStr rois (fun r hr => ⟨(h r hr).2.2.2.1, (h r hr).2.2.2.2.1, (h r hr).2.2.2.2.2⟩)
  have h3 := parseLoop_partsFrom rois 0 [] (fun r hr => ⟨(h r hr).1, (h r hr).2.1⟩)
  simp only [List.nil_append] at h3
  unfold importSample
  simp only [h1, h2, List.drop_one, List.tail_cons, h3]
  rw [if_neg]
  simpa using hne

/-! ## Keys of the error object -/

theorem hasKey_append (a b : Errors) (k : ErrKey) :
    hasKey (a ++ b) k = (hasKey a k || hasKey b k) := by
  simp [hasKey, List.any_append]

theorem hasKey_nil (k : ErrKey) : hasKey [] k = false := rfl

theorem hasKey_singleton (k' : ErrKey) (m : String) (k : ErrKey) :
    hasKey [(k', m)] k = decide (k' = k) := by
  simp [hasKey]

theorem hasKey_ite (c : Bool) (k' : ErrKey) (m : String) (k : ErrKey) :
    hasKey (if c = true then [(k', m)] else []) k = (c && decide (k' = k)) := by
  cases c <;> simp [hasKey]

theorem hasKey_cweIdsErrors (s : Str) (k : ErrKey) :
    hasKey (cweIdsErrors s) k
      = ((isBlank s || !cweRe.test (trim s)) && decide (ErrKey.cweIds = k)) := by
  unfold cweIdsErrors
  cases isBlank s <;> cases cweRe.test (trim s) <;> simp [hasKey]

theorem hasKey_roiChecks (i : Nat) (r : Roi) (k : ErrKey) :
    hasKey (roiChecks i r) k
      = ((isBlank r.roi && decide (ErrKey.roi i = k))
          || (lineRejected r.line && decide (ErrKey.line i = k))) := by
  unfold roiChecks
  rw [hasKey_append, hasKey_ite, hasKey_ite]

theorem hasKey_forEachRoi_roi : ∀ (rois : List Roi) (s j : Nat),
    hasKey (forEachRoi s rois) (ErrKey.roi j) = true
      ↔ ∃ r, s ≤ j ∧ rois[j - s]? = some r ∧ isBlank r.roi = true
  | [], s, j => by simp [forEachRoi, hasKey_nil]
  | r :: rs, s, j => by
    rw [forEachRoi, hasKey_append, hasKey_roiChecks, Bool.or_eq_true,
      hasKey_forEachRoi_roi rs (s + 1) j]
    simp only [ErrKey.roi.injEq, reduceCtorEq, decide_False, Bool.and_false, Bool.or_false,
      Bool.and_eq_true, decide_eq_true_eq]
    constructor
    · rintro (⟨h1, rfl⟩ | ⟨q, h1, h2, h3⟩)
      · exact ⟨r, le_refl _, by simp, h1⟩
      · refine ⟨q, by omega, ?_, h3⟩
        have : j - s = (j - (s + 1)) + 1 := by omega
        rw [this, List.getElem?_cons_succ]
        exact h2
    · rintro ⟨q, h1, h2, h3⟩
      rcases Nat.eq_or_lt_of_le h1 with rfl | hlt
      · left
        simp only [Nat.sub_self, List.getElem?_cons_zero, Option.some.injEq] at h2
        subst h2
        exact ⟨h3, rfl⟩
      · right
        have : j - s = (j - (s + 1)) + 1 := by omega
        rw [this, List.getElem?_cons_succ] at h2
        exact ⟨q, hlt, h2, h3⟩

theorem hasKey_forEachRoi_line : ∀ (rois : List Roi) (s j : Nat),
    hasKey (forEachRoi s rois) (ErrKey.line j) = true
      ↔ ∃ r, s ≤ j ∧ rois[j - s]? = some r ∧ lineRejected r.line = true
  | [], s, j => by simp [forEachRoi, hasKey_nil]
  | r :: rs, s, j => by
    rw [forEachRoi, hasKey_append, hasKey_roiChecks, Bool.or_eq_true,
      hasKey_forEachRoi_line rs (s + 1) j]
    simp only [ErrKey.line.injEq, reduceCtorEq, decide_False, Bool.and_false, Bool.false_or,
      Bool.and_eq_true, decide_eq_true_eq]
    constructor
    · rintro (⟨h1, rfl⟩ | ⟨q, h1, h2, h3⟩)
      · exact ⟨r, le_refl _, by simp, h1⟩
      · refine ⟨q, by omega, ?_, h3⟩
        have : j - s = (j - (s + 1)) + 1 := by omega
        rw [this, List.getElem?_cons_succ]
        exact h2
    · rintro ⟨q, h1, h2, h3⟩
      rcases Nat.eq_or_lt_of_le h1 with rfl | hlt
      · left
        simp only [Nat.sub_self, List.getElem?_cons_zero, Option.some.injEq] at h2
        subst h2
        exact ⟨h3, rfl⟩
      · right
        have : j - s = (j - (s + 1)) + 1 := by omega
        rw [this, List.getElem?_cons_succ] at h2
        exact ⟨q, hlt, h2, h3⟩

theorem hasKey_forEachRoi_other (rois : List Roi) (s : Nat) (k : ErrKey)
    (h1 : ∀ j, k ≠ ErrKey.roi j) (h2 : ∀ j, k ≠ ErrKey.line j) :
    hasKey (forEachRoi s rois) k = false := by
  induction rois generalizing s with
  | nil => rfl
  | cons r rs ih =>
    rw [forEachRoi, hasKey_append, hasKey_roiChecks, ih]
    have e1 : decide (ErrKey.roi s = k) = false := by simpa using fun h => h1 s h.symm
    have e2 : decide (ErrKey.line s = k) = false := by simpa using fun h => h2 s h.symm
    simp [e1, e2]

theorem hasKey_roisErrors (rois : List Roi) (k : ErrKey) :
    hasKey (roisErrors rois) k
      = if rois = [] then decide (ErrKey.rois = k) else hasKey (forEachRoi 0 rois) k := by
  unfold roisErrors
  cases rois with
  | nil => simp [hasKey]
  | cons r rs => simp

/-- The keys of the error object, field by field. -/
theorem hasKey_newErrors (fc fn cw : Str) (rois : List Roi) (k : ErrKey) :
    hasKey (newErrors fc fn cw rois) k
      = ((isBlank fc && decide (ErrKey.funcCode = k))
          || (isBlank fn && decide (ErrKey.funcName = k))
          || ((isBlank cw || !cweRe.test (trim cw)) && decide (ErrKey.cweIds = k))
          || (if rois = [] then decide (ErrKey.rois = k) else hasKey (forEachRoi 0 rois) k)) := by
  unfold newErrors
  rw [hasKey_append, hasKey_append, hasKey_append, hasKey_ite, hasKey_ite, hasKey_cweIdsErrors,
    hasKey_roisErrors]

/-! ## Traces of a run -/

theorem callsOf_append (a b : List Event) : callsOf (a ++ b) = callsOf a ++ callsOf b := by
  induction a with
  | nil => rfl
  | cons e a ih => cases e <;> simp [callsOf, ih]

theorem repliesOf_append (a b : List Event) :
    repliesOf (a ++ b) = repliesOf a ++ repliesOf b := by
  induction a with
  | nil => rfl
  | cons e a ih => cases e <;> simp [repliesOf, ih]

theorem stepsOf_append (a b : List Event) : stepsOf (a ++ b) = stepsOf a ++ stepsOf b := by
  induction a with
  | nil => rfl
  | cons e a ih => cases e <;> simp [stepsOf, ih]

theorem stepsOf_call (c : Call) (l : List Event) : stepsOf (Event.call c :: l) = stepsOf l := rfl

theorem stepsOf_reply (r : Reply) (l : List Event) : stepsOf (Event.reply r :: l) = stepsOf l :=
  rfl

theorem repliesOf_call (c : Call) (l : List Event) :
    repliesOf (Event.call c :: l) = repliesOf l := rfl

theorem repliesOf_reply (r : Reply) (l : List Event) :
    repliesOf (Event.reply r :: l) = r :: repliesOf l := rfl

theorem callsOf_call (c : Call) (l : List Event) : callsOf (Event.call c :: l) = c :: callsOf l :=
  rfl

theorem callsOf_reply (r : Reply) (l : List Event) : callsOf (Event.reply r :: l) = callsOf l :=
  rfl

theorem applyAll_append (ui : Ui) (a b : List Event) :
    ui.applyAll (a ++ b) = (ui.applyAll a).applyAll b := by
  simp [Ui.applyAll, List.foldl_append]

theorem settle_none (rs : List Reply) : settle none rs = [] := by
  cases rs <;> rfl

theorem settle_cons (p : Pending) (r : Reply) (rs : List Reply) :
    settle (some p) (r :: rs)
      = Event.reply r :: ((resume p r).1 ++ settle (resume p r).2 rs) := rfl

theorem callsOf_failure (message : Option Str) : callsOf (failure message) = [] := rfl

theorem repliesOf_failure (message : Option Str) : repliesOf (failure message) = [] := rfl

theorem messageOr_ne_nil (message : Option Str) : messageOr message ≠ [] := by
  unfold messageOr
  split
  · split
    · decide
    · assumption
  · decide

/-- What a suspended execution does on a reply: on a truthy reply it either issues
its next call, after quiet events, or finishes with quiet events; on any other
reply it runs the `catch` block. -/
theorem resume_cases (p : Pending) (r : Reply) :
    (r = Reply.data true ∧
      ((∃ steps c p', resume p r = (steps ++ [Event.call c], some p')
          ∧ (∀ e ∈ steps, e.quiet = true) ∧ p.expected = c :: p'.expected
          ∧ p.stepsLeft = stepsOf steps ++ p'.stepsLeft)
        ∨ (∃ steps, resume p r = (steps, none) ∧ (∀ e ∈ steps, e.quiet = true)
            ∧ p.expected = [] ∧ p.stepsLeft = stepsOf steps)))
      ∨ (r ≠ Reply.data true ∧ ∃ message, resume p r = (failure message, none)) := by
  obtain ⟨ctx, aw⟩ := p
  cases r with
  | rejected m => exact Or.inr ⟨by simp, m, rfl⟩
  | data b =>
    cases b with
    | false =>
      right
      refine ⟨by simp, ?_⟩
      cases aw <;> exact ⟨_, rfl⟩
    | true =>
      left
      refine ⟨rfl, ?_⟩
      cases aw with
      | research cweId rest =>
        left
        cases rest with
        | nil =>
          refine ⟨[Event.setGenerationStep 2], injectionCall ctx, ⟨ctx, Await.injection⟩, rfl,
            by simp [Event.quiet], rfl, ?_⟩
          cases hs : ctx.skipValidation <;> simp [Pending.stepsLeft, stepsOf, hs]
        | cons c2 rest =>
          exact ⟨[], Call.research c2, ⟨ctx, Await.research c2 rest⟩, rfl, by simp, rfl, rfl⟩
      | injection =>
        cases hs : ctx.skipValidation with
        | false =>
          left
          refine ⟨[Event.setGenerationStep 3, Event.setGenerationStep 4],
            Call.validation ctx.funcName ctx.funcCode (lineStr ctx.rois),
            ⟨ctx, Await.validation⟩, ?_, by simp [Event.quiet], ?_, ?_⟩
          · simp [resume, validationStep, hs]
          · simp [Pending.expected, validationCalls, hs]
          · simp [Pending.stepsLeft, stepsOf, hs]
        | true =>
          right
          refine ⟨[Event.setGenerationStep 3, Event.setGenerationStep 5, Event.setShowModal true],
            ?_, by simp [Event.quiet], ?_, ?_⟩
          · simp [resume, validationStep, hs, finish]
          · simp [Pending.expected, validationCalls, hs]
          · simp [Pending.stepsLeft, stepsOf, hs]
      | validation =>
        right
        exact ⟨[Event.setGenerationStep 5, Event.setShowModal true], rfl,
          by simp [Event.quiet], rfl, rfl⟩

theorem orderly_quiet_append : ∀ (steps evs : List Event), (∀ e ∈ steps, e.quiet = true) →
    Orderly evs → Orderly (steps ++ evs)
  | [], _, _, h => h
  | e :: steps, evs, hq, h =>
    Orderly.quiet e _ (hq e (by simp))
      (orderly_quiet_append steps evs (fun x hx => hq x (List.mem_cons_of_mem _ hx)) h)

/-- The trace of a suspended execution, from the call it awaits on, is well ordered. -/
theorem orderly_settle : ∀ (rs : List Reply) (p : Pending) (c : Call),
    Orderly (Event.call c :: settle (some p) rs)
  | [], _, c => Orderly.inflight c
  | r :: rs, p, c => by
    rw [settle_cons]
    rcases resume_cases p r with ⟨rfl, ⟨steps, c', p', h, hq, -, -⟩ | ⟨steps, h, hq, -, -⟩⟩ | ⟨hr, m, h⟩
    · rw [h]
      simp only [List.append_assoc, List.singleton_append]
      exact Orderly.ok c _ (orderly_quiet_append _ _ hq (orderly_settle rs p' c'))
    · rw [h, settle_none, List.append_nil]
      exact Orderly.ok c _ (by simpa using orderly_quiet_append steps [] hq Orderly.done)
    · rw [h, settle_none, List.append_nil]
      exact Orderly.failed c r m hr

/-- The first piece of a run: nothing but the stored errors when the validator
rejects, otherwise quiet events, the first call of the plan and the suspension
that has the rest of the plan to issue. -/
theorem startGenerate_cases (ui : Ui) :
    (validateInput ui.funcCode ui.funcName ui.cweIds ui.rois = false
        ∧ startGenerate ui
            = ([Event.setErrors (newErrors ui.funcCode ui.funcName ui.cweIds ui.rois)], none))
      ∨ (validateInput ui.funcCode ui.funcName ui.cweIds ui.rois = true
        ∧ ∃ steps c p, startGenerate ui = (steps ++ [Event.call c], some p)
            ∧ (∀ e ∈ steps, e.quiet = true) ∧ plannedCalls ui = c :: p.expected
            ∧ stepOrder ui.skipValidation = stepsOf steps ++ p.stepsLeft) := by
  unfold startGenerate
  cases hv : validateInput ui.funcCode ui.funcName ui.cweIds ui.rois with
  | false => left; simp
  | true =>
    right
    refine ⟨rfl, ?_⟩
    simp only [if_true]
    unfold plannedCalls
    cases cweList ui.cweIds with
    | nil =>
      refine ⟨[Event.setErrors _, Event.setGenerationStep 1, Event.setGenerationStep 2],
        injectionCall ui, ⟨ui, Await.injection⟩, rfl, by simp [Event.quiet], rfl, ?_⟩
      cases hs : ui.skipValidation <;> simp [Pending.stepsLeft, stepsOf, stepOrder, hs]
    | cons c rest =>
      refine ⟨[Event.setErrors _, Event.setGenerationStep 1], Call.research c,
        ⟨ui, Await.research c rest⟩, rfl, by simp [Event.quiet], rfl, ?_⟩
      cases hs : ui.skipValidation <;> simp [Pending.stepsLeft, stepsOf, stepOrder, hs]

/-- Every run is well ordered. -/
theorem orderly_handleGenerate (ui : Ui) (replies : List Reply) :
    Orderly (handleGenerate ui replies) := by
  unfold handleGenerate
  rcases startGenerate_cases ui with ⟨-, h⟩ | ⟨-, steps, c, p, h, hq, -⟩
  · rw [h, settle_none]
    exact Orderly.quiet _ _ rfl Orderly.done
  · rw [h]
    simp only [List.append_assoc, List.singleton_append]
    exact orderly_quiet_append _ _ hq (orderly_settle replies p c)

theorem callsOf_quiet : ∀ (steps : List Event), (∀ e ∈ steps, e.quiet = true) →
    callsOf steps = [] ∧ repliesOf steps = []
  | [], _ => ⟨rfl, rfl⟩
  | e :: steps, h => by
    have ih := callsOf_quiet steps (fun x hx => h x (List.mem_cons_of_mem _ hx))
    have he := h e (by simp)
    cases e <;> simp_all [callsOf, repliesOf, Event.quiet]

/-- The calls of a suspended execution are an initial part of its plan. -/
theorem callsOf_settle : ∀ (rs : List Reply) (p : Pending),
    callsOf (settle (some p) rs) <+: p.expected
  | [], _ => List.nil_prefix
  | r :: rs, p => by
    rw [settle_cons]
    rcases resume_cases p r with ⟨rfl, ⟨steps, c', p', h, hq, he, -⟩ | ⟨steps, h, hq, -, -⟩⟩ | ⟨-, m, h⟩
    · rw [h, he]
      simp only [callsOf, callsOf_append, (callsOf_quiet steps hq).1, List.nil_append]
      exact (List.prefix_cons_inj c').2 (callsOf_settle rs p')
    · rw [h, settle_none]
      simp only [callsOf, callsOf_append, (callsOf_quiet steps hq).1, List.append_nil]
      exact List.nil_prefix
    · rw [h, settle_none]
      simp only [callsOf, callsOf_append, callsOf_failure, List.append_nil]
      exact List.nil_prefix

/-- The calls of a run are an initial part of the planned calls. -/
theorem callsOf_handleGenerate (ui : Ui) (replies : List Reply) :
    callsOf (handleGenerate ui replies) <+: plannedCalls ui := by
  unfold handleGenerate
  rcases startGenerate_cases ui with ⟨-, h⟩ | ⟨-, steps, c, p, h, hq, hp, -⟩
  · rw [h, settle_none]
    exact List.nil_prefix
  · rw [h, hp]
    simp only [callsOf, callsOf_append, (callsOf_quiet steps hq).1, List.nil_append,
      List.singleton_append]
    exact (List.prefix_cons_inj c).2 (callsOf_settle replies p)


/-- When a call is issued, every earlier call of the trace has settled with a
truthy payload. -/
theorem orderly_before_call {evs : List Event} (h : Orderly evs) :
    ∀ (pre : List Event) (c : Call) (post : List Event), evs = pre ++ Event.call c :: post →
      repliesOf pre = List.replicate (callsOf pre).length (Reply.data true) := by
  induction h with
  | done => intro pre c post he; simp at he
  | quiet e evs hq _ ih =>
    intro pre c post he
    cases pre with
    | nil =>
      simp only [List.nil_append, List.cons.injEq] at he
      rw [he.1] at hq
      cases hq
    | cons x pre =>
      simp only [List.cons_append, List.cons.injEq] at he
      obtain ⟨rfl, he⟩ := he
      have := ih pre c post he
      cases e <;> simp_all [callsOf, repliesOf, Event.quiet]
  | inflight c0 =>
    intro pre c post he
    cases pre with
    | nil => rfl
    | cons x pre =>
      simp only [List.cons_append, List.cons.injEq] at he
      have := he.2
      simp at this
  | ok c0 evs _ ih =>
    intro pre c post he
    cases pre with
    | nil => rfl
    | cons x pre =>
      simp only [List.cons_append, List.cons.injEq] at he
      obtain ⟨rfl, he⟩ := he
      cases pre with
      | nil => simp at he
      | cons y pre =>
        simp only [List.cons_append, List.cons.injEq] at he
        obtain ⟨rfl, he⟩ := he
        have := ih pre c post he
        simp [callsOf, repliesOf, this, List.replicate_succ]
  | failed c0 r m _ =>
    intro pre c post he
    cases pre with
    | nil => rfl
    | cons x pre =>
      exfalso
      simp only [List.cons_append, List.cons.injEq] at he
      have h1 := congrArg callsOf he.2
      simp [callsOf_reply, callsOf_call, callsOf_append, callsOf_failure] at h1

/-- A reply that is not truthy is followed by the `catch` block and nothing else. -/
theorem orderly_after_failure {evs : List Event} (h : Orderly evs) :
    ∀ (pre : List Event) (r : Reply) (post : List Event), evs = pre ++ Event.reply r :: post →
      r ≠ Reply.data true → ∃ message, post = failure message := by
  induction h with
  | done => intro pre r post he; simp at he
  | quiet e evs hq _ ih =>
    intro pre r post he hr
    cases pre with
    | nil =>
      simp only [List.nil_append, List.cons.injEq] at he
      rw [he.1] at hq
      cases hq
    | cons x pre =>
      simp only [List.cons_append, List.cons.injEq] at he
      exact ih pre r post he.2 hr
  | inflight c0 =>
    intro pre r post he
    cases pre with
    | nil => simp at he
    | cons x pre =>
      simp only [List.cons_append, List.cons.injEq] at he
      have := he.2
      simp at this
  | ok c0 evs _ ih =>
    intro pre r post he hr
    cases pre with
    | nil => simp at he
    | cons x pre =>
      simp only [List.cons_append, List.cons.injEq] at he
      obtain ⟨rfl, he⟩ := he
      cases pre with
      | nil =>
        simp only [List.nil_append, List.cons.injEq, Event.reply.injEq] at he
        exact absurd he.1.symm hr
      | cons y pre =>
        simp only [List.cons_append, List.cons.injEq] at he
        exact ih pre r post he.2 hr
  | failed c0 r0 m _ =>
    intro pre r post he hr
    cases pre with
    | nil => simp at he
    | cons x pre =>
      simp only [List.cons_append, List.cons.injEq] at he
      obtain ⟨rfl, he⟩ := he
      cases pre with
      | nil =>
        simp only [List.nil_append, List.cons.injEq] at he
        exact ⟨m, he.2.symm⟩
      | cons y pre =>
        exfalso
        simp only [List.cons_append, List.cons.injEq] at he
        have h1 := congrArg repliesOf he.2
        simp [repliesOf, repliesOf_append, repliesOf_failure] at h1

/-- The state after a trace that ends with the `catch` block. -/
theorem applyAll_failure (ui : Ui) (pre : List Event) (message : Option Str) :
    (ui.applyAll (pre ++ failure message)).errorModal = some (messageOr message)
      ∧ (ui.applyAll (pre ++ failure message)).generationStep = 0
      ∧ (ui.applyAll (pre ++ failure message)).stage = Stage.Failed := by
  rw [applyAll_append]
  simp [Ui.applyAll, failure, Ui.apply, Ui.stage]

/-- The steps set by a suspended execution: an initial part of the steps it has
left, followed by 0 exactly when a reply was not truthy. -/
theorem stepsOf_settle : ∀ (rs : List Reply) (p : Pending),
    ∃ fwd, fwd <+: p.stepsLeft ∧
      ((stepsOf (settle (some p) rs) = fwd
          ∧ ∀ r ∈ repliesOf (settle (some p) rs), r = Reply.data true)
        ∨ (stepsOf (settle (some p) rs) = fwd ++ [0]
          ∧ ∃ r ∈ repliesOf (settle (some p) rs), r ≠ Reply.data true))
  | [], p => ⟨[], List.nil_prefix, Or.inl ⟨rfl, by simp [settle, repliesOf]⟩⟩
  | r :: rs, p => by
    rw [settle_cons]
    rcases resume_cases p r with
      ⟨rfl, ⟨steps, c', p', h, hq, -, hs⟩ | ⟨steps, h, hq, -, hs⟩⟩ | ⟨hr, m, h⟩
    · obtain ⟨fwd, hf, ih⟩ := stepsOf_settle rs p'
      refine ⟨stepsOf steps ++ fwd, by rw [hs]; exact (List.prefix_append_right_inj _).2 hf, ?_⟩
      rw [h]
      simp only [stepsOf_reply, stepsOf_call, repliesOf_reply, repliesOf_call, stepsOf_append,
        repliesOf_append, (callsOf_quiet steps hq).2, List.nil_append, List.append_nil,
        List.append_assoc, List.mem_cons, List.singleton_append]
      rcases ih with ⟨h1, h2⟩ | ⟨h1, r', h2, h3⟩
      · left
        refine ⟨by rw [h1], ?_⟩
        rintro x (rfl | hx)
        · rfl
        · exact h2 x hx
      · right
        exact ⟨by rw [h1], r', Or.inr h2, h3⟩
    · refine ⟨stepsOf steps, by rw [hs], Or.inl ?_⟩
      rw [h, settle_none]
      simp [stepsOf_reply, repliesOf_reply, (callsOf_quiet steps hq).2]
    · refine ⟨[], List.nil_prefix, Or.inr ?_⟩
      rw [h, settle_none]
      exact ⟨rfl, r, by simp [repliesOf_reply], hr⟩

/-- The steps set by a run: nothing when the validator rejects; otherwise an
initial part of the step order that starts with 1, followed by 0 exactly when a
reply was not truthy. -/
theorem stepsOf_handleGenerate (ui : Ui) (replies : List Reply) :
    (validateInput ui.funcCode ui.funcName ui.cweIds ui.rois = false
        ∧ stepsOf (handleGenerate ui replies) = [])
      ∨ (validateInput ui.funcCode ui.funcName ui.cweIds ui.rois = true
        ∧ ∃ fwd, fwd <+: stepOrder ui.skipValidation ∧ fwd.head? = some 1 ∧
          ((stepsOf (handleGenerate ui replies) = fwd
              ∧ ∀ r ∈ repliesOf (handleGenerate ui replies), r = Reply.data true)
            ∨ (stepsOf (handleGenerate ui replies) = fwd ++ [0]
              ∧ ∃ r ∈ repliesOf (handleGenerate ui replies), r ≠ Reply.data true))) := by
  unfold handleGenerate
  rcases startGenerate_cases ui with ⟨hv, h⟩ | ⟨hv, steps, c, p, h, hq, hp, hs⟩
  · left
    rw [h, settle_none]
    exact ⟨hv, rfl⟩
  · right
    refine ⟨hv, ?_⟩
    obtain ⟨fwd, hf, ih⟩ := stepsOf_settle replies p
    have hhead : (stepsOf steps).head? = some 1 := by
      have h1 : (stepOrder ui.skipValidation).head? = some 1 := by
        cases ui.skipValidation <;> rfl
      rw [hs] at h1
      have h2 : stepsOf steps ≠ [] := by
        intro h0
        rw [h0, List.nil_append] at h1
        obtain ⟨ctx, aw⟩ := p
        cases aw <;> cases hk : ctx.skipValidation <;> simp [Pending.stepsLeft, hk] at h1
      rcases hst : stepsOf steps with _ | ⟨a, l⟩
      · exact absurd hst h2
      · rw [hst] at h1
        simpa using h1
    refine ⟨stepsOf steps ++ fwd, by rw [hs]; exact (List.prefix_append_right_inj _).2 hf, ?_, ?_⟩
    · rcases hst : stepsOf steps with _ | ⟨a, l⟩
      · rw [hst] at hhead; cases hhead
      · rw [hst] at hhead; simpa using hhead
    · rw [h]
      simp only [stepsOf_call, repliesOf_call, stepsOf_append, repliesOf_append,
        (callsOf_quiet steps hq).2, List.nil_append, List.append_nil, List.append_assoc,
        List.singleton_append]
      rcases ih with ⟨h1, h2⟩ | ⟨h1, r', h2, h3⟩
      · exact Or.inl ⟨by rw [h1], h2⟩
      · exact Or.inr ⟨by rw [h1], r', h2, h3⟩

/-! ## Further facts about the validator and the run -/

theorem countKey_append (a b : Errors) (k : ErrKey) :
    countKey (a ++ b) k = countKey a k + countKey b k := by
  simp [countKey]

theorem countKey_forEachRoi_cweIds (rois : List Roi) (s : Nat) :
    countKey (forEachRoi s rois) ErrKey.cweIds = 0 := by
  induction rois generalizing s with
  | nil => rfl
  | cons r rs ih =>
    rw [forEachRoi, countKey_append, ih]
    unfold roiChecks
    cases isBlank r.roi <;> cases lineRejected r.line <;> simp [countKey]

theorem countKey_newErrors_cweIds (fc fn cw : Str) (rois : List Roi) :
    countKey (newErrors fc fn cw rois) ErrKey.cweIds
      = if (isBlank cw || !cweRe.test (trim cw)) = true then 1 else 0 := by
  unfold newErrors
  rw [countKey_append, countKey_append, countKey_append]
  have e1 : countKey (if isBlank fc = true then [(ErrKey.funcCode, "Function code is required.")]
      else []) ErrKey.cweIds = 0 := by
    cases isBlank fc <;> simp [countKey]
  have e2 : countKey (if isBlank fn = true then [(ErrKey.funcName, "Function name is required.")]
      else []) ErrKey.cweIds = 0 := by
    cases isBlank fn <;> simp [countKey]
  have e3 : countKey (roisErrors rois) ErrKey.cweIds = 0 := by
    unfold roisErrors
    split
    · simp [countKey]
    · exact countKey_forEachRoi_cweIds _ _
  rw [e1, e2, e3]
  unfold cweIdsErrors
  cases isBlank cw <;> cases cweRe.test (trim cw) <;> simp [countKey]

theorem newErrors_eq_nil {fc fn cw : Str} {rois : List Roi} (h : newErrors fc fn cw rois = []) :
    roisErrors rois = [] := by
  unfold newErrors at h
  exact (List.append_eq_nil.1 h).2

theorem validateInput_iff (fc fn cw : Str) (rois : List Roi) :
    validateInput fc fn cw rois = true ↔ newErrors fc fn cw rois = [] := by
  unfold validateInput
  simp [List.length_eq_zero]

theorem handleGenerate_rejected (ui : Ui) (replies : List Reply)
    (h : validateInput ui.funcCode ui.funcName ui.cweIds ui.rois = false) :
    handleGenerate ui replies
      = [Event.setErrors (newErrors ui.funcCode ui.funcName ui.cweIds ui.rois)] := by
  unfold handleGenerate startGenerate
  simp [h, settle_none]

theorem filterMap_researchId_map (toks : List Str) :
    (toks.map Call.research).filterMap Call.researchId = toks := by
  induction toks with
  | nil => rfl
  | cons t ts ih => simp [Call.researchId, ih]

theorem filterMap_researchId_planned (ui : Ui) :
    (plannedCalls ui).filterMap Call.researchId = cweList ui.cweIds := by
  unfold plannedCalls
  rw [List.filterMap_append, filterMap_researchId_map]
  unfold validationCalls injectionCall
  cases ui.skipValidation <;> simp [Call.researchId]

theorem mem_repliesOf {evs : List Event} {r : Reply} (h : r ∈ repliesOf evs) :
    ∃ pre post, evs = pre ++ Event.reply r :: post := by
  induction evs with
  | nil => simp [repliesOf] at h
  | cons e evs ih =>
    by_cases he : e = Event.reply r
    · exact ⟨[], evs, by rw [he]; rfl⟩
    · have h' : r ∈ repliesOf evs := by
        cases e with
        | reply r' =>
          rw [repliesOf_reply] at h
          rcases List.mem_cons.1 h with rfl | h
          · exact absurd rfl he
          · exact h
        | _ => exact h
      obtain ⟨pre, post, rfl⟩ := ih h'
      exact ⟨e :: pre, post, rfl⟩

/-- A run in which a reply is not truthy ends in the failed state. -/
theorem failed_run (ui : Ui) (replies : List Reply) (pre : List Event) (r : Reply)
    (post : List Event) (h : handleGenerate ui replies = pre ++ Event.reply r :: post)
    (hr : r ≠ Reply.data true) :
    ∃ message, post = failure message
      ∧ (ui.applyAll (handleGenerate ui replies)).errorModal = some (messageOr message)
      ∧ (ui.applyAll (handleGenerate ui replies)).generationStep = 0
      ∧ (ui.applyAll (handleGenerate ui replies)).stage = Stage.Failed := by
  obtain ⟨m, hm⟩ := orderly_after_failure (orderly_handleGenerate ui replies) pre r post h hr
  refine ⟨m, hm, ?_⟩
  rw [h, hm]
  have := applyAll_failure ui (pre ++ [Event.reply r]) m
  simpa using this

theorem isInjection_research (toks : List Str) :
    ∀ c ∈ toks.map Call.research, c.isInjection = false ∧ c.isValidation = false := by
  intro c hc
  obtain ⟨t, -, rfl⟩ := List.mem_map.1 hc
  exact ⟨rfl, rfl⟩

theorem isInjection_validationCalls (ui : Ui) :
    ∀ c ∈ validationCalls ui, c.isInjection = false ∧ c.isValidation = true := by
  intro c hc
  unfold validationCalls at hc
  cases hs : ui.skipValidation <;> simp [hs] at hc
  subst hc
  exact ⟨rfl, rfl⟩

/-- In an initial part of the plan, the calls before the injection call are the
research calls. -/
theorem calls_before_injection (ui : Ui) (P X : List Call) (c : Call)
    (hc : c.isInjection = true) (h : P ++ c :: X <+: plannedCalls ui) :
    P = (cweList ui.cweIds).map Call.research := by
  obtain ⟨t, ht⟩ := h
  unfold plannedCalls at ht
  rw [List.append_assoc] at ht
  rcases List.append_eq_append_iff.1 ht with ⟨a, h1, h2⟩ | ⟨b, h1, h2⟩
  · cases a with
    | nil => simpa using h1.symm
    | cons x a =>
      exfalso
      simp only [List.cons_append, List.cons.injEq] at h2
      have := (isInjection_research _ c (by rw [h1, ← h2.1]; simp)).1
      rw [hc] at this
      cases this
  · cases b with
    | nil => simpa using h1
    | cons x b =>
      exfalso
      simp only [List.cons_append, List.cons.injEq] at h2
      have := (isInjection_validationCalls ui c (by rw [h2.2]; simp)).1
      rw [hc] at this
      cases this

/-- In an initial part of the plan, the calls before the validation call are the
research calls and the injection call. -/
theorem calls_before_validation (ui : Ui) (P X : List Call) (c : Call)
    (hc : c.isValidation = true) (h : P ++ c :: X <+: plannedCalls ui) :
    P = (cweList ui.cweIds).map Call.research ++ [injectionCall ui] := by
  obtain ⟨t, ht⟩ := h
  unfold plannedCalls at ht
  rw [List.append_assoc] at ht
  rcases List.append_eq_append_iff.1 ht with ⟨a, h1, h2⟩ | ⟨b, h1, h2⟩
  · exfalso
    cases a with
    | nil =>
      simp only [List.nil_append, List.cons_append, List.cons.injEq] at h2
      rw [h2.1] at hc
      simp [injectionCall, Call.isValidation] at hc
    | cons x a =>
      simp only [List.cons_append, List.cons.injEq] at h2
      have := (isInjection_research _ c (by rw [h1, ← h2.1]; simp)).2
      rw [hc] at this
      cases this
  · cases b with
    | nil =>
      exfalso
      simp only [List.nil_append, List.cons_append, List.cons.injEq] at h2
      rw [← h2.1] at hc
      simp [injectionCall, Call.isValidation] at hc
    | cons x b =>
      simp only [List.cons_append, List.cons.injEq] at h2
      obtain ⟨rfl, h2⟩ := h2
      cases b with
      | nil => exact h1
      | cons y b =>
        exfalso
        unfold validationCalls at h2
        cases hs : ui.skipValidation <;> simp [hs] at h2

theorem countP_planned (ui : Ui) :
    (plannedCalls ui).countP Call.isInjection = 1
      ∧ (plannedCalls ui).countP Call.isValidation ≤ 1 := by
  unfold plannedCalls
  have h1 : ((cweList ui.cweIds).map Call.research).countP Call.isInjection = 0 :=
    List.countP_eq_zero.2 (fun c hc => by simp [(isInjection_research _ c hc).1])
  have h2 : ((cweList ui.cweIds).map Call.research).countP Call.isValidation = 0 :=
    List.countP_eq_zero.2 (fun c hc => by simp [(isInjection_research _ c hc).2])
  rw [List.countP_append, List.countP_append, h1, h2]
  unfold validationCalls injectionCall
  cases ui.skipValidation <;> simp [List.countP_cons, Call.isInjection, Call.isValidation]

theorem stageOfStep_completed {n : Nat} (h : stageOfStep n = Stage.Completed) : 5 ≤ n := by
  match n, h with
  | 0, h => simp [stageOfStep] at h
  | 1, h => simp [stageOfStep] at h
  | 2, h => simp [stageOfStep] at h
  | 3, h => simp [stageOfStep] at h
  | 4, h => simp [stageOfStep] at h
  | n + 5, _ => omega

theorem stage_completed {ui : Ui} (h : ui.stage = Stage.Completed) :
    ui.errorModal = none ∧ 5 ≤ ui.generationStep := by
  unfold Ui.stage at h
  cases he : ui.errorModal with
  | some m => simp [he] at h
  | none =>
    simp only [he, Option.isSome_none, Bool.false_eq_true, if_false] at h
    exact ⟨rfl, stageOfStep_completed h⟩

theorem stage_of_no_error {ui : Ui} (h : ui.errorModal = none) :
    ui.stage = stageOfStep ui.generationStep := by
  simp [Ui.stage, h]

theorem stage_handleReset (ui : Ui) : (handleReset ui).stage = Stage.Idle := rfl

/-- From Completed, with no run suspended, every available action keeps the stage
at Completed, except a reset, which gives Idle, and the failure of a sample
request, which gives Failed. -/
theorem completed_left_by_reset (p : Page) (a : Action) (hs : p.ui.stage = Stage.Completed)
    (hr : p.runs = []) (ha : p.enabled a = true) :
    (p.perform a).ui.stage = Stage.Completed
      ∨ (a = Action.sampleSettles SampleReply.rejected ∧ (p.perform a).ui.stage = Stage.Failed)
      ∨ ((a = Action.reset ∨ a = Action.startNew) ∧ (p.perform a).ui.stage = Stage.Idle) := by
  obtain ⟨he, h5⟩ := stage_completed hs
  have hne : p.ui.generationStep ≠ 0 := by omega
  cases a with
  | setFuncCode v => simp [Page.enabled, hne] at ha
  | setFuncName v => simp [Page.enabled, hne] at ha
  | setCweIds v => simp [Page.enabled, hne] at ha
  | setSkipValidation v => simp [Page.enabled, hne] at ha
  | addRoi => simp [Page.enabled, hne] at ha
  | removeRoi i => simp [Page.enabled, hne] at ha
  | roiChange i f v => simp [Page.enabled, hne] at ha
  | reset => exact Or.inr (Or.inr ⟨Or.inl rfl, rfl⟩)
  | sample => exact Or.inl hs
  | generate => simp [Page.enabled, hne] at ha
  | closeResult =>
    left
    have : (p.perform Action.closeResult).ui.stage = p.ui.stage := by
      simp [Page.perform, Ui.stage]
    rw [this, hs]
  | startNew => exact Or.inr (Or.inr ⟨Or.inr rfl, rfl⟩)
  | closeError => simp [Page.enabled, he] at ha
  | errorReset => simp [Page.enabled, he] at ha
  | retry => simp [Page.enabled, he] at ha
  | runSettles i r => simp [Page.enabled, hr] at ha
  | sampleSettles r =>
    cases r with
    | rejected => exact Or.inr (Or.inl ⟨rfl, by simp [Page.perform, sampleSettled, Ui.stage]⟩)
    | data d =>
      left
      cases d with
      | none => exact hs
      | some d =>
        have : (p.perform (Action.sampleSettles (SampleReply.data (some d)))).ui.stage
            = p.ui.stage := by
          simp [Page.perform, sampleSettled, Ui.stage]
        rw [this, hs]

/-! ## The importer loop -/

/-- The importer loop pairs the captured codes with the lines by position. -/
theorem parseLoop_eq (lines : List Str) : ∀ (n : Nat) (parts : List Str) (parsed : List Roi),
    parts.length ≤ n →
    parseLoop lines parts parsed = parsed ++ pairUp lines parsed.length (codesOf parts)
  | 0, parts, parsed, h => by
    have : parts = [] := List.length_eq_zero.1 (Nat.le_zero.1 h)
    subst this
    simp [parseLoop, codesOf, pairUp]
  | n + 1, [], parsed, _ => by simp [parseLoop, codesOf, pairUp]
  | n + 1, [x], parsed, _ => by simp [parseLoop, codesOf, pairUp]
  | n + 1, x :: code :: rest, parsed, h => by
    have hlen : rest.length ≤ n := by simp at h; omega
    by_cases hc : code = []
    · rw [parseLoop, if_neg (by simp [hc]), codesOf, if_neg (by simp [hc])]
      exact parseLoop_eq lines n rest parsed hlen
    · rw [parseLoop, if_pos hc, codesOf, if_pos hc, parseLoop_eq lines n rest _ hlen]
      simp [pairUp]

theorem length_pairUp (lines : List Str) : ∀ (codes : List Str) (k : Nat),
    (pairUp lines k codes).length = codes.length
  | [], _ => rfl
  | c :: cs, k => by simp [pairUp, length_pairUp lines cs]

theorem getElem?_pairUp (lines : List Str) : ∀ (codes : List Str) (k j : Nat),
    (pairUp lines k codes)[j]?
      = (codes[j]?).map fun code => { roi := trim code, line := (lines[k + j]?).getD [] }
  | [], _, _ => by simp [pairUp]
  | c :: cs, k, 0 => by simp [pairUp]
  | c :: cs, k, j + 1 => by
    simp only [pairUp, List.getElem?_cons_succ]
    rw [getElem?_pairUp lines cs (k + 1) j]
    have : k + 1 + j = k + (j + 1) := by omega
    rw [this]

/-- The value of the importer in terms of the captured codes. -/
theorem importSample_eq (roiBlock lineBlock : Str) :
    importSample roiBlock lineBlock
      = if codesOf ((jsSplit matchMarker roiBlock).drop 1) = [] then
          [{ roi := roiBlock, line := lineBlock }]
        else pairUp (sampleLines lineBlock) 0 (codesOf ((jsSplit matchMarker roiBlock).drop 1)) := by
  unfold importSample
  simp only [parseLoop_eq _ _ _ _ (le_refl _), List.nil_append, List.length_nil, length_pairUp,
    List.length_eq_zero]

theorem splitGo_no_marker : ∀ (s acc : Str), hasMarker s = false →
    splitGo matchMarker 0 acc s = [acc.reverse ++ s]
  | [], acc, _ => by simp [splitGo]
  | c :: cs, acc, h => by
    rw [hasMarker_cons, Bool.or_eq_false_iff] at h
    have hn : matchMarker (c :: cs) = none := by
      cases hm : matchMarker (c :: cs) with
      | none => rfl
      | some r => rw [hm] at h; simp at h
    rw [splitGo_none _ _ _ _ hn, splitGo_no_marker cs (c :: acc) h.2]
    simp

theorem codesOf_relabel (label : Str) : ∀ (n : Nat) (parts : List Str), parts.length ≤ n →
    codesOf (relabel label parts) = codesOf parts
  | 0, parts, h => by
    have : parts = [] := List.length_eq_zero.1 (Nat.le_zero.1 h)
    subst this
    rfl
  | n + 1, [], _ => rfl
  | n + 1, [x], _ => rfl
  | n + 1, x :: code :: rest, h => by
    have hlen : rest.length ≤ n := by simp at h; omega
    simp only [relabel, codesOf, codesOf_relabel label n rest hlen]

theorem mem_codesOf : ∀ (n : Nat) (parts : List Str), parts.length ≤ n →
    ∀ code ∈ codesOf parts, code ≠ []
  | 0, parts, h => by
    have : parts = [] := List.length_eq_zero.1 (Nat.le_zero.1 h)
    subst this
    simp [codesOf]
  | n + 1, [], _ => by simp [codesOf]
  | n + 1, [x], _ => by simp [codesOf]
  | n + 1, x :: code :: rest, h => by
    have hlen : rest.length ≤ n := by simp at h; omega
    intro c hc
    by_cases hcode : code = []
    · rw [codesOf, if_neg (by simp [hcode])] at hc
      exact mem_codesOf n rest hlen c hc
    · rw [codesOf, if_pos hcode] at hc
      rcases List.mem_cons.1 hc with rfl | hc
      · exact hcode
      · exact mem_codesOf n rest hlen c hc

/-! ## Runs in which the calls succeed -/

theorem callsOf_researchEvents : ∀ toks : List Str,
    callsOf (researchEvents toks) = toks.map Call.research
  | [] => rfl
  | t :: ts => by simp [researchEvents, callsOf_call, callsOf_reply, callsOf_researchEvents ts]

theorem stepsOf_researchEvents : ∀ toks : List Str, stepsOf (researchEvents toks) = []
  | [] => rfl
  | t :: ts => by simp [researchEvents, stepsOf_call, stepsOf_reply, stepsOf_researchEvents ts]

theorem repliesOf_researchEvents : ∀ toks : List Str,
    repliesOf (researchEvents toks) = List.replicate toks.length (Reply.data true)
  | [] => rfl
  | t :: ts => by
    simp [researchEvents, repliesOf_call, repliesOf_reply, repliesOf_researchEvents ts,
      List.replicate_succ]

theorem applyAll_researchEvents (ui : Ui) : ∀ toks : List Str,
    ui.applyAll (researchEvents toks) = ui
  | [] => rfl
  | t :: ts => by
    have := applyAll_researchEvents ui ts
    simpa [researchEvents, Ui.applyAll, Ui.apply] using this

/-- The research loop with truthy replies for all its calls: the calls and their
replies, then the injection step. -/
theorem researchLoop_truthy (ui : Ui) (more : List Reply) : ∀ toks : List Str,
    (researchLoop ui toks).1
        ++ settle (researchLoop ui toks).2
            (List.replicate toks.length (Reply.data true) ++ more)
      = researchEvents toks
          ++ Event.setGenerationStep 2 :: Event.call (injectionCall ui)
            :: settle (some { ctx := ui, awaiting := Await.injection }) more
  | [] => rfl
  | t :: ts => by
    have ih := researchLoop_truthy ui more ts
    show Event.call (Call.research t) :: Event.reply (Reply.data true)
        :: ((researchLoop ui ts).1 ++ settle (researchLoop ui ts).2
            (List.replicate ts.length (Reply.data true) ++ more)) = _
    rw [ih]
    rfl

/-- A run of a valid request whose research calls all succeed. -/
theorem handleGenerate_research_truthy (ui : Ui) (more : List Reply)
    (hvalid : validateInput ui.funcCode ui.funcName ui.cweIds ui.rois = true) :
    handleGenerate ui (List.replicate (cweList ui.cweIds).length (Reply.data true) ++ more)
      = Event.setErrors [] :: Event.setGenerationStep 1
          :: (researchEvents (cweList ui.cweIds)
            ++ Event.setGenerationStep 2 :: Event.call (injectionCall ui)
              :: settle (some { ctx := ui, awaiting := Await.injection }) more) := by
  have he := (validateInput_iff _ _ _ _).1 hvalid
  unfold handleGenerate startGenerate
  rw [hvalid, he]
  simp only [if_true, List.cons_append]
  rw [researchLoop_truthy]

theorem settle_injection_truthy (ui : Ui) (more : List Reply) :
    settle (some { ctx := ui, awaiting := Await.injection }) (Reply.data true :: more)
      = Event.reply (Reply.data true) :: Event.setGenerationStep 3
          :: (if ui.skipValidation = true then
                [Event.setGenerationStep 5, Event.setShowModal true]
              else Event.setGenerationStep 4
                :: Event.call (Call.validation ui.funcName ui.funcCode (lineStr ui.rois))
                :: settle (some { ctx := ui, awaiting := Await.validation }) more) := by
  cases hs : ui.skipValidation <;>
    simp [settle_cons, resume, validationStep, finish, hs, settle_none]

theorem settle_validation (ui : Ui) (more : List Reply) :
    settle (some { ctx := ui, awaiting := Await.validation }) more
      = match more with
        | [] => []
        | Reply.data true :: _ =>
          [Event.reply (Reply.data true), Event.setGenerationStep 5, Event.setShowModal true]
        | Reply.data false :: _ =>
          Event.reply (Reply.data false) :: failure (some "Validation failed".toList)
        | Reply.rejected message :: _ => Event.reply (Reply.rejected message) :: failure message := by
  match more with
  | [] => rfl
  | Reply.data true :: _ => simp [settle_cons, resume, finish, settle_none]
  | Reply.data false :: _ => simp [settle_cons, resume, settle_none]
  | Reply.rejected message :: _ => simp [settle_cons, resume, settle_none]

theorem stepsOf_setStep (n : Nat) (l : List Event) :
    stepsOf (Event.setGenerationStep n :: l) = n :: stepsOf l := rfl

theorem stepsOf_setErrors (e : Errors) (l : List Event) :
    stepsOf (Event.setErrors e :: l) = stepsOf l := rfl

theorem stepsOf_setShowModal (b : Bool) (l : List Event) :
    stepsOf (Event.setShowModal b :: l) = stepsOf l := rfl

theorem callsOf_setStep (n : Nat) (l : List Event) :
    callsOf (Event.setGenerationStep n :: l) = callsOf l := rfl

theorem callsOf_setErrors (e : Errors) (l : List Event) :
    callsOf (Event.setErrors e :: l) = callsOf l := rfl

theorem callsOf_setShowModal (b : Bool) (l : List Event) :
    callsOf (Event.setShowModal b :: l) = callsOf l := rfl

theorem applyAll_cons (ui : Ui) (e : Event) (l : List Event) :
    ui.applyAll (e :: l) = (ui.apply e).applyAll l := rfl

theorem applyAll_nil (ui : Ui) : ui.applyAll [] = ui := rfl

theorem countP_isValidation_research (toks : List Str) :
    (toks.map Call.research).countP Call.isValidation = 0 :=
  List.countP_eq_zero.2 (fun c hc => by simp [(isInjection_research _ c hc).2])

/-! ## Runs and the request -/

theorem sameRequest_apply (ui : Ui) (e : Event) : SameRequest (ui.apply e) ui := by
  cases e <;> exact ⟨rfl, rfl, rfl, rfl, rfl⟩

/-- No event of a run changes the request. -/
theorem sameRequest_applyAll : ∀ (events : List Event) (ui : Ui),
    SameRequest (ui.applyAll events) ui
  | [], _ => ⟨rfl, rfl, rfl, rfl, rfl⟩
  | e :: es, ui => by
    obtain ⟨h1, h2, h3, h4, h5⟩ := sameRequest_applyAll es (ui.apply e)
    obtain ⟨g1, g2, g3, g4, g5⟩ := sameRequest_apply ui e
    exact ⟨h1.trans g1, h2.trans g2, h3.trans g3, h4.trans g4, h5.trans g5⟩

/-- A suspended execution behaves the same for two captured states that hold the
same request. -/
theorem settle_sameRequest {a b : Ui} (h : SameRequest a b) : ∀ (rs : List Reply) (aw : Await),
    settle (some { ctx := a, awaiting := aw }) rs = settle (some { ctx := b, awaiting := aw }) rs
  | [], _ => rfl
  | r :: rs, aw => by
    obtain ⟨h1, h2, h3, h4, h5⟩ := h
    have hi : injectionCall a = injectionCall b := by
      simp [injectionCall, h1, h2, h3, h4]
    cases r with
    | rejected m => simp [settle_cons, resume, settle_none]
    | data t =>
      cases t with
      | false => cases aw <;> simp [settle_cons, resume, settle_none]
      | true =>
        cases aw with
        | research c rest =>
          cases rest with
          | nil =>
            simp only [settle_cons, resume, if_true, researchLoop, injectionStep]
            rw [settle_sameRequest ⟨h1, h2, h3, h4, h5⟩ rs Await.injection]
            simp [h1, h2, h3, h4]
          | cons c2 rest =>
            simp only [settle_cons, resume, if_true, researchLoop]
            rw [settle_sameRequest ⟨h1, h2, h3, h4, h5⟩ rs (Await.research c2 rest)]
        | injection =>
          cases hs : b.skipValidation with
          | true =>
            simp [settle_cons, resume, validationStep, finish, settle_none, hs, h5]
          | false =>
            simp only [settle_cons, resume, validationStep, hs, h5, if_true, Bool.not_false]
            rw [settle_sameRequest ⟨h1, h2, h3, h4, h5⟩ rs Await.validation]
            simp [h1, h2, h4]
        | validation => simp [settle_cons, resume, finish, settle_none]

/-- A run depends on the state it is started in through the request only. -/
theorem handleGenerate_sameRequest {a b : Ui} (h : SameRequest a b) (replies : List Reply) :
    handleGenerate a replies = handleGenerate b replies := by
  obtain ⟨h1, h2, h3, h4, h5⟩ := h
  unfold handleGenerate startGenerate
  rw [h1, h2, h3, h4]
  cases validateInput b.funcCode b.funcName b.cweIds b.rois with
  | false => rfl
  | true =>
    simp only [if_true]
    cases cweList b.cweIds with
    | nil =>
      simp only [researchLoop, injectionStep, List.cons_append, List.nil_append]
      rw [settle_sameRequest ⟨h1, h2, h3, h4, h5⟩ replies Await.injection]
      simp [h1, h2, h3, h4]
    | cons c rest =>
      simp only [researchLoop, List.cons_append, List.nil_append]
      rw [settle_sameRequest ⟨h1, h2, h3, h4, h5⟩ replies (Await.research c rest)]

theorem length_plannedCalls (ui : Ui) :
    (plannedCalls ui).length
      = (cweList ui.cweIds).length + 1 + (if ui.skipValidation = true then 0 else 1) := by
  unfold plannedCalls validationCalls
  cases ui.skipValidation <;> simp

/-- A run of a valid request in which every planned call succeeds. -/
theorem handleGenerate_allTruthy (ui : Ui)
    (hvalid : validateInput ui.funcCode ui.funcName ui.cweIds ui.rois = true) :
    handleGenerate ui (allTruthy ui)
      = Event.setErrors [] :: Event.setGenerationStep 1
          :: (researchEvents (cweList ui.cweIds)
            ++ Event.setGenerationStep 2 :: Event.call (injectionCall ui)
              :: Event.reply (Reply.data true) :: Event.setGenerationStep 3
              :: (if ui.skipValidation = true then
                    [Event.setGenerationStep 5, Event.setShowModal true]
                  else [Event.setGenerationStep 4,
                    Event.call (Call.validation ui.funcName ui.funcCode (lineStr ui.rois)),
                    Event.reply (Reply.data true), Event.setGenerationStep 5,
                    Event.setShowModal true])) := by
  have hrep : allTruthy ui
      = List.replicate (cweList ui.cweIds).length (Reply.data true)
          ++ Reply.data true
            :: List.replicate (if ui.skipValidation = true then 0 else 1) (Reply.data true) := by
    unfold allTruthy
    rw [length_plannedCalls, List.replicate_add, List.replicate_add]
    simp
  rw [hrep, handleGenerate_research_truthy ui _ hvalid, settle_injection_truthy]
  cases hs : ui.skipValidation with
  | true => simp
  | false => simp [settle_validation]

theorem callsOf_allTruthy (ui : Ui)
    (hvalid : validateInput ui.funcCode ui.funcName ui.cweIds ui.rois = true) :
    callsOf (handleGenerate ui (allTruthy ui)) = plannedCalls ui := by
  rw [handleGenerate_allTruthy ui hvalid]
  unfold plannedCalls validationCalls
  cases hs : ui.skipValidation <;>
    simp [callsOf_setErrors, callsOf_setStep, callsOf_append, callsOf_researchEvents,
      callsOf_call, callsOf_reply, callsOf_setShowModal, callsOf]

theorem applyAll_allTruthy (ui start : Ui)
    (hvalid : validateInput ui.funcCode ui.funcName ui.cweIds ui.rois = true) :
    start.applyAll (handleGenerate ui (allTruthy ui))
      = { start with errors := [], generationStep := 5, showModal := true } := by
  rw [handleGenerate_allTruthy ui hvalid]
  cases hs : ui.skipValidation <;>
    simp [applyAll_cons, applyAll_append, applyAll_researchEvents, Ui.apply, applyAll_nil]

theorem plannedCalls_sameRequest {a b : Ui} (h : SameRequest a b) :
    plannedCalls a = plannedCalls b := by
  obtain ⟨h1, h2, h3, h4, h5⟩ := h
  simp [plannedCalls, injectionCall, validationCalls, h1, h2, h3, h4, h5]

/-! ## The encoder and the reset -/

theorem jsJoin_eq_intercalate (sep : Str) : ∀ l : List Str, jsJoin sep l = List.intercalate sep l
  | [] => rfl
  | [x] => by simp [jsJoin, List.intercalate]
  | x :: y :: rest => by
    have ih := jsJoin_eq_intercalate sep (y :: rest)
    simp only [List.intercalate, List.intersperse, List.flatten_cons] at ih ⊢
    rw [jsJoin_cons_cons, ih]
    simp

theorem decimal_eq_repr (n : Nat) : decimal n = (Nat.repr n).toList := by
  simp [decimal, Nat.repr, List.asString]

theorem numberedFrom_eq : ∀ (rois : List Roi) (i : Nat),
    numberedFrom i rois
      = (rois.enumFrom i).map fun p => (Nat.repr (p.1 + 1)).toList ++ ['.', ' '] ++ p.2.roi
  | [], _ => rfl
  | r :: rs, i => by
    simp only [numberedFrom, List.enumFrom_cons, List.map_cons, numberedFrom_eq rs (i + 1),
      decimal_eq_repr]
    simp

theorem injection_of_run (ui : Ui) (replies : List Reply) (c : Call)
    (hc : c ∈ callsOf (handleGenerate ui replies)) (hi : c.isInjection = true) :
    c = injectionCall ui := by
  have h := (callsOf_handleGenerate ui replies).subset hc
  unfold plannedCalls at h
  rcases List.mem_append.1 h with h | h
  · have := (isInjection_research _ c h).1
    rw [hi] at this
    cases this
  · rcases List.mem_cons.1 h with h | h
    · exact h
    · have := (isInjection_validationCalls ui c h).1
      rw [hi] at this
      cases this

theorem stageOfStep_ne_failed (n : Nat) : stageOfStep n ≠ Stage.Failed := by
  unfold stageOfStep
  split <;> simp

theorem stageOfStep_rest_iff (n : Nat) :
    (stageOfStep n = Stage.Idle ∨ stageOfStep n = Stage.Completed) ↔ (n = 0 ∨ 5 ≤ n) := by
  match n with
  | 0 => simp [stageOfStep]
  | 1 => simp [stageOfStep]
  | 2 => simp [stageOfStep]
  | 3 => simp [stageOfStep]
  | 4 => simp [stageOfStep]
  | n + 5 => simp [stageOfStep]

theorem enabled_reset_iff (p : Page) :
    p.enabled Action.reset = true ↔ (p.ui.generationStep = 0 ∨ 5 ≤ p.ui.generationStep) := by
  simp only [Page.enabled, Bool.not_eq_true', Bool.and_eq_false_iff, decide_eq_false_iff_not]
  omega

theorem perform_runSettles (q : Page) (i : Nat) (r : Reply) (run : Pending)
    (h : q.runs.get? i = some run) :
    q.perform (Action.runSettles i r)
      = { q with ui := q.ui.applyAll (resume run r).1,
                 runs := replaceRun q.runs i (resume run r).2 } := by
  show (match q.runs.get? i with
    | some run => ({ q with ui := q.ui.applyAll (resume run r).1,
                            runs := replaceRun q.runs i (resume run r).2 } : Page)
    | none => q) = _
  rw [h]

/-! ## The marker, the CWE list and the course of a run -/

theorem hasMarker_append_left : ∀ (pre s : Str), hasMarker s = true → hasMarker (pre ++ s) = true
  | [], _, h => h
  | c :: pre, s, h => by
    rw [List.cons_append, hasMarker_cons, hasMarker_append_left pre s h, Bool.or_true]

/-- The search `hasMarker` finds exactly the occurrences of the marker. -/
theorem hasMarker_iff : ∀ s : Str, hasMarker s = true ↔ MarkerOccurs s
  | [] => by
    constructor
    · intro h
      cases h
    · rintro ⟨pre, ds, w, rest, h, -, -⟩
      have := congrArg List.length h
      simp at this
      omega
  | c :: cs => by
    constructor
    · intro h
      rw [hasMarker_cons, Bool.or_eq_true] at h
      rcases h with h | h
      · obtain ⟨r, hr⟩ := Option.isSome_iff_exists.1 h
        obtain ⟨ds, w, rest, hs, hne, hds, hw, -⟩ := matchMarker_some hr
        exact ⟨[], ds, w, rest, hs, ⟨hne, hds⟩, hw⟩
      · obtain ⟨pre, ds, w, rest, hs, hd, hw⟩ := (hasMarker_iff cs).1 h
        exact ⟨c :: pre, ds, w, rest, by rw [hs]; rfl, hd, hw⟩
    · rintro ⟨pre, ds, w, rest, hs, ⟨hne, hds⟩, hw⟩
      rw [hs]
      apply hasMarker_append_left
      have hm := matchMarker_marker w rest hne hds hw
      cases ds with
      | nil => exact absurd rfl hne
      | cons d ds =>
        rw [List.cons_append] at hm ⊢
        rw [hasMarker_cons, hm]
        rfl

theorem splitGo_length_pos (m : Str → Option (List Str × Nat)) :
    ∀ (s : Str) (skip : Nat) (acc : Str), 1 ≤ (splitGo m skip acc s).length
  | [], _, _ => by simp [splitGo]
  | c :: cs, skip + 1, acc => by
    rw [splitGo]
    exact splitGo_length_pos m cs skip acc
  | c :: cs, 0, acc => by
    rcases hm : m (c :: cs) with _ | ⟨caps, len⟩
    · rw [splitGo_none _ _ _ _ hm]
      exact splitGo_length_pos m cs 0 (c :: acc)
    · rw [splitGo_some _ _ _ _ _ _ hm]
      simp

/-- A string in which the marker occurs is cut into three parts at least. -/
theorem splitGo_marker_length : ∀ (s acc : Str), hasMarker s = true →
    3 ≤ (splitGo matchMarker 0 acc s).length
  | [], _, h => by cases h
  | c :: cs, acc, h => by
    rcases hm : matchMarker (c :: cs) with _ | ⟨caps, len⟩
    · rw [hasMarker_cons, hm] at h
      rw [splitGo_none _ _ _ _ hm]
      exact splitGo_marker_length cs (c :: acc) (by simpa using h)
    · obtain ⟨ds, w, rest, -, -, -, -, hr⟩ := matchMarker_some hm
      rw [splitGo_some _ _ _ _ _ _ hm]
      have h1 := splitGo_length_pos matchMarker cs (len - 1) []
      have h2 : caps = [ds] := (Prod.mk.inj hr).1
      rw [h2]
      simp only [List.length_cons, List.length_append, List.length_nil]
      omega

/-- Digits and a dot followed by a character that is not white space are no marker. -/
theorem matchMarker_not_space {ds : Str} (w : Char) (rest : Str)
    (hds : ∀ c ∈ ds, isDigit c = true) (hw : isSpace w = false) :
    matchMarker (ds ++ '.' :: w :: rest) = none := by
  have hdot : isDigit '.' = false := by decide
  have e2 : (ds ++ '.' :: w :: rest).dropWhile isDigit = '.' :: w :: rest := by
    rw [List.dropWhile_append_of_pos hds, List.dropWhile_cons_of_neg (by simp [hdot])]
  unfold matchMarker
  simp only [e2]
  rw [if_neg]
  simp [hw]

/-- Digits and a dot at the end of the string are no marker. -/
theorem matchMarker_at_end {ds : Str} (hds : ∀ c ∈ ds, isDigit c = true) :
    matchMarker (ds ++ ['.']) = none := by
  have hdot : isDigit '.' = false := by decide
  have e2 : (ds ++ ['.']).dropWhile isDigit = ['.'] := by
    rw [List.dropWhile_append_of_pos hds, List.dropWhile_cons_of_neg (by simp [hdot])]
  unfold matchMarker
  simp only [e2]

theorem trim_of_no_space {s : Str} (h : ∀ c ∈ s, isSpace c = false) : trim s = s := by
  have h1 : ∀ l : Str, (∀ c ∈ l, isSpace c = false) → l.dropWhile isSpace = l := by
    intro l hl
    cases l with
    | nil => rfl
    | cons c cs => exact List.dropWhile_cons_of_neg (by simp [hl c (by simp)])
  unfold trim trimEnd trimStart
  rw [h1 s h, h1 s.reverse (by intro c hc; exact h c (List.mem_reverse.1 hc)), List.reverse_reverse]

/-- A decimal numeral is one line for the line splitter of the importer. -/
theorem sampleLines_decimal (n : Nat) : sampleLines (decimal n) = [decimal n] := by
  have h := sampleLines_lineStr [{ roi := [], line := decimal n }] (by
    intro r hr
    rw [List.mem_singleton.1 hr]
    refine ⟨decimal_ne_nil n, trim_of_no_space ?_, ?_⟩
    · intro c hc
      exact isDigit_not_isSpace (decimal_isDigit n c hc)
    · intro c hc hn
      have := decimal_isDigit n c hc
      rw [hn] at this
      exact absurd this (by decide))
  exact h

/-- The first region of the importer takes the first line, when there is one;
the fallback region takes the whole line block. -/
theorem importSample_head_line (roiBlock lineBlock l : Str) (h : sampleLines lineBlock = [l])
    (hl : l = lineBlock) :
    ∃ r rest, importSample roiBlock lineBlock = r :: rest ∧ r.line = lineBlock := by
  rw [importSample_eq]
  split
  · exact ⟨_, [], rfl, rfl⟩
  · rename_i hne
    rcases hc : codesOf ((jsSplit matchMarker roiBlock).drop 1) with _ | ⟨code, codes⟩
    · exact absurd hc hne
    · refine ⟨_, _, rfl, ?_⟩
      rw [h, hl]
      rfl

/-- The key `cweIds` of the error object depends on the CWE field only. -/
theorem hasKey_newErrors_cweIds (fc fn cw : Str) (rois : List Roi) :
    hasKey (newErrors fc fn cw rois) ErrKey.cweIds = (isBlank cw || !cweRe.test (trim cw)) := by
  have h1 : (if rois = [] then decide (ErrKey.rois = ErrKey.cweIds)
      else hasKey (forEachRoi 0 rois) ErrKey.cweIds) = false := by
    split
    · decide
    · exact hasKey_forEachRoi_other _ _ _ (fun _ => by simp) (fun _ => by simp)
  rw [hasKey_newErrors, h1]
  simp

theorem isWordOrDash_not_isSpace {c : Char} (h : isWordOrDash c = true) : isSpace c = false := by
  simp only [isWordOrDash, isWord, isSpace, Bool.or_eq_true, decide_eq_true_eq, beq_iff_eq,
    decide_eq_false_iff_not] at *
  rcases h with h | h
  · omega
  · subst h
    decide

theorem token_no_space {t : Str} (h : Token t) : ∀ c ∈ t, isSpace c = false :=
  fun c hc => isWordOrDash_not_isSpace (h.2 c hc)

theorem token_no_comma {t : Str} (h : Token t) : ',' ∉ t := by
  intro hc
  exact absurd (h.2 _ hc) (by decide)

theorem spaces_no_comma {w : Str} (h : Spaces w) : ',' ∉ w := by
  intro hc
  exact absurd (h _ hc) (by decide)

/-- Trimming a padded identifier gives the identifier. -/
theorem trim_padded {piece id : Str} (h : Padded piece id) : trim piece = id := by
  obtain ⟨ht, a, b, ha, hb, rfl⟩ := h
  have h1 : trim (id ++ b) = id := trim_append_spaces (trim_of_no_space (token_no_space ht)) ht.1 hb
  have h2 : trimStart (a ++ id ++ b) = trimStart (id ++ b) := by
    unfold trimStart
    rw [List.append_assoc, List.dropWhile_append_of_pos ha]
  unfold trim at h1 ⊢
  rw [h2, h1]

theorem padded_no_comma {piece id : Str} (h : Padded piece id) : ',' ∉ piece := by
  obtain ⟨ht, a, b, ha, hb, rfl⟩ := h
  simp only [List.mem_append, not_or]
  exact ⟨⟨spaces_no_comma ha, token_no_comma ht⟩, spaces_no_comma hb⟩

/-- A string without a comma is one piece for `split(',')`. -/
theorem splitGo_comma_free : ∀ (s acc : Str), ',' ∉ s →
    splitGo matchComma 0 acc s = [acc.reverse ++ s]
  | [], acc, _ => by simp [splitGo]
  | c :: cs, acc, h => by
    have hc : c ≠ ',' := fun e => h (by simp [e])
    have hm : matchComma (c :: cs) = none := by simp [matchComma, hc]
    rw [splitGo_none _ _ _ _ hm, splitGo_comma_free cs (c :: acc) (fun e => h (by simp [e]))]
    simp

/-- The method `split(',')` cuts at the first comma. -/
theorem splitGo_comma (b : Str) : ∀ (a acc : Str), ',' ∉ a →
    splitGo matchComma 0 acc (a ++ ',' :: b) = (acc.reverse ++ a) :: splitGo matchComma 0 [] b
  | [], acc, _ => by
    have hm : matchComma (',' :: b) = some ([], 1) := by simp [matchComma]
    rw [List.nil_append, splitGo_some _ _ _ _ _ _ hm]
    simp
  | c :: cs, acc, h => by
    have hc : c ≠ ',' := fun e => h (by simp [e])
    have hm : matchComma (c :: (cs ++ ',' :: b)) = none := by simp [matchComma, hc]
    rw [List.cons_append, splitGo_none _ _ _ _ hm,
      splitGo_comma b cs (c :: acc) (fun e => h (by simp [e]))]
    simp

/-- Joining the pieces of `split(',')` with commas gives the string back. -/
theorem jsJoin_splitGo_comma : ∀ (s acc : Str),
    jsJoin [','] (splitGo matchComma 0 acc s) = acc.reverse ++ s
  | [], acc => by simp [splitGo, jsJoin]
  | c :: cs, acc => by
    by_cases hc : c = ','
    · have hm : matchComma (c :: cs) = some ([], 1) := by simp [matchComma, hc]
      have ih := jsJoin_splitGo_comma cs []
      rw [splitGo_some _ _ _ _ _ _ hm]
      rcases hs : splitGo matchComma 0 [] cs with _ | ⟨y, l⟩
      · have := splitGo_length_pos matchComma cs 0 []
        rw [hs] at this
        simp at this
      · rw [hs] at ih
        simp only [Nat.sub_self, List.nil_append]
        rw [jsJoin_cons_cons, ih, hc]
        simp
    · have hm : matchComma (c :: cs) = none := by simp [matchComma, hc]
      rw [splitGo_none _ _ _ _ hm, jsJoin_splitGo_comma cs (c :: acc)]
      simp

/-- The method `split(',')` gives one piece more than the string has commas. -/
theorem length_splitGo_comma : ∀ (s acc : Str),
    (splitGo matchComma 0 acc s).length = s.count ',' + 1
  | [], acc => by simp [splitGo]
  | c :: cs, acc => by
    by_cases hc : c = ','
    · have hm : matchComma (c :: cs) = some ([], 1) := by simp [matchComma, hc]
      rw [splitGo_some _ _ _ _ _ _ hm]
      simp only [Nat.sub_self, List.nil_append, List.length_cons]
      rw [length_splitGo_comma cs [], hc, List.count_cons_self]
    · have hm : matchComma (c :: cs) = none := by simp [matchComma, hc]
      rw [splitGo_none _ _ _ _ hm, length_splitGo_comma cs (c :: acc),
        List.count_cons_of_ne (Ne.symm hc)]

/-- No piece of `split(',')` holds a comma. -/
theorem splitGo_comma_pieces : ∀ (s acc : Str), ',' ∉ acc →
    ∀ piece ∈ splitGo matchComma 0 acc s, ',' ∉ piece
  | [], acc, h => by
    intro piece hp
    simp only [splitGo, List.mem_singleton] at hp
    rw [hp]
    simpa using h
  | c :: cs, acc, h => by
    by_cases hc : c = ','
    · have hm : matchComma (c :: cs) = some ([], 1) := by simp [matchComma, hc]
      rw [splitGo_some _ _ _ _ _ _ hm]
      intro piece hp
      simp only [Nat.sub_self, List.nil_append, List.mem_cons] at hp
      rcases hp with hp | hp
      · rw [hp]
        simpa using h
      · exact splitGo_comma_pieces cs [] (by simp) piece hp
    · have hm : matchComma (c :: cs) = none := by simp [matchComma, hc]
      rw [splitGo_none _ _ _ _ hm]
      exact splitGo_comma_pieces cs (c :: acc) (by
        simp only [List.mem_cons, not_or]
        exact ⟨Ne.symm hc, h⟩)

/-- Every string is its trimmed form with white space before and after it. -/
theorem trim_decompose (s : Str) :
    ∃ lead trail, Spaces lead ∧ Spaces trail ∧ s = lead ++ trim s ++ trail := by
  refine ⟨s.takeWhile isSpace, ((trimStart s).reverse.takeWhile isSpace).reverse, ?_, ?_, ?_⟩
  · intro c hc
    exact (List.mem_takeWhile_imp hc)
  · intro c hc
    exact (List.mem_takeWhile_imp (List.mem_reverse.1 hc))
  · have h1 : s = s.takeWhile isSpace ++ trimStart s := (List.takeWhile_append_dropWhile _ _).symm
    have h2 : trimStart s = trim s ++ ((trimStart s).reverse.takeWhile isSpace).reverse := by
      unfold trim trimEnd
      rw [← List.reverse_append, List.takeWhile_append_dropWhile, List.reverse_reverse]
    rw [List.append_assoc, ← h2, ← h1]

/-- The pieces of an accepted CWE string are its identifiers, each with white
space around it. -/
theorem split_commaList {T : Str} (h : CommaList false T) : ∀ (lead trail : Str),
    Spaces lead → Spaces trail →
    ∃ ids, List.Forall₂ Padded (jsSplit matchComma (lead ++ T ++ trail)) ids := by
  induction h with
  | one t ht =>
    intro lead trail hl htr
    have hp : Padded (lead ++ t ++ trail) t := ⟨ht, lead, trail, hl, htr, rfl⟩
    refine ⟨[t], ?_⟩
    unfold jsSplit
    rw [splitGo_comma_free _ _ (padded_no_comma hp)]
    exact List.Forall₂.cons hp List.Forall₂.nil
  | more t w1 w2 rest ht hw1 hb hw2 _ ih =>
    intro lead trail hl htr
    obtain ⟨ids, hids⟩ := ih w2 trail hw2 htr
    have hp : Padded (lead ++ t ++ []) t := ⟨ht, lead, [], hl, (by intro c hc; cases hc), rfl⟩
    have e : lead ++ (t ++ w1 ++ ',' :: (w2 ++ rest)) ++ trail
        = (lead ++ t ++ []) ++ ',' :: (w2 ++ rest ++ trail) := by
      rw [hb rfl]
      simp
    refine ⟨t :: ids, ?_⟩
    unfold jsSplit at hids ⊢
    rw [e, splitGo_comma _ _ _ (padded_no_comma hp)]
    exact List.Forall₂.cons hp hids

theorem map_trim_padded {pieces ids : List Str} (h : List.Forall₂ Padded pieces ids) :
    pieces.map trim = ids ∧ ∀ id ∈ ids, Token id := by
  induction h with
  | nil => exact ⟨rfl, by simp⟩
  | cons hp _ ih =>
    refine ⟨by rw [List.map_cons, trim_padded hp, ih.1], ?_⟩
    intro id hid
    rcases List.mem_cons.1 hid with rfl | hid
    · exact hp.1
    · exact ih.2 id hid

/-- The validator accepts a CWE string exactly when it is not blank and its
trimmed form is a comma-separated token list. -/
theorem cweIdsErrors_eq_nil (cweIds : Str) :
    cweIdsErrors cweIds = [] ↔ isBlank cweIds = false ∧ CommaList false (trim cweIds) := by
  rw [← cweRe_iff]
  unfold cweIdsErrors
  cases isBlank cweIds <;> cases cweRe.test (trim cweIds) <;> simp

/-- The identifiers researched for an accepted CWE string. -/
theorem cweList_accepted (cweIds : Str) (h : cweIdsErrors cweIds = []) :
    List.Forall₂ Padded (jsSplit matchComma cweIds) (cweList cweIds)
      ∧ cweList cweIds = (jsSplit matchComma cweIds).map trim := by
  obtain ⟨lead, trail, hl, ht, hs⟩ := trim_decompose cweIds
  obtain ⟨ids, hids⟩ := split_commaList ((cweIdsErrors_eq_nil cweIds).1 h).2 lead trail hl ht
  rw [← hs] at hids
  obtain ⟨h1, h2⟩ := map_trim_padded hids
  have h3 : cweList cweIds = ids := by
    unfold cweList
    rw [h1, List.filter_eq_self]
    intro id hid
    simpa using (h2 id hid).1
  rw [h3]
  exact ⟨hids, h1.symm⟩

theorem map_roi_pairUp (lines : List Str) : ∀ (codes : List Str) (k : Nat),
    (pairUp lines k codes).map Roi.roi = codes.map trim
  | [], _ => rfl
  | c :: cs, k => by simp [pairUp, map_roi_pairUp lines cs]

theorem map_line_pairUp (lines : List Str) : ∀ (codes : List Str) (k : Nat),
    k + codes.length ≤ lines.length →
    (pairUp lines k codes).map Roi.line = (lines.drop k).take codes.length
  | [], _, _ => rfl
  | c :: cs, k, h => by
    have hk : k < lines.length := by
      simp only [List.length_cons] at h
      omega
    have ih := map_line_pairUp lines cs (k + 1) (by simp only [List.length_cons] at h; omega)
    rw [List.drop_eq_getElem_cons hk, List.length_cons, List.take_succ_cons, ← ih]
    simp [pairUp, List.getElem?_eq_getElem hk]

theorem validation_of_run (ui : Ui) (replies : List Reply) (c : Call)
    (hc : c ∈ callsOf (handleGenerate ui replies)) (hv : c.isValidation = true) :
    c = Call.validation ui.funcName ui.funcCode (lineStr ui.rois)
      ∧ injectionCall ui ∈ callsOf (handleGenerate ui replies) := by
  constructor
  · have hp := (callsOf_handleGenerate ui replies).subset hc
    unfold plannedCalls at hp
    rcases List.mem_append.1 hp with h | h
    · rw [(isInjection_research _ c h).2] at hv
      cases hv
    · rcases List.mem_cons.1 h with h | h
      · rw [h] at hv
        cases hv
      · unfold validationCalls at h
        split at h
        · cases h
        · exact List.mem_singleton.1 h
  · obtain ⟨P, X, hsplit⟩ := List.append_of_mem hc
    have hpre := callsOf_handleGenerate ui replies
    rw [hsplit] at hpre
    have := calls_before_validation ui P X c hv hpre
    rw [hsplit, this]
    simp

/-- A call that does not settle with a truthy payload is followed by the `catch`
block, with the message of the error it throws. -/
theorem settle_failed (p : Pending) (r : Reply) (rs : List Reply) (hr : r ≠ Reply.data true) :
    settle (some p) (r :: rs) = Event.reply r :: failure (thrown p.call r) := by
  obtain ⟨ctx, aw⟩ := p
  rw [settle_cons]
  cases r with
  | rejected m => simp [resume, settle_none, thrown]
  | data b =>
    cases b with
    | true => exact absurd rfl hr
    | false => cases aw <;> simp [resume, settle_none, thrown, Pending.call, injectionCall]

/-- The five ways in which a suspended execution goes on after a truthy reply:
the next research call, the injection call after step 2, the validation call
after steps 3 and 4, the end of the run after steps 3 and 5 when validation is
skipped, the end of the run after step 5. -/
theorem settle_truthy_cases (p : Pending) (rs : List Reply) :
    (∃ p', p'.ctx = p.ctx ∧ p.call.step = 1 ∧ p'.call.step = 1
        ∧ settle (some p) (Reply.data true :: rs)
            = Event.reply (Reply.data true) :: Event.call p'.call :: settle (some p') rs)
      ∨ (∃ p', p'.ctx = p.ctx ∧ p.call.step = 1 ∧ p'.call = injectionCall p.ctx
        ∧ settle (some p) (Reply.data true :: rs)
            = Event.reply (Reply.data true) :: Event.setGenerationStep 2 :: Event.call p'.call
                :: settle (some p') rs)
      ∨ (∃ p', p'.ctx = p.ctx ∧ p.call = injectionCall p.ctx ∧ p'.call.step = 4
        ∧ settle (some p) (Reply.data true :: rs)
            = Event.reply (Reply.data true) :: Event.setGenerationStep 3
                :: Event.setGenerationStep 4 :: Event.call p'.call :: settle (some p') rs)
      ∨ (p.call = injectionCall p.ctx
        ∧ settle (some p) (Reply.data true :: rs)
            = [Event.reply (Reply.data true), Event.setGenerationStep 3,
               Event.setGenerationStep 5, Event.setShowModal true])
      ∨ (p.call.step = 4
        ∧ settle (some p) (Reply.data true :: rs)
            = [Event.reply (Reply.data true), Event.setGenerationStep 5,
               Event.setShowModal true]) := by
  obtain ⟨ctx, aw⟩ := p
  rw [settle_cons]
  cases aw with
  | research cweId rest =>
    cases rest with
    | nil =>
      right; left
      exact ⟨{ ctx := ctx, awaiting := Await.injection }, rfl, rfl, rfl, rfl⟩
    | cons next rest =>
      left
      exact ⟨{ ctx := ctx, awaiting := Await.research next rest }, rfl, rfl, rfl, rfl⟩
  | injection =>
    cases hs : ctx.skipValidation with
    | false =>
      right; right; left
      refine ⟨{ ctx := ctx, awaiting := Await.validation }, rfl, rfl, rfl, ?_⟩
      simp [resume, validationStep, hs, Pending.call]
    | true =>
      right; right; right; left
      refine ⟨rfl, ?_⟩
      simp [resume, validationStep, hs, finish, settle_none]
  | validation =>
    right; right; right; right
    refine ⟨rfl, ?_⟩
    simp [resume, finish, settle_none]

/-- The three ways in which a run starts: the validator rejects; the first
research call is issued at step 1; there is no identifier and the injection
call is issued at step 2. -/
theorem handleGenerate_cases (ui : Ui) (replies : List Reply) :
    (validateInput ui.funcCode ui.funcName ui.cweIds ui.rois = false
        ∧ handleGenerate ui replies
            = [Event.setErrors (newErrors ui.funcCode ui.funcName ui.cweIds ui.rois)])
      ∨ (validateInput ui.funcCode ui.funcName ui.cweIds ui.rois = true
        ∧ ∃ p, p.ctx = ui ∧ p.call.step = 1
          ∧ handleGenerate ui replies
              = Event.setErrors (newErrors ui.funcCode ui.funcName ui.cweIds ui.rois)
                  :: Event.setGenerationStep 1 :: Event.call p.call :: settle (some p) replies)
      ∨ (validateInput ui.funcCode ui.funcName ui.cweIds ui.rois = true
        ∧ ∃ p, p.ctx = ui ∧ p.call = injectionCall ui
          ∧ handleGenerate ui replies
              = Event.setErrors (newErrors ui.funcCode ui.funcName ui.cweIds ui.rois)
                  :: Event.setGenerationStep 1 :: Event.setGenerationStep 2 :: Event.call p.call
                  :: settle (some p) replies) := by
  cases hv : validateInput ui.funcCode ui.funcName ui.cweIds ui.rois with
  | false => exact Or.inl ⟨rfl, handleGenerate_rejected ui replies hv⟩
  | true =>
    right
    unfold handleGenerate startGenerate
    rw [hv]
    simp only [if_true]
    rcases hl : cweList ui.cweIds with _ | ⟨cweId, rest⟩
    · right
      exact ⟨trivial, { ctx := ui, awaiting := Await.injection }, rfl, rfl, rfl⟩
    · left
      exact ⟨trivial, { ctx := ui, awaiting := Await.research cweId rest }, rfl, rfl, rfl⟩

/-- An event other than `x` at the head of a trace stands before the place of `x`. -/
theorem peel {e x : Event} {l pre post : List Event} (h : e :: l = pre ++ x :: post)
    (hne : e ≠ x) : ∃ pre', pre = e :: pre' ∧ l = pre' ++ x :: post := by
  cases pre with
  | nil =>
    simp only [List.nil_append, List.cons.injEq] at h
    exact absurd h.1 hne
  | cons y pre' =>
    simp only [List.cons_append, List.cons.injEq] at h
    exact ⟨pre', by rw [h.1], h.2⟩

/-- When a call is issued, the stored step is the step of that call. -/
theorem call_step_settle : ∀ (rs : List Reply) (p : Pending) (s : Ui),
    s.generationStep = p.call.step →
    ∀ (pre : List Event) (c : Call) (post : List Event),
      Event.call p.call :: settle (some p) rs = pre ++ Event.call c :: post →
      (s.applyAll pre).generationStep = c.step
  | [], p, s, hs => by
    intro pre c post h
    cases pre with
    | nil =>
      simp only [List.nil_append, List.cons.injEq, Event.call.injEq] at h
      rw [← h.1]
      exact hs
    | cons y pre' =>
      simp only [List.cons_append, List.cons.injEq] at h
      have := congrArg List.length h.2
      simp [settle] at this
      omega
  | r :: rs, p, s, hs => by
    intro pre c post h
    cases pre with
    | nil =>
      simp only [List.nil_append, List.cons.injEq, Event.call.injEq] at h
      rw [← h.1]
      exact hs
    | cons y pre1 =>
      simp only [List.cons_append, List.cons.injEq] at h
      obtain ⟨rfl, h⟩ := h
      by_cases hr : r = Reply.data true
      · subst hr
        rcases settle_truthy_cases p rs with ⟨p', -, h1, h2, he⟩ | ⟨p', -, h1, h2, he⟩
          | ⟨p', -, h1, h2, he⟩ | ⟨-, he⟩ | ⟨-, he⟩
        · rw [he] at h
          obtain ⟨pre2, rfl, ha⟩ := peel h (by simp)
          exact call_step_settle rs p' _ (by rw [h2]; exact hs.trans h1) pre2 c post ha
        · rw [he] at h
          obtain ⟨pre2, rfl, ha⟩ := peel h (by simp)
          obtain ⟨pre3, rfl, hb⟩ := peel ha (by simp)
          exact call_step_settle rs p' _ (by rw [h2]; rfl) pre3 c post hb
        · rw [he] at h
          obtain ⟨pre2, rfl, ha⟩ := peel h (by simp)
          obtain ⟨pre3, rfl, hb⟩ := peel ha (by simp)
          obtain ⟨pre4, rfl, hc⟩ := peel hb (by simp)
          exact call_step_settle rs p' _ (by rw [h2]; rfl) pre4 c post hc
        · exfalso
          rw [he] at h
          have := congrArg callsOf h
          simp [callsOf, callsOf_append] at this
        · exfalso
          rw [he] at h
          have := congrArg callsOf h
          simp [callsOf, callsOf_append] at this
      · exfalso
        rw [settle_failed p r rs hr] at h
        have := congrArg callsOf h
        simp [callsOf, callsOf_append, callsOf_failure] at this

/-- In every run, when a call is issued the stored step is the step of that call,
whatever the state was when the run was started. -/
theorem call_step_handleGenerate (ui s : Ui) (replies : List Reply) (pre : List Event) (c : Call)
    (post : List Event) (h : handleGenerate ui replies = pre ++ Event.call c :: post) :
    (s.applyAll pre).generationStep = c.step := by
  rcases handleGenerate_cases ui replies with ⟨-, he⟩ | ⟨-, p, -, hp, he⟩ | ⟨-, p, -, hp, he⟩
  · exfalso
    rw [he] at h
    have := congrArg callsOf h
    simp [callsOf, callsOf_append] at this
  · rw [he] at h
    obtain ⟨pre2, rfl, ha⟩ := peel h (by simp)
    obtain ⟨pre3, rfl, hb⟩ := peel ha (by simp)
    exact call_step_settle replies p _ (by rw [hp]; rfl) pre3 c post hb
  · rw [he] at h
    obtain ⟨pre2, rfl, ha⟩ := peel h (by simp)
    obtain ⟨pre3, rfl, hb⟩ := peel ha (by simp)
    obtain ⟨pre4, rfl, hc⟩ := peel hb (by simp)
    exact call_step_settle replies p _ (by rw [hp]; rfl) pre4 c post hc

theorem not_mem_failure_step (message : Option Str) (n : Nat) (hn : n ≠ 0) :
    Event.setGenerationStep n ∉ failure message := by
  simp [failure, hn]

/-- Step 3 is set right after the truthy reply to the injection call, and is
followed at once by step 4 or step 5. -/
theorem step3_settle : ∀ (rs : List Reply) (p : Pending) (pre post : List Event),
    Event.call p.call :: settle (some p) rs = pre ++ Event.setGenerationStep 3 :: post →
    (∃ pre', pre = pre' ++ [Event.call (injectionCall p.ctx), Event.reply (Reply.data true)])
      ∧ ∃ n post', (n = 4 ∨ n = 5) ∧ post = Event.setGenerationStep n :: post'
  | [], p, pre, post => by
    intro h
    exfalso
    obtain ⟨pre2, rfl, ha⟩ := peel h (by simp)
    have := congrArg List.length ha
    simp [settle] at this
    omega
  | r :: rs, p, pre, post => by
    intro h
    obtain ⟨pre1, rfl, ha⟩ := peel h (by simp)
    by_cases hr : r = Reply.data true
    · subst hr
      rcases settle_truthy_cases p rs with ⟨p', hc, -, -, he⟩ | ⟨p', hc, -, -, he⟩
        | ⟨p', hc, h1, -, he⟩ | ⟨h1, he⟩ | ⟨-, he⟩
      · rw [he] at ha
        obtain ⟨pre2, rfl, hb⟩ := peel ha (by simp)
        obtain ⟨⟨pre', hp⟩, hq⟩ := step3_settle rs p' pre2 post hb
        rw [hc] at hp
        exact ⟨⟨Event.call p.call :: Event.reply (Reply.data true) :: pre', by rw [hp]; rfl⟩, hq⟩
      · rw [he] at ha
        obtain ⟨pre2, rfl, hb⟩ := peel ha (by simp)
        obtain ⟨pre3, rfl, hd⟩ := peel hb (by simp)
        obtain ⟨⟨pre', hp⟩, hq⟩ := step3_settle rs p' pre3 post hd
        rw [hc] at hp
        exact ⟨⟨Event.call p.call :: Event.reply (Reply.data true) :: Event.setGenerationStep 2
          :: pre', by rw [hp]; rfl⟩, hq⟩
      · rw [he] at ha
        obtain ⟨pre2, rfl, hb⟩ := peel ha (by simp)
        cases pre2 with
        | nil =>
          simp only [List.nil_append, List.cons.injEq, true_and] at hb
          exact ⟨⟨[], by rw [h1]; rfl⟩, 4, _, Or.inl rfl, hb.symm⟩
        | cons y pre3 =>
          simp only [List.cons_append, List.cons.injEq] at hb
          obtain ⟨rfl, hb⟩ := hb
          obtain ⟨pre4, rfl, hd⟩ := peel hb (by simp)
          obtain ⟨⟨pre', hp⟩, hq⟩ := step3_settle rs p' pre4 post hd
          rw [hc] at hp
          exact ⟨⟨Event.call p.call :: Event.reply (Reply.data true)
            :: Event.setGenerationStep 3 :: Event.setGenerationStep 4 :: pre', by rw [hp]; rfl⟩, hq⟩
      · rw [he] at ha
        obtain ⟨pre2, rfl, hb⟩ := peel ha (by simp)
        cases pre2 with
        | nil =>
          simp only [List.nil_append, List.cons.injEq, true_and] at hb
          exact ⟨⟨[], by rw [h1]; rfl⟩, 5, _, Or.inr rfl, hb.symm⟩
        | cons y pre3 =>
          exfalso
          simp only [List.cons_append, List.cons.injEq] at hb
          have hm : Event.setGenerationStep 3 ∈ pre3 ++ Event.setGenerationStep 3 :: post := by simp
          rw [← hb.2] at hm
          simp at hm
      · exfalso
        rw [he] at ha
        have hm : Event.setGenerationStep 3 ∈ pre1 ++ Event.setGenerationStep 3 :: post := by simp
        rw [← ha] at hm
        simp at hm
    · exfalso
      rw [settle_failed p r rs hr] at ha
      obtain ⟨pre2, rfl, hb⟩ := peel ha (by simp)
      have hm : Event.setGenerationStep 3 ∈ pre2 ++ Event.setGenerationStep 3 :: post := by simp
      rw [← hb] at hm
      exact not_mem_failure_step _ 3 (by decide) hm

/-- In every run, step 3 is set right after the truthy reply to the injection
call and is followed at once by step 4 or step 5. -/
theorem step3_handleGenerate (ui : Ui) (replies : List Reply) (pre post : List Event)
    (h : handleGenerate ui replies = pre ++ Event.setGenerationStep 3 :: post) :
    (∃ pre', pre = pre' ++ [Event.call (injectionCall ui), Event.reply (Reply.data true)])
      ∧ ∃ n post', (n = 4 ∨ n = 5) ∧ post = Event.setGenerationStep n :: post' := by
  rcases handleGenerate_cases ui replies with ⟨-, he⟩ | ⟨-, p, hc, -, he⟩ | ⟨-, p, hc, -, he⟩
  · exfalso
    rw [he] at h
    obtain ⟨pre2, rfl, ha⟩ := peel h (by simp)
    have := congrArg List.length ha
    simp at this
    omega
  · rw [he] at h
    obtain ⟨pre2, rfl, ha⟩ := peel h (by simp)
    obtain ⟨pre3, rfl, hb⟩ := peel ha (by simp)
    obtain ⟨⟨pre', hp⟩, hq⟩ := step3_settle replies p pre3 post hb
    rw [hc] at hp
    exact ⟨⟨_ :: _ :: pre', by rw [hp]; rfl⟩, hq⟩
  · rw [he] at h
    obtain ⟨pre2, rfl, ha⟩ := peel h (by simp)
    obtain ⟨pre3, rfl, hb⟩ := peel ha (by simp)
    obtain ⟨pre4, rfl, hd⟩ := peel hb (by simp)
    obtain ⟨⟨pre', hp⟩, hq⟩ := step3_settle replies p pre4 post hd
    rw [hc] at hp
    exact ⟨⟨_ :: _ :: _ :: pre', by rw [hp]; rfl⟩, hq⟩

/-- A call that does not settle with a truthy payload is followed by the `catch`
block with the message of the error thrown for that call, and by nothing else. -/
theorem failure_settle : ∀ (rs : List Reply) (p : Pending) (pre : List Event) (c : Call)
    (r : Reply) (post : List Event),
    Event.call p.call :: settle (some p) rs = pre ++ Event.call c :: Event.reply r :: post →
    r ≠ Reply.data true → post = failure (thrown c r)
  | [], p, pre, c, r, post => by
    intro h _
    exfalso
    have := congrArg List.length h
    simp [settle] at this
    omega
  | r0 :: rs, p, pre, c, r, post => by
    intro h hr
    cases pre with
    | nil =>
      simp only [List.nil_append, List.cons.injEq, Event.call.injEq] at h
      obtain ⟨hc, h⟩ := h
      by_cases hr0 : r0 = Reply.data true
      · exfalso
        subst hr0
        rw [settle_cons] at h
        simp only [List.cons.injEq, Event.reply.injEq] at h
        exact hr h.1.symm
      · rw [settle_failed p r0 rs hr0] at h
        simp only [List.cons.injEq, Event.reply.injEq] at h
        rw [← h.2, ← h.1, hc]
    | cons y pre1 =>
      simp only [List.cons_append, List.cons.injEq] at h
      obtain ⟨-, h⟩ := h
      by_cases hr0 : r0 = Reply.data true
      · subst hr0
        rcases settle_truthy_cases p rs with ⟨p', -, -, -, he⟩ | ⟨p', -, -, -, he⟩
          | ⟨p', -, -, -, he⟩ | ⟨-, he⟩ | ⟨-, he⟩
        · rw [he] at h
          obtain ⟨pre2, rfl, ha⟩ := peel h (by simp)
          exact failure_settle rs p' pre2 c r post ha hr
        · rw [he] at h
          obtain ⟨pre2, rfl, ha⟩ := peel h (by simp)
          obtain ⟨pre3, rfl, hb⟩ := peel ha (by simp)
          exact failure_settle rs p' pre3 c r post hb hr
        · rw [he] at h
          obtain ⟨pre2, rfl, ha⟩ := peel h (by simp)
          obtain ⟨pre3, rfl, hb⟩ := peel ha (by simp)
          obtain ⟨pre4, rfl, hd⟩ := peel hb (by simp)
          exact failure_settle rs p' pre4 c r post hd hr
        · exfalso
          rw [he] at h
          have := congrArg callsOf h
          simp [callsOf, callsOf_append] at this
        · exfalso
          rw [he] at h
          have := congrArg callsOf h
          simp [callsOf, callsOf_append] at this
      · exfalso
        rw [settle_failed p r0 rs hr0] at h
        have := congrArg callsOf h
        simp [callsOf, callsOf_append, callsOf_failure] at this

/-- In every run, a call that does not settle with a truthy payload is followed by
the `catch` block with the message of the error thrown for that call. -/
theorem failure_handleGenerate (ui : Ui) (replies : List Reply) (pre : List Event) (c : Call)
    (r : Reply) (post : List Event)
    (h : handleGenerate ui replies = pre ++ Event.call c :: Event.reply r :: post)
    (hr : r ≠ Reply.data true) : post = failure (thrown c r) := by
  rcases handleGenerate_cases ui replies with ⟨-, he⟩ | ⟨-, p, -, -, he⟩ | ⟨-, p, -, -, he⟩
  · exfalso
    rw [he] at h
    have := congrArg callsOf h
    simp [callsOf, callsOf_append] at this
  · rw [he] at h
    obtain ⟨pre2, rfl, ha⟩ := peel h (by simp)
    obtain ⟨pre3, rfl, hb⟩ := peel ha (by simp)
    exact failure_settle replies p pre3 c r post hb hr
  · rw [he] at h
    obtain ⟨pre2, rfl, ha⟩ := peel h (by simp)
    obtain ⟨pre3, rfl, hb⟩ := peel ha (by simp)
    obtain ⟨pre4, rfl, hd⟩ := peel hb (by simp)
    exact failure_settle replies p pre4 c r post hd hr

theorem callsOf_cons_quiet {e : Event} (l : List Event) (h : e.quiet = true) :
    callsOf (e :: l) = callsOf l ∧ repliesOf (e :: l) = repliesOf l := by
  cases e <;> first | exact ⟨rfl, rfl⟩ | cases h

/-- At every moment of a well-ordered trace, either every call issued so far has
settled or the last event was a call. -/
theorem orderly_outstanding {evs : List Event} (h : Orderly evs) :
    ∀ (pre post : List Event), evs = pre ++ post →
      (callsOf pre).length = (repliesOf pre).length ∨ ∃ pre' c, pre = pre' ++ [Event.call c] := by
  induction h with
  | done =>
    intro pre post he
    have : pre = [] := (List.append_eq_nil.1 he.symm).1
    rw [this]
    exact Or.inl rfl
  | quiet e evs hq _ ih =>
    intro pre post he
    cases pre with
    | nil => exact Or.inl rfl
    | cons x pre =>
      simp only [List.cons_append, List.cons.injEq] at he
      obtain ⟨rfl, he⟩ := he
      rcases ih pre post he with h1 | ⟨pre', c, h1⟩
      · left
        rw [(callsOf_cons_quiet pre hq).1, (callsOf_cons_quiet pre hq).2]
        exact h1
      · right
        exact ⟨e :: pre', c, by rw [h1]; rfl⟩
  | inflight c0 =>
    intro pre post he
    cases pre with
    | nil => exact Or.inl rfl
    | cons x pre =>
      simp only [List.cons_append, List.cons.injEq] at he
      obtain ⟨rfl, he⟩ := he
      have : pre = [] := (List.append_eq_nil.1 he.symm).1
      rw [this]
      exact Or.inr ⟨[], c0, rfl⟩
  | ok c0 evs _ ih =>
    intro pre post he
    cases pre with
    | nil => exact Or.inl rfl
    | cons x pre =>
      simp only [List.cons_append, List.cons.injEq] at he
      obtain ⟨rfl, he⟩ := he
      cases pre with
      | nil => exact Or.inr ⟨[], c0, rfl⟩
      | cons y pre =>
        simp only [List.cons_append, List.cons.injEq] at he
        obtain ⟨rfl, he⟩ := he
        rcases ih pre post he with h1 | ⟨pre', c, h1⟩
        · left
          rw [callsOf_call, callsOf_reply, repliesOf_call, repliesOf_reply, List.length_cons,
            List.length_cons, h1]
        · right
          exact ⟨Event.call c0 :: Event.reply (Reply.data true) :: pre', c, by rw [h1]; rfl⟩
  | failed c0 r m _ =>
    intro pre post he
    cases pre with
    | nil => exact Or.inl rfl
    | cons x pre =>
      simp only [List.cons_append, List.cons.injEq] at he
      obtain ⟨rfl, he⟩ := he
      cases pre with
      | nil => exact Or.inr ⟨[], c0, rfl⟩
      | cons y pre =>
        simp only [List.cons_append, List.cons.injEq] at he
        obtain ⟨rfl, he⟩ := he
        left
        have h1 := congrArg callsOf he
        have h2 := congrArg repliesOf he
        rw [callsOf_failure, callsOf_append] at h1
        rw [repliesOf_failure, repliesOf_append] at h2
        rw [callsOf_call, callsOf_reply, repliesOf_call, repliesOf_reply,
          (List.append_eq_nil.1 h1.symm).1, (List.append_eq_nil.1 h2.symm).1]
        rfl

/-- In a well-ordered trace a call is followed by its reply, or by nothing yet. -/
theorem orderly_call_next {evs : List Event} (h : Orderly evs) :
    ∀ (pre : List Event) (c : Call) (post : List Event), evs = pre ++ Event.call c :: post →
      post = [] ∨ ∃ r post', post = Event.reply r :: post' := by
  induction h with
  | done => intro pre c post he; simp at he
  | quiet e evs hq _ ih =>
    intro pre c post he
    cases pre with
    | nil =>
      simp only [List.nil_append, List.cons.injEq] at he
      rw [he.1] at hq
      cases hq
    | cons x pre =>
      simp only [List.cons_append, List.cons.injEq] at he
      exact ih pre c post he.2
  | inflight c0 =>
    intro pre c post he
    cases pre with
    | nil =>
      simp only [List.nil_append, List.cons.injEq] at he
      exact Or.inl he.2.symm
    | cons x pre =>
      simp only [List.cons_append, List.cons.injEq] at he
      have := he.2
      simp at this
  | ok c0 evs _ ih =>
    intro pre c post he
    cases pre with
    | nil =>
      simp only [List.nil_append, List.cons.injEq] at he
      exact Or.inr ⟨_, _, he.2.symm⟩
    | cons x pre =>
      simp only [List.cons_append, List.cons.injEq] at he
      obtain ⟨-, he⟩ := he
      cases pre with
      | nil => simp at he
      | cons y pre =>
        simp only [List.cons_append, List.cons.injEq] at he
        exact ih pre c post he.2
  | failed c0 r m _ =>
    intro pre c post he
    cases pre with
    | nil =>
      simp only [List.nil_append, List.cons.injEq] at he
      exact Or.inr ⟨_, _, he.2.symm⟩
    | cons x pre =>
      exfalso
      simp only [List.cons_append, List.cons.injEq] at he
      have h1 := congrArg callsOf he.2
      simp [callsOf_reply, callsOf_call, callsOf_append, callsOf_failure] at h1

theorem newErrors_cweIds_nil {fc fn cw : Str} {rois : List Roi} (h : newErrors fc fn cw rois = []) :
    cweIdsErrors cw = [] := by
  unfold newErrors at h
  exact (List.append_eq_nil.1 (List.append_eq_nil.1 h).1).2

/-- The identifier of a research call of a run is one of the identifiers of the
request, a token without white space around it. -/
theorem research_of_run (ui : Ui) (replies : List Reply) (cweId : Str)
    (hc : Call.research cweId ∈ callsOf (handleGenerate ui replies)) :
    cweId ∈ cweList ui.cweIds ∧ trim cweId = cweId := by
  have hmem : cweId ∈ cweList ui.cweIds := by
    have hp := (callsOf_handleGenerate ui replies).subset hc
    have := List.mem_filterMap.2 ⟨_, hp, (rfl : Call.researchId (Call.research cweId) = some cweId)⟩
    rwa [filterMap_researchId_planned] at this
  refine ⟨hmem, ?_⟩
  cases hv : validateInput ui.funcCode ui.funcName ui.cweIds ui.rois with
  | false =>
    rw [handleGenerate_rejected ui replies hv] at hc
    simp [callsOf] at hc
  | true =>
    have hacc := newErrors_cweIds_nil ((validateInput_iff _ _ _ _).1 hv)
    obtain ⟨h1, -⟩ := cweList_accepted ui.cweIds hacc
    exact trim_of_no_space (token_no_space ((map_trim_padded h1).2 cweId hmem))

/-- What the split expression `/(\d+)\.\s/` of the importer does: it matches at a
position exactly when one or more digits, a `.` and one white-space character
of any kind start there; digits and a dot followed by a character that is not
white space, or by nothing, are not matched; a block is left in one piece
exactly when it holds no such occurrence, and is then returned through the
single-region fallback. -/
theorem matchMarker_grammar (roiBlock lineBlock : Str) :
    (∀ r, matchMarker roiBlock = some r ↔
        ∃ ds w rest, roiBlock = ds ++ '.' :: w :: rest ∧ Digits ds ∧ isSpace w = true
          ∧ r = ([ds], ds.length + 2))
      ∧ (∀ (ds : Str) (w : Char) (rest : Str), Digits ds → isSpace w = false →
          matchMarker (ds ++ '.' :: w :: rest) = none ∧ matchMarker (ds ++ ['.']) = none)
      ∧ (jsSplit matchMarker roiBlock = [roiBlock] ↔ ¬ MarkerOccurs roiBlock)
      ∧ (¬ MarkerOccurs roiBlock →
          importSample roiBlock lineBlock = [{ roi := roiBlock, line := lineBlock }])
      ∧ importSample "1.\tfoo".toList lineBlock
          = [{ roi := "foo".toList, line := ((sampleLines lineBlock)[0]?).getD [] }]
      ∧ importSample "1.\nfoo".toList lineBlock
          = [{ roi := "foo".toList, line := ((sampleLines lineBlock)[0]?).getD [] }]
      ∧ importSample "1.xfoo".toList lineBlock = [{ roi := "1.xfoo".toList, line := lineBlock }] := by
  have hfree : ¬ MarkerOccurs roiBlock → hasMarker roiBlock = false := by
    intro h
    cases hm : hasMarker roiBlock with
    | false => rfl
    | true => exact absurd ((hasMarker_iff roiBlock).1 hm) h
  have himp : ∀ s : Str, hasMarker s = false →
      importSample s lineBlock = [{ roi := s, line := lineBlock }] := by
    intro s hs
    have h2 : jsSplit matchMarker s = [s] := by
      unfold jsSplit
      rw [splitGo_no_marker s [] hs]
      rfl
    rw [importSample_eq, h2]
    rfl
  have hone : ∀ s : Str, jsSplit matchMarker s = [[], ['1'], "foo".toList] →
      importSample s lineBlock
        = [{ roi := "foo".toList, line := ((sampleLines lineBlock)[0]?).getD [] }] := by
    intro s hs
    rw [importSample_eq, hs]
    rfl
  refine ⟨?_, ?_, ?_, ?_, hone _ (by decide), hone _ (by decide), himp _ (by decide)⟩
  · intro r
    constructor
    · intro h
      obtain ⟨ds, w, rest, hs, hne, hds, hw, hr⟩ := matchMarker_some h
      exact ⟨ds, w, rest, hs, ⟨hne, hds⟩, hw, hr⟩
    · rintro ⟨ds, w, rest, hs, ⟨hne, hds⟩, hw, hr⟩
      rw [hs, hr]
      exact matchMarker_marker w rest hne hds hw
  · intro ds w rest hd hw
    exact ⟨matchMarker_not_space w rest hd.2 hw, matchMarker_at_end hd.2⟩
  · constructor
    · intro h hocc
      have h3 := splitGo_marker_length roiBlock [] ((hasMarker_iff roiBlock).2 hocc)
      unfold jsSplit at h
      rw [h] at h3
      simp at h3
    · intro h
      unfold jsSplit
      rw [splitGo_no_marker roiBlock [] (hfree h)]
      rfl
  · intro h
    exact himp roiBlock (hfree h)

/-- A positive safe integer is coerced to its decimal numeral, which is not empty
and is one line: the first region of the importer, emitted or fallback, takes
it as its lineSpec. -/
theorem rawLinesOf_positive (n : Nat) (hn : 0 < n) (hsafe : n < 2 ^ 53) :
    rawLinesOf (LinesField.num n hsafe) = decimal n
      ∧ rawLinesOf (LinesField.num n hsafe) ≠ []
      ∧ sampleLines (rawLinesOf (LinesField.num n hsafe)) = [decimal n]
      ∧ (∀ roiBlock : Str, ∃ r rest,
          importSample roiBlock (rawLinesOf (LinesField.num n hsafe)) = r :: rest
            ∧ r.line = decimal n)
      ∧ (∀ (ui : Ui) (d : SampleData), d.merged_roi_lines = LinesField.num n hsafe →
          ∃ r rest, (sampleSettled ui (SampleReply.data (some d))).rois = r :: rest
            ∧ r.line = decimal n) := by
  have h0 : rawLinesOf (LinesField.num n hsafe) = decimal n := by
    show (if n = 0 then [] else decimal n) = decimal n
    rw [if_neg (by omega)]
  have h1 : ∀ roiBlock : Str, ∃ r rest,
      importSample roiBlock (rawLinesOf (LinesField.num n hsafe)) = r :: rest
        ∧ r.line = decimal n := by
    intro roiBlock
    rw [h0]
    exact importSample_head_line roiBlock (decimal n) (decimal n) (sampleLines_decimal n) rfl
  refine ⟨h0, ?_, ?_, h1, ?_⟩
  · rw [h0]
    exact decimal_ne_nil n
  · rw [h0]
    exact sampleLines_decimal n
  · intro ui d hd
    show ∃ r rest, importSample (d.roi.getD []) (rawLinesOf d.merged_roi_lines) = r :: rest ∧ _
    rw [hd]
    exact h1 _

/-- The validator gates the start of a run: when it reports an error for the state
`ui` in which the run is started, the run issues no remote call and changes
nothing but the stored errors, so the step and the stage stay what they were;
hence a run that issues a remote call was started with regions that each have a
code that is non-empty after trimming and a lineSpec that is in the line
grammar after trimming. -/
theorem validation_gates_start (ui : Ui) (replies : List Reply) :
    (newErrors ui.funcCode ui.funcName ui.cweIds ui.rois ≠ [] →
        callsOf (handleGenerate ui replies) = []
          ∧ ui.applyAll (handleGenerate ui replies)
              = { ui with errors := newErrors ui.funcCode ui.funcName ui.cweIds ui.rois }
          ∧ (ui.applyAll (handleGenerate ui replies)).generationStep = ui.generationStep
          ∧ (ui.applyAll (handleGenerate ui replies)).stage = ui.stage)
      ∧ (callsOf (handleGenerate ui replies) ≠ [] →
          ∀ r ∈ ui.rois, trim r.roi ≠ [] ∧ LineGrammar (trim r.line)) := by
  constructor
  · intro h
    have hv : validateInput ui.funcCode ui.funcName ui.cweIds ui.rois = false := by
      rw [← Bool.not_eq_true, validateInput_iff]
      exact h
    rw [handleGenerate_rejected ui replies hv]
    exact ⟨rfl, rfl, rfl, rfl⟩
  · intro h r hr
    have hv : validateInput ui.funcCode ui.funcName ui.cweIds ui.rois = true := by
      cases hv : validateInput ui.funcCode ui.funcName ui.cweIds ui.rois with
      | true => rfl
      | false =>
        rw [handleGenerate_rejected ui replies hv] at h
        exact absurd rfl h
    have h1 := newErrors_eq_nil ((validateInput_iff _ _ _ _).1 hv)
    obtain ⟨hb, hl⟩ := ((roisErrors_eq_nil ui.rois).1 h1).2 r hr
    exact ⟨(isBlank_false_iff _).1 hb, (lineRejected_false_iff _).1 hl⟩

/-- The page with its region objects changes the React state as the page does,
and the suspended runs too, except for what the assignment of `handleRoiChange`
does to the regions of the runs that hold the object. -/
theorem live_perform_page (l : Live) (a : Action) :
    (l.perform a).page.ui = (l.page.perform a).ui
      ∧ (l.perform a).page.samples = (l.page.perform a).samples
      ∧ ((∀ index field value, a ≠ Action.roiChange index field value) →
          (l.perform a).page = l.page.perform a) := by
  cases a with
  | roiChange index field value =>
    refine ⟨?_, ?_, fun h => absurd rfl (h index field value)⟩
    · simp only [Live.perform]
      split <;> rfl
    · simp only [Live.perform]
      split <;> rfl
  | runSettles i r =>
    simp only [Live.perform]
    split <;> exact ⟨rfl, rfl, fun _ => rfl⟩
  | sampleSettles r =>
    rcases r with (_ | d) | _ <;> exact ⟨rfl, rfl, fun _ => rfl⟩
  | _ => exact ⟨rfl, rfl, fun _ => rfl⟩

/-! ## The claims -/

/-- Claim C1, amended: for every region list that passes the validator and in which,
in addition, every code and every lineSpec is free of leading and trailing white
space and no code, followed by a line break, contains a marker (digits, a dot, a
white-space character), importing the encoder's `(rois, lines)` output returns
exactly the original regions in the original order. -/
theorem C1_round_trip_of_validated (rois : List Roi) (hvalid : roisErrors rois = [])
    (htrim : ∀ r ∈ rois, trim r.roi = r.roi ∧ trim r.line = r.line)
    (hmarker : ∀ r ∈ rois, hasMarker (r.roi ++ ['\n']) = false) :
    importSample (roiStr rois) (lineStr rois) = rois := by
  obtain ⟨hne, hv⟩ := (roisErrors_eq_nil rois).1 hvalid
  apply importSample_encoded rois hne
  intro r hr
  obtain ⟨hb, hl⟩ := hv r hr
  obtain ⟨ht1, ht2⟩ := htrim r hr
  have hg : LineGrammar r.line := by
    have := (lineRejected_false_iff r.line).1 hl
    rwa [ht2] at this
  have hcode : r.roi ≠ [] := by
    have := (isBlank_false_iff r.roi).1 hb
    rwa [ht1] at this
  exact ⟨hcode, ht1, hmarker r hr, lineGrammar_ne_nil hg, ht2, lineGrammar_no_newline hg⟩

/-- Witness for C1: the regions `[{a, 1}, {b, 6-8}]`. -/
theorem C1_round_trip_of_validated_witness :
    roisErrors [⟨['a'], ['1']⟩, ⟨['b'], ['6', '-', '8']⟩] = []
      ∧ (∀ r ∈ [(⟨['a'], ['1']⟩ : Roi), ⟨['b'], ['6', '-', '8']⟩],
          trim r.roi = r.roi ∧ trim r.line = r.line)
      ∧ (∀ r ∈ [(⟨['a'], ['1']⟩ : Roi), ⟨['b'], ['6', '-', '8']⟩],
          hasMarker (r.roi ++ ['\n']) = false)
      ∧ importSample (roiStr [⟨['a'], ['1']⟩, ⟨['b'], ['6', '-', '8']⟩])
            (lineStr [⟨['a'], ['1']⟩, ⟨['b'], ['6', '-', '8']⟩])
          = [⟨['a'], ['1']⟩, ⟨['b'], ['6', '-', '8']⟩] :=
  ⟨by decide, by decide, by decide,
    C1_round_trip_of_validated [⟨['a'], ['1']⟩, ⟨['b'], ['6', '-', '8']⟩] (by decide) (by decide)
      (by decide)⟩

/-- Counterexample to C1 as stated: three region lists that pass the validator and
do not come back.  The code `" a"` (leading space) is encoded as `"1.  a"` and
imported as `"a"`; the code `"x 2. y"` holds a marker and is imported as the two
regions `x` and `y`; the lineSpec `" 1"` (leading space) is imported as `"1"`. -/
theorem C1_counterexample :
    (roisErrors [⟨[' ', 'a'], ['1']⟩] = []
        ∧ roiStr [⟨[' ', 'a'], ['1']⟩] = ['1', '.', ' ', ' ', 'a']
        ∧ lineStr [⟨[' ', 'a'], ['1']⟩] = ['1']
        ∧ importSample (roiStr [⟨[' ', 'a'], ['1']⟩]) (lineStr [⟨[' ', 'a'], ['1']⟩])
            = [⟨['a'], ['1']⟩]
        ∧ importSample (roiStr [⟨[' ', 'a'], ['1']⟩]) (lineStr [⟨[' ', 'a'], ['1']⟩])
            ≠ [⟨[' ', 'a'], ['1']⟩])
      ∧ (roisErrors [⟨"x 2. y".toList, ['1']⟩] = []
        ∧ importSample (roiStr [⟨"x 2. y".toList, ['1']⟩]) (lineStr [⟨"x 2. y".toList, ['1']⟩])
            = [⟨['x'], ['1']⟩, ⟨['y'], []⟩])
      ∧ (roisErrors [⟨['a'], [' ', '1']⟩] = []
        ∧ importSample (roiStr [⟨['a'], [' ', '1']⟩]) (lineStr [⟨['a'], [' ', '1']⟩])
            = [⟨['a'], ['1']⟩]) := by
  decide

/-- Claim C2, the code at the failing input `editedPath`, all of whose actions are
available in their turn: the second run was started with the valid region
`{a, 1}` and is suspended on its research call while the page shows step 0;
the region is then edited to `{"", x}`, and the assignment of
`handleRoiChange` goes into the object that the array of the suspended run
holds.  When the research call resolves with a truthy payload, the run issues
the injection call with `rois` `"1. "` and `lines` `"x"`: a region with an
empty code and a lineSpec outside the grammar, for which the validator reports
`roi_0` and `line_0`, is sent. -/
theorem C2_unvalidated_region_is_sent :
    Live.initial.performAll editedPath = some editedLive
      ∧ editedLive.page.ui.generationStep = 0
      ∧ editedLive.page.ui.rois = [{ roi := [], line := ['x'] }]
      ∧ editedLive.page.runs.map (fun run => (run.awaiting, run.ctx.rois))
          = [(Await.research "CWE-1".toList [], [{ roi := [], line := ['x'] }])]
      ∧ editedLive.page.enabled (Action.runSettles 0 (Reply.data true)) = true
      ∧ editedLive.page.runs.map (fun run => (resume run (Reply.data true)).1)
          = [[Event.setGenerationStep 2,
              Event.call (Call.injection ['f'] ['f'] ['x'] "1. ".toList "CWE-1".toList)]]
      ∧ roisErrors [{ roi := [], line := ['x'] }]
          = [(ErrKey.roi 0, "ROI code is required."),
             (ErrKey.line 0, "Invalid line format (e.g., 1 or 6-8).")]
      ∧ validateInput ['f'] ['f'] "CWE-1".toList [{ roi := [], line := ['x'] }] = false
      ∧ validateInput ['f'] ['f'] "CWE-1".toList [{ roi := ['a'], line := ['1'] }] = true := by
  decide

/-- Claim C3: for every region (at any index) the line check accepts the region's
line string, that is `validateInput` records no `line_<index>` error for it, if
and only if the string, after trimming, is one or more decimal digits, or one or
more digits, a single `-` and one or more digits; the empty string, signed
numbers, inner spaces, two dashes and letters are all rejected. -/
theorem C3_line_check_iff_grammar (index : Nat) (item : Roi) :
    (hasKey (roiChecks index item) (ErrKey.line index) = false ↔ LineGrammar (trim item.line))
      ∧ lineRejected [] = true
      ∧ lineRejected ['-', '1'] = true
      ∧ lineRejected ['+', '1'] = true
      ∧ lineRejected ['1', ' ', '2'] = true
      ∧ lineRejected ['1', '-', '2', '-', '3'] = true
      ∧ lineRejected ['1', 'a'] = true
      ∧ lineRejected ['1', '-'] = true := by
  refine ⟨?_, by decide, by decide, by decide, by decide, by decide, by decide, by decide⟩
  rw [hasKey_roiChecks, ← lineRejected_false_iff]
  cases isBlank item.roi <;> cases lineRejected item.line <;> simp

/-- Claim C4, amended: for every raw `cweIds` string that is not empty or
white-space-only, the validator accepts it (no `cweIds` error) if and only if the
string, after trimming, is a comma-separated list of one or more tokens, each
token matching `[A-Za-z0-9_-]+`, with optional white space allowed after each
comma only; any other such string yields exactly one error on the `cweIds`
field. -/
theorem C4_cweIds_grammar (funcCode funcName cweIds : Str) (rois : List Roi)
    (hraw : isBlank cweIds = false) :
    (hasKey (newErrors funcCode funcName cweIds rois) ErrKey.cweIds = false
        ↔ CommaList false (trim cweIds))
      ∧ (¬ CommaList false (trim cweIds) →
          countKey (newErrors funcCode funcName cweIds rois) ErrKey.cweIds = 1) := by
  rw [hasKey_newErrors, countKey_newErrors_cweIds, hraw, ← cweRe_iff]
  have hr : (if rois = [] then decide (ErrKey.rois = ErrKey.cweIds)
      else hasKey (forEachRoi 0 rois) ErrKey.cweIds) = false := by
    split
    · rfl
    · exact hasKey_forEachRoi_other _ _ _ (fun _ => by simp) (fun _ => by simp)
  rw [hr]
  cases cweRe.test (trim cweIds) <;> simp

/-- Witness for C4: the raw string `" CWE-78, CWE-89"` (leading space) is accepted. -/
theorem C4_cweIds_grammar_witness :
    isBlank " CWE-78, CWE-89".toList = false
      ∧ hasKey (newErrors [] [] " CWE-78, CWE-89".toList []) ErrKey.cweIds = false
      ∧ CommaList false (trim " CWE-78, CWE-89".toList) :=
  ⟨by decide, by decide,
    (C4_cweIds_grammar [] [] " CWE-78, CWE-89".toList [] (by decide)).1.1 (by decide)⟩

/-- Counterexample to C4 as stated: `"CWE-78 ,CWE-89"` is a comma-separated list of
two tokens with white space before the comma, it is not blank, and the validator
puts an error on the `cweIds` field. -/
theorem C4_counterexample :
    CommaList true "CWE-78 ,CWE-89".toList
      ∧ isBlank "CWE-78 ,CWE-89".toList = false
      ∧ hasKey (newErrors "f".toList "f".toList "CWE-78 ,CWE-89".toList [⟨['a'], ['1']⟩])
          ErrKey.cweIds = true := by
  refine ⟨?_, by decide, by decide⟩
  exact CommaList.more "CWE-78".toList [' '] [] "CWE-89".toList
    ⟨by decide, by decide⟩ (by unfold Spaces; decide) (by decide) (by unfold Spaces; decide)
    (CommaList.one _ ⟨by decide, by decide⟩)

/-- Claim C5: all violations are collected.  The error object has the key `funcCode`
iff the function code is empty or white space only, the key `funcName` iff the
function name is, the key `cweIds` iff the CWE field is empty or white space only
or, trimmed, is not a comma-separated token list, and the key `rois` iff the region
list is empty; each of the four depends on its own field only, whatever the other
three hold; and the validator returns true iff the object has no entry. -/
theorem C5_violations_collected (funcCode funcName cweIds : Str) (rois : List Roi) :
    (hasKey (newErrors funcCode funcName cweIds rois) ErrKey.funcCode = true
        ↔ ∀ c ∈ funcCode, isSpace c = true)
      ∧ (hasKey (newErrors funcCode funcName cweIds rois) ErrKey.funcName = true
        ↔ ∀ c ∈ funcName, isSpace c = true)
      ∧ (hasKey (newErrors funcCode funcName cweIds rois) ErrKey.cweIds = true
        ↔ (∀ c ∈ cweIds, isSpace c = true) ∨ ¬ CommaList false (trim cweIds))
      ∧ (hasKey (newErrors funcCode funcName cweIds rois) ErrKey.rois = true ↔ rois = [])
      ∧ (∀ (code' name' cwe' : Str) (rois' : List Roi),
          hasKey (newErrors funcCode name' cwe' rois') ErrKey.funcCode
              = hasKey (newErrors funcCode funcName cweIds rois) ErrKey.funcCode
            ∧ hasKey (newErrors code' funcName cwe' rois') ErrKey.funcName
              = hasKey (newErrors funcCode funcName cweIds rois) ErrKey.funcName
            ∧ hasKey (newErrors code' name' cweIds rois') ErrKey.cweIds
              = hasKey (newErrors funcCode funcName cweIds rois) ErrKey.cweIds
            ∧ hasKey (newErrors code' name' cwe' rois) ErrKey.rois
              = hasKey (newErrors funcCode funcName cweIds rois) ErrKey.rois)
      ∧ (validateInput funcCode funcName cweIds rois = true
        ↔ newErrors funcCode funcName cweIds rois = []) := by
  have hother : ∀ (rs : List Roi) (k : ErrKey), (∀ j, k ≠ ErrKey.roi j) →
      (∀ j, k ≠ ErrKey.line j) → k ≠ ErrKey.rois →
      (if rs = [] then decide (ErrKey.rois = k) else hasKey (forEachRoi 0 rs) k) = false := by
    intro rs k h1 h2 h3
    split
    · simpa using fun h => h3 h.symm
    · exact hasKey_forEachRoi_other _ _ _ h1 h2
  have hrois : ∀ rs : List Roi,
      (if rs = [] then decide (ErrKey.rois = ErrKey.rois) else hasKey (forEachRoi 0 rs) ErrKey.rois)
        = decide (rs = []) := by
    intro rs
    split
    · rename_i h; simp [h]
    · rename_i h
      rw [hasKey_forEachRoi_other _ _ _ (fun _ => by simp) (fun _ => by simp)]
      simp [h]
  have kc : ∀ (fn' cw' : Str) (rs : List Roi),
      hasKey (newErrors funcCode fn' cw' rs) ErrKey.funcCode = isBlank funcCode := by
    intro fn' cw' rs
    rw [hasKey_newErrors, hother rs _ (fun _ => by simp) (fun _ => by simp) (by simp)]
    simp
  have kn : ∀ (fc' cw' : Str) (rs : List Roi),
      hasKey (newErrors fc' funcName cw' rs) ErrKey.funcName = isBlank funcName := by
    intro fc' cw' rs
    rw [hasKey_newErrors, hother rs _ (fun _ => by simp) (fun _ => by simp) (by simp)]
    simp
  have kw : ∀ (fc' fn' : Str) (rs : List Roi),
      hasKey (newErrors fc' fn' cweIds rs) ErrKey.cweIds
        = (isBlank cweIds || !cweRe.test (trim cweIds)) := by
    intro fc' fn' rs
    rw [hasKey_newErrors, hother rs _ (fun _ => by simp) (fun _ => by simp) (by simp)]
    simp
  have kr : ∀ (fc' fn' cw' : Str),
      hasKey (newErrors fc' fn' cw' rois) ErrKey.rois = decide (rois = []) := by
    intro fc' fn' cw'
    rw [hasKey_newErrors, hrois]
    simp
  refine ⟨?_, ?_, ?_, ?_, ?_, ?_⟩
  · rw [kc, isBlank_iff]
  · rw [kn, isBlank_iff]
  · rw [kw, Bool.or_eq_true, isBlank_iff, ← cweRe_iff]
    simp
  · rw [kr]; simp
  · intro code' name' cwe' rois'
    exact ⟨by rw [kc, kc], by rw [kn, kn], by rw [kw, kw], by rw [kr, kr]⟩
  · unfold validateInput
    simp [List.length_eq_zero]

/-- Claim C6: for the region at index `i` of the list, the error object has the key
`roi_i` iff the region's code is empty or white space only, and the key `line_i`
iff the region's lineSpec, trimmed, is not in the line grammar, whatever the
other fields and the other regions hold; the object has no `roi_j` or `line_j`
key for an index `j` at or beyond the length of the list; and for the empty list
it has the key `rois` and no per-region key at all. -/
theorem C6_region_errors (funcCode funcName cweIds : Str) (rois : List Roi) :
    (∀ (i : Nat) (item : Roi), rois[i]? = some item →
        (hasKey (newErrors funcCode funcName cweIds rois) (ErrKey.roi i) = true
            ↔ ∀ c ∈ item.roi, isSpace c = true)
          ∧ (hasKey (newErrors funcCode funcName cweIds rois) (ErrKey.line i) = true
            ↔ ¬ LineGrammar (trim item.line)))
      ∧ (∀ j, rois.length ≤ j →
          hasKey (newErrors funcCode funcName cweIds rois) (ErrKey.roi j) = false
            ∧ hasKey (newErrors funcCode funcName cweIds rois) (ErrKey.line j) = false)
      ∧ (rois = [] →
          hasKey (newErrors funcCode funcName cweIds rois) ErrKey.rois = true
            ∧ ∀ j, hasKey (newErrors funcCode funcName cweIds rois) (ErrKey.roi j) = false
                ∧ hasKey (newErrors funcCode funcName cweIds rois) (ErrKey.line j) = false) := by
  have kroi : ∀ j, hasKey (newErrors funcCode funcName cweIds rois) (ErrKey.roi j)
      = hasKey (forEachRoi 0 rois) (ErrKey.roi j) := by
    intro j
    rw [hasKey_newErrors]
    cases rois with
    | nil => simp [forEachRoi, hasKey_nil]
    | cons r rs => simp
  have kline : ∀ j, hasKey (newErrors funcCode funcName cweIds rois) (ErrKey.line j)
      = hasKey (forEachRoi 0 rois) (ErrKey.line j) := by
    intro j
    rw [hasKey_newErrors]
    cases rois with
    | nil => simp [forEachRoi, hasKey_nil]
    | cons r rs => simp
  have hbeyond : ∀ j, rois.length ≤ j →
      hasKey (newErrors funcCode funcName cweIds rois) (ErrKey.roi j) = false
        ∧ hasKey (newErrors funcCode funcName cweIds rois) (ErrKey.line j) = false := by
    intro j hj
    have hnone : rois[j - 0]? = none := by simpa using hj
    constructor
    · rw [kroi, ← Bool.not_eq_true, hasKey_forEachRoi_roi]
      rintro ⟨r, -, h, -⟩
      rw [hnone] at h
      cases h
    · rw [kline, ← Bool.not_eq_true, hasKey_forEachRoi_line]
      rintro ⟨r, -, h, -⟩
      rw [hnone] at h
      cases h
  refine ⟨?_, hbeyond, ?_⟩
  · intro i item hi
    constructor
    · rw [kroi, hasKey_forEachRoi_roi, ← isBlank_iff]
      constructor
      · rintro ⟨r, -, h, hb⟩
        rw [Nat.sub_zero, hi] at h
        cases h
        exact hb
      · intro hb
        exact ⟨item, Nat.zero_le _, by simpa using hi, hb⟩
    · rw [kline, hasKey_forEachRoi_line, ← lineRejected_false_iff, Bool.not_eq_false]
      constructor
      · rintro ⟨r, -, h, hb⟩
        rw [Nat.sub_zero, hi] at h
        cases h
        exact hb
      · intro hb
        exact ⟨item, Nat.zero_le _, by simpa using hi, hb⟩
  · rintro rfl
    refine ⟨?_, fun j => hbeyond j (Nat.zero_le _)⟩
    rw [hasKey_newErrors]
    simp

/-- Witness for C6: a single region with a blank code and the lineSpec `x` has both
per-region keys. -/
theorem C6_region_errors_witness :
    hasKey (newErrors [] [] [] [⟨[' '], ['x']⟩]) (ErrKey.roi 0) = true
      ∧ ¬ LineGrammar (trim ['x']) :=
  ⟨((C6_region_errors [] [] [] [⟨[' '], ['x']⟩]).1 0 ⟨[' '], ['x']⟩ rfl).1.2 (by decide),
    ((C6_region_errors [] [] [] [⟨[' '], ['x']⟩]).1 0 ⟨[' '], ['x']⟩ rfl).2.1 (by decide)⟩

/-- Claim C7: in every run the research calls are issued in the order of the CWE
tokens; whenever a research call is issued, every call issued before it has
settled with a truthy payload; when a research call does not settle with a truthy
payload, no call at all is issued after it and the run ends in the failed state
(error dialog with a message, step 0); in particular, for the tokens `CWE-1`,
`CWE-2`, a failing first call leaves the call for `CWE-2` unissued. -/
theorem C7_research_order_and_abort (ui : Ui) (replies : List Reply) :
    (callsOf (handleGenerate ui replies)).filterMap Call.researchId <+: cweList ui.cweIds
      ∧ (∀ pre cweId post,
          handleGenerate ui replies = pre ++ Event.call (Call.research cweId) :: post →
            repliesOf pre = List.replicate (callsOf pre).length (Reply.data true)
              ∧ (callsOf pre).filterMap Call.researchId ++ [cweId] <+: cweList ui.cweIds)
      ∧ (∀ pre cweId r post,
          handleGenerate ui replies
              = pre ++ Event.call (Call.research cweId) :: Event.reply r :: post →
            r ≠ Reply.data true →
              callsOf post = []
                ∧ (ui.applyAll (handleGenerate ui replies)).stage = Stage.Failed
                ∧ (ui.applyAll (handleGenerate ui replies)).generationStep = 0
                ∧ ∃ m, m ≠ [] ∧ (ui.applyAll (handleGenerate ui replies)).errorModal = some m)
      ∧ (validateInput ui.funcCode ui.funcName ui.cweIds ui.rois = true →
          cweList ui.cweIds = ["CWE-1".toList, "CWE-2".toList] →
          ∀ r rest, replies = r :: rest → r ≠ Reply.data true →
            callsOf (handleGenerate ui replies) = [Call.research "CWE-1".toList]
              ∧ Call.research "CWE-2".toList ∉ callsOf (handleGenerate ui replies)
              ∧ (ui.applyAll (handleGenerate ui replies)).stage = Stage.Failed) := by
  have hpre := callsOf_handleGenerate ui replies
  have hord : (callsOf (handleGenerate ui replies)).filterMap Call.researchId
      <+: cweList ui.cweIds := by
    have := List.IsPrefix.filterMap Call.researchId hpre
    rwa [filterMap_researchId_planned] at this
  refine ⟨hord, ?_, ?_, ?_⟩
  · intro pre cweId post h
    refine ⟨orderly_before_call (orderly_handleGenerate ui replies) pre _ post h, ?_⟩
    rw [h, callsOf_append, callsOf_call, List.filterMap_append] at hord
    simp only [List.filterMap_cons, Call.researchId] at hord
    exact (List.prefix_append _ _).trans (by simpa using hord)
  · intro pre cweId r post h hr
    have h' : handleGenerate ui replies
        = (pre ++ [Event.call (Call.research cweId)]) ++ Event.reply r :: post := by
      rw [h]; simp
    obtain ⟨m, hm, h1, h2, h3⟩ := failed_run ui replies _ r post h' hr
    exact ⟨by rw [hm]; rfl, h3, h2, messageOr m, messageOr_ne_nil m, h1⟩
  · intro hv htoks r rest hrep hr
    have hrun : handleGenerate ui replies
        = [Event.setErrors (newErrors ui.funcCode ui.funcName ui.cweIds ui.rois),
            Event.setGenerationStep 1, Event.call (Call.research "CWE-1".toList), Event.reply r]
          ++ (resume ⟨ui, Await.research "CWE-1".toList ["CWE-2".toList]⟩ r).1 := by
      subst hrep
      unfold handleGenerate startGenerate
      rw [hv, htoks]
      simp only [if_true, researchLoop, settle_cons]
      rcases resume_cases ⟨ui, Await.research "CWE-1".toList ["CWE-2".toList]⟩ r with
        ⟨h0, -⟩ | ⟨-, m, hm⟩
      · exact absurd h0 hr
      · rw [hm, settle_none]; simp
    rcases resume_cases ⟨ui, Await.research "CWE-1".toList ["CWE-2".toList]⟩ r with
      ⟨h0, -⟩ | ⟨-, m, hm⟩
    · exact absurd h0 hr
    · rw [hm] at hrun
      have hc : callsOf (handleGenerate ui replies) = [Call.research "CWE-1".toList] := by
        rw [hrun]; rfl
      refine ⟨hc, ?_, ?_⟩
      · rw [hc]; decide
      · rw [hrun]
        exact (applyAll_failure ui _ m).2.2

/-- Witness for C7: on the example form, whose tokens are `CWE-1` and `CWE-2`, a
falsy reply to the first research call leaves that call the only one issued. -/
theorem C7_research_order_and_abort_witness :
    validateInput exampleUi.funcCode exampleUi.funcName exampleUi.cweIds exampleUi.rois = true
      ∧ cweList exampleUi.cweIds = ["CWE-1".toList, "CWE-2".toList]
      ∧ callsOf (handleGenerate exampleUi [Reply.data false]) = [Call.research "CWE-1".toList] :=
  ⟨by decide, by decide,
    ((C7_research_order_and_abort exampleUi [Reply.data false]).2.2.2 (by decide) (by decide)
      (Reply.data false) [] rfl (by decide)).1⟩

/-- Claim C8: in every run the sequence of remote calls is an initial part of
research(t1), ..., research(tn), injection, validation; when the injection call
is issued, all research calls have been issued and all have settled with a
truthy payload; when the validation call is issued, the injection call has also
settled with a truthy payload; and the injection call and the validation call
are each issued at most once. -/
theorem C8_stage_ordering (ui : Ui) (replies : List Reply) :
    callsOf (handleGenerate ui replies)
        <+: (cweList ui.cweIds).map Call.research
          ++ [injectionCall ui, Call.validation ui.funcName ui.funcCode (lineStr ui.rois)]
      ∧ (∀ pre c post, handleGenerate ui replies = pre ++ Event.call c :: post →
          c.isInjection = true →
            callsOf pre = (cweList ui.cweIds).map Call.research
              ∧ repliesOf pre = List.replicate (cweList ui.cweIds).length (Reply.data true))
      ∧ (∀ pre c post, handleGenerate ui replies = pre ++ Event.call c :: post →
          c.isValidation = true →
            callsOf pre = (cweList ui.cweIds).map Call.research ++ [injectionCall ui]
              ∧ repliesOf pre
                  = List.replicate ((cweList ui.cweIds).length + 1) (Reply.data true))
      ∧ (callsOf (handleGenerate ui replies)).countP Call.isInjection ≤ 1
      ∧ (callsOf (handleGenerate ui replies)).countP Call.isValidation ≤ 1 := by
  have hpre := callsOf_handleGenerate ui replies
  have hord := orderly_handleGenerate ui replies
  refine ⟨?_, ?_, ?_, ?_, ?_⟩
  · refine hpre.trans ?_
    unfold plannedCalls validationCalls
    cases ui.skipValidation
    · simp
    · exact (List.prefix_append_right_inj _).2 ⟨[_], rfl⟩
  · intro pre c post h hc
    have h1 := orderly_before_call hord pre c post h
    have h2 : callsOf pre = (cweList ui.cweIds).map Call.research := by
      apply calls_before_injection ui _ (callsOf post) c hc
      rw [h, callsOf_append, callsOf_call] at hpre
      exact hpre
    rw [h2, List.length_map] at h1
    exact ⟨h2, h1⟩
  · intro pre c post h hc
    have h1 := orderly_before_call hord pre c post h
    have h2 : callsOf pre = (cweList ui.cweIds).map Call.research ++ [injectionCall ui] := by
      apply calls_before_validation ui _ (callsOf post) c hc
      rw [h, callsOf_append, callsOf_call] at hpre
      exact hpre
    rw [h2, List.length_append, List.length_map] at h1
    exact ⟨h2, h1⟩
  · exact (hpre.sublist.countP_le _).trans (le_of_eq (countP_planned ui).1)
  · exact (hpre.sublist.countP_le _).trans (countP_planned ui).2

/-- Witness for C8: on the example form with three truthy replies, the calls issued
before the injection call are the two research calls. -/
theorem C8_stage_ordering_witness :
    handleGenerate exampleUi [Reply.data true, Reply.data true, Reply.data true]
        = [Event.setErrors [], Event.setGenerationStep 1,
            Event.call (Call.research "CWE-1".toList), Event.reply (Reply.data true),
            Event.call (Call.research "CWE-2".toList), Event.reply (Reply.data true),
            Event.setGenerationStep 2]
          ++ Event.call (injectionCall exampleUi)
            :: [Event.reply (Reply.data true), Event.setGenerationStep 3,
                Event.setGenerationStep 4,
                Event.call (Call.validation exampleUi.funcName exampleUi.funcCode
                  (lineStr exampleUi.rois))]
      ∧ callsOf [Event.setErrors [], Event.setGenerationStep 1,
            Event.call (Call.research "CWE-1".toList), Event.reply (Reply.data true),
            Event.call (Call.research "CWE-2".toList), Event.reply (Reply.data true),
            Event.setGenerationStep 2]
          = (cweList exampleUi.cweIds).map Call.research :=
  ⟨by decide,
    ((C8_stage_ordering exampleUi [Reply.data true, Reply.data true, Reply.data true]).2.1
      [Event.setErrors [], Event.setGenerationStep 1,
        Event.call (Call.research "CWE-1".toList), Event.reply (Reply.data true),
        Event.call (Call.research "CWE-2".toList), Event.reply (Reply.data true),
        Event.setGenerationStep 2]
      (injectionCall exampleUi)
      [Event.reply (Reply.data true), Event.setGenerationStep 3, Event.setGenerationStep 4,
        Event.call (Call.validation exampleUi.funcName exampleUi.funcCode
          (lineStr exampleUi.rois))]
      (by decide) rfl).1⟩

/-- Claim C9: when a call of a run, of whichever stage, rejects or resolves with a
falsy payload, the rest of the run is the `catch` block and nothing else: the
error is logged, a non-empty message is stored in the error dialog and the step
is set to 0.  So the run ends in the failed state, the step advances to no later
stage and not to Completed, and no call is issued afterwards, neither a later one
nor the failed one again. -/
theorem C9_stage_failure (ui : Ui) (replies : List Reply) (pre : List Event) (c : Call)
    (r : Reply) (post : List Event)
    (hrun : handleGenerate ui replies = pre ++ Event.call c :: Event.reply r :: post)
    (hfail : r ≠ Reply.data true) :
    ∃ m, m ≠ []
      ∧ post = [Event.consoleError, Event.setErrorModal (some m), Event.setGenerationStep 0]
      ∧ (ui.applyAll (handleGenerate ui replies)).errorModal = some m
      ∧ (ui.applyAll (handleGenerate ui replies)).stage = Stage.Failed
      ∧ (ui.applyAll (handleGenerate ui replies)).generationStep = 0
      ∧ stepsOf post = [0]
      ∧ callsOf post = [] := by
  have h' : handleGenerate ui replies = (pre ++ [Event.call c]) ++ Event.reply r :: post := by
    rw [hrun]; simp
  obtain ⟨m, hm, h1, h2, h3⟩ := failed_run ui replies _ r post h' hfail
  exact ⟨messageOr m, messageOr_ne_nil m, hm, h1, h3, h2, by rw [hm]; rfl, by rw [hm]; rfl⟩

/-- Witness for C9: the example form with a research call resolving falsy, with the
injection call rejecting without message, and with the validation call
resolving falsy. -/
theorem C9_stage_failure_witness :
    (∃ m, m ≠ [] ∧ (exampleUi.applyAll (handleGenerate exampleUi
        [Reply.data false])).errorModal = some m)
      ∧ (∃ m, m ≠ [] ∧ (exampleUi.applyAll (handleGenerate exampleUi
        [Reply.data true, Reply.data true, Reply.rejected none])).errorModal = some m)
      ∧ (∃ m, m ≠ [] ∧ (exampleUi.applyAll (handleGenerate exampleUi
        [Reply.data true, Reply.data true, Reply.data true, Reply.data false])).errorModal
          = some m) := by
  refine ⟨?_, ?_, ?_⟩
  · obtain ⟨m, h1, -, h2, -⟩ := C9_stage_failure exampleUi [Reply.data false]
      [Event.setErrors [], Event.setGenerationStep 1] (Call.research "CWE-1".toList)
      (Reply.data false) (failure (some "Research failed for CWE-1".toList)) (by decide)
      (by decide)
    exact ⟨m, h1, h2⟩
  · obtain ⟨m, h1, -, h2, -⟩ := C9_stage_failure exampleUi
      [Reply.data true, Reply.data true, Reply.rejected none]
      [Event.setErrors [], Event.setGenerationStep 1, Event.call (Call.research "CWE-1".toList),
        Event.reply (Reply.data true), Event.call (Call.research "CWE-2".toList),
        Event.reply (Reply.data true), Event.setGenerationStep 2]
      (injectionCall exampleUi) (Reply.rejected none) (failure none) (by decide) (by decide)
    exact ⟨m, h1, h2⟩
  · obtain ⟨m, h1, -, h2, -⟩ := C9_stage_failure exampleUi
      [Reply.data true, Reply.data true, Reply.data true, Reply.data false]
      [Event.setErrors [], Event.setGenerationStep 1, Event.call (Call.research "CWE-1".toList),
        Event.reply (Reply.data true), Event.call (Call.research "CWE-2".toList),
        Event.reply (Reply.data true), Event.setGenerationStep 2,
        Event.call (injectionCall exampleUi), Event.reply (Reply.data true),
        Event.setGenerationStep 3, Event.setGenerationStep 4]
      (Call.validation exampleUi.funcName exampleUi.funcCode (lineStr exampleUi.rois))
      (Reply.data false) (failure (some "Validation failed".toList)) (by decide) (by decide)
    exact ⟨m, h1, h2⟩

/-- Claim C10, amended: in every run the stored step only moves forward through 1, 2,
3, 4, 5 (4 left out when `skipValidation` is set) while the calls succeed, and a
call that fails sets it back to 0, the value of Idle, the failed state being the
error dialog shown over step 0.  With no run suspended, Completed is left only by
a reset (or turns into Failed when a pending sample request fails).  The failed
state is left by a reset, by a retry, and also by the dismiss button of the
dialog, which keeps the request and shows the stage of the stored step. -/
theorem C10_stage_course (ui : Ui) (replies : List Reply) (p : Page) (a : Action) :
    ((validateInput ui.funcCode ui.funcName ui.cweIds ui.rois = false
          ∧ stepsOf (handleGenerate ui replies) = [])
        ∨ (validateInput ui.funcCode ui.funcName ui.cweIds ui.rois = true
          ∧ ∃ fwd, fwd <+: stepOrder ui.skipValidation ∧ fwd.head? = some 1 ∧
            ((stepsOf (handleGenerate ui replies) = fwd
                ∧ ∀ r ∈ repliesOf (handleGenerate ui replies), r = Reply.data true)
              ∨ (stepsOf (handleGenerate ui replies) = fwd ++ [0]
                ∧ ∃ r ∈ repliesOf (handleGenerate ui replies), r ≠ Reply.data true))))
      ∧ ((∃ r ∈ repliesOf (handleGenerate ui replies), r ≠ Reply.data true) →
          (ui.applyAll (handleGenerate ui replies)).generationStep = 0
            ∧ stageOfStep (ui.applyAll (handleGenerate ui replies)).generationStep = Stage.Idle
            ∧ (ui.applyAll (handleGenerate ui replies)).stage = Stage.Failed)
      ∧ (p.ui.stage = Stage.Completed → p.runs = [] → p.enabled a = true →
          (p.perform a).ui.stage = Stage.Completed
            ∨ (a = Action.sampleSettles SampleReply.rejected
                ∧ (p.perform a).ui.stage = Stage.Failed)
            ∨ ((a = Action.reset ∨ a = Action.startNew)
                ∧ (p.perform a).ui.stage = Stage.Idle))
      ∧ (p.ui.stage = Stage.Failed →
          p.enabled Action.closeError = true
            ∧ (p.perform Action.closeError).ui = { p.ui with errorModal := none }
            ∧ (p.perform Action.closeError).ui.stage = stageOfStep p.ui.generationStep)
      ∧ (p.perform Action.reset).ui.stage = Stage.Idle
      ∧ (p.perform Action.errorReset).ui.stage = Stage.Idle
      ∧ (p.perform Action.startNew).ui.stage = Stage.Idle := by
  refine ⟨stepsOf_handleGenerate ui replies, ?_, completed_left_by_reset p a, ?_, rfl, rfl, rfl⟩
  · rintro ⟨r, hr, hne⟩
    obtain ⟨pre, post, h⟩ := mem_repliesOf hr
    obtain ⟨m, -, -, h2, h3⟩ := failed_run ui replies pre r post h hne
    exact ⟨h2, by rw [h2]; rfl, h3⟩
  · intro hf
    have he : p.ui.errorModal.isSome = true := by
      unfold Ui.stage at hf
      cases h : p.ui.errorModal with
      | some m => rfl
      | none =>
        exfalso
        simp only [h, Option.isSome_none, Bool.false_eq_true, if_false] at hf
        have : ∀ n, stageOfStep n ≠ Stage.Failed := by
          intro n
          unfold stageOfStep
          split <;> simp
        exact this _ hf
    exact ⟨he, rfl, rfl⟩

/-- Witness for C10: the example form with its first research call failing, the
completed example page and the failed example page. -/
theorem C10_stage_course_witness :
    (∃ r ∈ repliesOf (handleGenerate exampleUi [Reply.data false]), r ≠ Reply.data true)
      ∧ (exampleUi.applyAll (handleGenerate exampleUi [Reply.data false])).generationStep = 0
      ∧ failedPage.ui.stage = Stage.Failed
      ∧ (failedPage.perform Action.closeError).ui.stage = stageOfStep failedPage.ui.generationStep :=
  ⟨⟨Reply.data false, by decide, by decide⟩,
    ((C10_stage_course exampleUi [Reply.data false] failedPage Action.closeError).2.1
      ⟨Reply.data false, by decide, by decide⟩).1,
    by decide,
    ((C10_stage_course exampleUi [Reply.data false] failedPage Action.closeError).2.2.2.1
      (by decide)).2.2⟩

/-- Counterexample to C10 as stated: on the example form, after the first research
call has failed, the page is in the failed state; the dismiss button of the
error dialog, which is neither reset nor retry and keeps the request, then leads
to Idle.  The failure itself has already put the stored step back to 0, the
value of Idle, without any reset. -/
theorem C10_counterexample :
    (({ ui := exampleUi, runs := [], samples := 0 } : Page).perform Action.generate).ui.stage
        = Stage.Researching
      ∧ failedPage.ui.generationStep = 0
      ∧ stageOfStep failedPage.ui.generationStep = Stage.Idle
      ∧ failedPage.ui.stage = Stage.Failed
      ∧ failedPage.enabled Action.closeError = true
      ∧ (failedPage.perform Action.closeError).ui.stage = Stage.Idle
      ∧ (failedPage.perform Action.closeError).ui.cweIds = exampleUi.cweIds := by
  decide

/-- Claim C11: let the research calls and the injection call of a valid request all
succeed.  With `skipValidation` set, the run issues no validation call and sets
the step from 3 (Injecting) directly to 5 (Completed).  With `skipValidation`
not set, the run sets the step to 4 (Validating), issues exactly one validation
call, and reaches Completed if and only if that call succeeds. -/
theorem C11_skip_validation (ui : Ui) (more : List Reply)
    (hvalid : validateInput ui.funcCode ui.funcName ui.cweIds ui.rois = true) :
    (ui.skipValidation = true →
        handleGenerate ui
            (List.replicate ((cweList ui.cweIds).length + 1) (Reply.data true) ++ more)
          = Event.setErrors [] :: Event.setGenerationStep 1
              :: (researchEvents (cweList ui.cweIds)
                ++ [Event.setGenerationStep 2, Event.call (injectionCall ui),
                    Event.reply (Reply.data true), Event.setGenerationStep 3,
                    Event.setGenerationStep 5, Event.setShowModal true])
          ∧ (∀ c ∈ callsOf (handleGenerate ui
              (List.replicate ((cweList ui.cweIds).length + 1) (Reply.data true) ++ more)),
                c.isValidation = false)
          ∧ stepsOf (handleGenerate ui
              (List.replicate ((cweList ui.cweIds).length + 1) (Reply.data true) ++ more))
              = [1, 2, 3, 5]
          ∧ (ui.applyAll (handleGenerate ui
              (List.replicate ((cweList ui.cweIds).length + 1) (Reply.data true) ++ more))
              ).generationStep = 5
          ∧ (ui.errorModal = none →
              (ui.applyAll (handleGenerate ui
                (List.replicate ((cweList ui.cweIds).length + 1) (Reply.data true) ++ more))
                ).stage = Stage.Completed))
      ∧ (ui.skipValidation = false →
        handleGenerate ui
            (List.replicate ((cweList ui.cweIds).length + 1) (Reply.data true) ++ more)
          = Event.setErrors [] :: Event.setGenerationStep 1
              :: (researchEvents (cweList ui.cweIds)
                ++ Event.setGenerationStep 2 :: Event.call (injectionCall ui)
                  :: Event.reply (Reply.data true) :: Event.setGenerationStep 3
                  :: Event.setGenerationStep 4
                  :: Event.call (Call.validation ui.funcName ui.funcCode (lineStr ui.rois))
                  :: settle (some { ctx := ui, awaiting := Await.validation }) more)
          ∧ (callsOf (handleGenerate ui
              (List.replicate ((cweList ui.cweIds).length + 1) (Reply.data true) ++ more))
              ).countP Call.isValidation = 1
          ∧ ((ui.applyAll (handleGenerate ui
              (List.replicate ((cweList ui.cweIds).length + 1) (Reply.data true) ++ more))
              ).generationStep = 5 ↔ more.head? = some (Reply.data true))
          ∧ (more = [] →
              (ui.applyAll (handleGenerate ui
                (List.replicate ((cweList ui.cweIds).length + 1) (Reply.data true) ++ more))
                ).generationStep = 4)
          ∧ (ui.errorModal = none →
              ((ui.applyAll (handleGenerate ui
                (List.replicate ((cweList ui.cweIds).length + 1) (Reply.data true) ++ more))
                ).stage = Stage.Completed ↔ more.head? = some (Reply.data true)))) := by
  have hrep : List.replicate ((cweList ui.cweIds).length + 1) (Reply.data true) ++ more
      = List.replicate (cweList ui.cweIds).length (Reply.data true)
          ++ Reply.data true :: more := by
    rw [List.replicate_succ']
    simp
  rw [hrep, handleGenerate_research_truthy ui _ hvalid, settle_injection_truthy]
  constructor
  · intro hs
    rw [if_pos hs]
    refine ⟨rfl, ?_, ?_, ?_, ?_⟩
    · intro c hc
      simp only [callsOf_setErrors, callsOf_setStep, callsOf_append, callsOf_researchEvents,
        callsOf_call, callsOf_reply, callsOf_setShowModal] at hc
      rcases List.mem_append.1 hc with h | h
      · exact (isInjection_research _ c h).2
      · simp only [callsOf, List.mem_singleton] at h
        rw [h]
        rfl
    · simp [stepsOf_setErrors, stepsOf_setStep, stepsOf_append, stepsOf_researchEvents,
        stepsOf_call, stepsOf_reply, stepsOf_setShowModal, stepsOf]
    · simp [applyAll_cons, applyAll_append, applyAll_researchEvents, Ui.apply, applyAll_nil]
    · intro he
      simp [applyAll_cons, applyAll_append, applyAll_researchEvents, Ui.apply, applyAll_nil,
        Ui.stage, he, stageOfStep]
  · intro hs
    rw [if_neg (by simp [hs])]
    refine ⟨rfl, ?_, ?_, ?_, ?_⟩
    · rw [settle_validation]
      simp only [callsOf_setErrors, callsOf_setStep, callsOf_append, callsOf_researchEvents,
        callsOf_call, callsOf_reply, List.countP_append, List.countP_cons,
        countP_isValidation_research]
      match more with
      | [] => simp [callsOf, injectionCall, Call.isValidation]
      | Reply.data true :: _ => simp [callsOf, injectionCall, Call.isValidation]
      | Reply.data false :: _ => simp [callsOf, injectionCall, Call.isValidation, failure]
      | Reply.rejected m :: _ => simp [callsOf, injectionCall, Call.isValidation, failure]
    · rw [settle_validation]
      match more with
      | [] => simp [applyAll_cons, applyAll_append, applyAll_researchEvents, Ui.apply, applyAll_nil]
      | Reply.data true :: _ =>
        simp [applyAll_cons, applyAll_append, applyAll_researchEvents, Ui.apply, applyAll_nil]
      | Reply.data false :: _ =>
        simp [applyAll_cons, applyAll_append, applyAll_researchEvents, Ui.apply, applyAll_nil,
          failure]
      | Reply.rejected m :: _ =>
        simp [applyAll_cons, applyAll_append, applyAll_researchEvents, Ui.apply, applyAll_nil,
          failure]
    · rintro rfl
      simp [settle, applyAll_cons, applyAll_append, applyAll_researchEvents, Ui.apply,
        applyAll_nil]
    · intro he
      rw [settle_validation]
      match more with
      | [] =>
        simp [applyAll_cons, applyAll_append, applyAll_researchEvents, Ui.apply, applyAll_nil,
          Ui.stage, he, stageOfStep]
      | Reply.data true :: _ =>
        simp [applyAll_cons, applyAll_append, applyAll_researchEvents, Ui.apply, applyAll_nil,
          Ui.stage, he, stageOfStep]
      | Reply.data false :: _ =>
        simp [applyAll_cons, applyAll_append, applyAll_researchEvents, Ui.apply, applyAll_nil,
          Ui.stage, failure]
      | Reply.rejected m :: _ =>
        simp [applyAll_cons, applyAll_append, applyAll_researchEvents, Ui.apply, applyAll_nil,
          Ui.stage, failure]

/-- Witness for C11: the example form, which does not skip the validation, with
truthy replies to its four calls. -/
theorem C11_skip_validation_witness :
    validateInput exampleUi.funcCode exampleUi.funcName exampleUi.cweIds exampleUi.rois = true
      ∧ exampleUi.skipValidation = false
      ∧ (callsOf (handleGenerate exampleUi
          (List.replicate ((cweList exampleUi.cweIds).length + 1) (Reply.data true)
            ++ [Reply.data true]))).countP Call.isValidation = 1
      ∧ stepsOf (handleGenerate { exampleUi with skipValidation := true }
          (List.replicate ((cweList exampleUi.cweIds).length + 1) (Reply.data true) ++ []))
          = [1, 2, 3, 5] :=
  ⟨by decide, rfl, ((C11_skip_validation exampleUi [Reply.data true] (by decide)).2 rfl).2.1,
    ((C11_skip_validation { exampleUi with skipValidation := true } [] (by decide)).1
      rfl).2.2.1⟩

/-- Claim C12, amended: the page keeps no run identifier and a reset cancels nothing.
When a reset is performed while the call of a suspended run is in flight, the
page shows Idle and the run stays suspended; when that call later settles, the
run continues on the reset state.  A truthy injection result sets the step to 4
and issues the validation call (to 5 with the completion dialog when the run
was started with `skipValidation`); a truthy research result issues the next
call; a truthy validation result sets step 5 with the completion dialog; a
result that is not truthy stores its message in the error dialog. -/
theorem C12_stale_results_applied (p : Page) (i : Nat) (run : Pending) (r : Reply) (a : Action)
    (hrun : p.runs.get? i = some run)
    (ha : a = Action.reset ∨ a = Action.errorReset ∨ a = Action.startNew) :
    (p.perform a).runs = p.runs
      ∧ (p.perform a).ui.stage = Stage.Idle
      ∧ (p.perform a).enabled (Action.runSettles i r) = true
      ∧ ((p.perform a).perform (Action.runSettles i r)).ui
          = (handleReset p.ui).applyAll (resume run r).1
      ∧ ((p.perform a).perform (Action.runSettles i r)).runs
          = replaceRun p.runs i (resume run r).2
      ∧ (run.awaiting = Await.injection → r = Reply.data true →
          run.ctx.skipValidation = false →
            ((p.perform a).perform (Action.runSettles i r)).ui.generationStep = 4
              ∧ ((p.perform a).perform (Action.runSettles i r)).ui.stage = Stage.Validating
              ∧ callsOf (resume run r).1
                  = [Call.validation run.ctx.funcName run.ctx.funcCode (lineStr run.ctx.rois)])
      ∧ (run.awaiting = Await.injection → r = Reply.data true →
          run.ctx.skipValidation = true →
            ((p.perform a).perform (Action.runSettles i r)).ui.generationStep = 5
              ∧ ((p.perform a).perform (Action.runSettles i r)).ui.showModal = true
              ∧ ((p.perform a).perform (Action.runSettles i r)).ui.stage = Stage.Completed)
      ∧ (∀ cweId next rest, run.awaiting = Await.research cweId (next :: rest) →
          r = Reply.data true → callsOf (resume run r).1 = [Call.research next])
      ∧ (∀ cweId, run.awaiting = Await.research cweId [] → r = Reply.data true →
          ((p.perform a).perform (Action.runSettles i r)).ui.generationStep = 2
            ∧ callsOf (resume run r).1 = [injectionCall run.ctx])
      ∧ (run.awaiting = Await.validation → r = Reply.data true →
          ((p.perform a).perform (Action.runSettles i r)).ui.generationStep = 5
            ∧ ((p.perform a).perform (Action.runSettles i r)).ui.showModal = true)
      ∧ (r ≠ Reply.data true →
          ∃ m, m ≠ []
            ∧ ((p.perform a).perform (Action.runSettles i r)).ui.errorModal = some m
            ∧ ((p.perform a).perform (Action.runSettles i r)).ui.stage = Stage.Failed) := by
  have hruns : (p.perform a).runs = p.runs := by
    rcases ha with rfl | rfl | rfl <;> rfl
  have hui : (p.perform a).ui = handleReset p.ui := by
    rcases ha with rfl | rfl | rfl <;> rfl
  have hlt : i < p.runs.length := by
    rw [List.get?_eq_some] at hrun
    exact hrun.1
  have hget : (p.perform a).runs.get? i = some run := by rw [hruns]; exact hrun
  have hperf := perform_runSettles (p.perform a) i r run hget
  have hu : ((p.perform a).perform (Action.runSettles i r)).ui
      = (handleReset p.ui).applyAll (resume run r).1 := by
    rw [hperf, hui]
  have hr : ((p.perform a).perform (Action.runSettles i r)).runs
      = replaceRun p.runs i (resume run r).2 := by
    rw [hperf, hruns]
  obtain ⟨ctx, aw⟩ := run
  refine ⟨hruns, by rw [hui]; rfl, by simp [Page.enabled, hruns, hlt], hu, hr,
    ?_, ?_, ?_, ?_, ?_, ?_⟩
  · intro h1 h2 h3
    simp only at h1 h3
    subst h1 h2
    rw [hu]
    simp [resume, validationStep, h3, applyAll_cons, applyAll_nil, Ui.apply, handleReset,
      Ui.stage, stageOfStep, callsOf]
  · intro h1 h2 h3
    simp only at h1 h3
    subst h1 h2
    rw [hu]
    simp [resume, validationStep, finish, h3, applyAll_cons, applyAll_nil, Ui.apply, handleReset,
      Ui.stage, stageOfStep]
  · intro cweId next rest h1 h2
    simp only at h1
    subst h1 h2
    rfl
  · intro cweId h1 h2
    simp only at h1
    subst h1 h2
    rw [hu]
    exact ⟨rfl, rfl⟩
  · intro h1 h2
    simp only at h1
    subst h1 h2
    rw [hu]
    exact ⟨rfl, rfl⟩
  · intro hne
    rcases resume_cases ⟨ctx, aw⟩ r with ⟨h0, -⟩ | ⟨-, m, hm⟩
    · exact absurd h0 hne
    · rw [hu, hm]
      have := applyAll_failure (handleReset p.ui) [] m
      simp only [List.nil_append] at this
      exact ⟨messageOr m, messageOr_ne_nil m, this.1, this.2.2⟩

/-- Witness for C12: on `stalePage`, whose injection call is in flight, the reset of
the header followed by a truthy injection result shows Validating. -/
theorem C12_stale_results_applied_witness :
    stalePage.runs.get? 0 = some { ctx := exampleUi, awaiting := Await.injection }
      ∧ ((stalePage.perform Action.reset).perform
          (Action.runSettles 0 (Reply.data true))).ui.stage = Stage.Validating :=
  ⟨rfl,
    ((C12_stale_results_applied stalePage 0 { ctx := exampleUi, awaiting := Await.injection }
      (Reply.data true) Action.reset rfl (Or.inl rfl)).2.2.2.2.2.1 rfl rfl rfl).2.1⟩

/-- Counterexample to C12 as stated: the example request is typed in, a sample is
requested, Generate is pressed, both research calls succeed, the sample request
fails and Reset is pressed in its error dialog while the injection call is in
flight; the page shows Idle without error.  When the injection call then
resolves truthy, the stage becomes Validating and the validation call is issued;
when it resolves falsy, the page shows the failure "Injection failed". -/
theorem C12_counterexample :
    Page.initial.performAll stalePath = some stalePage
      ∧ stalePage.ui.stage = Stage.Idle
      ∧ stalePage.ui.errorModal = none
      ∧ stalePage.runs = [{ ctx := exampleUi, awaiting := Await.injection }]
      ∧ stalePage.enabled (Action.runSettles 0 (Reply.data true)) = true
      ∧ (stalePage.perform (Action.runSettles 0 (Reply.data true))).ui.stage = Stage.Validating
      ∧ callsOf (resume { ctx := exampleUi, awaiting := Await.injection } (Reply.data true)).1
          = [Call.validation ['f'] ['f'] ['1']]
      ∧ (stalePage.perform (Action.runSettles 0 (Reply.data false))).ui.stage = Stage.Failed
      ∧ (stalePage.perform (Action.runSettles 0 (Reply.data false))).ui.errorModal
          = some "Injection failed".toList := by
  decide

/-- Claim C13: let `failed` be the state in which a run of the request of `ui` has
ended after a call failed.  It is the failed state and holds the request of `ui`
unchanged; Retry is offered, clears the error and starts `handleGenerate` on that
request; the retried run is the same function of the replies as a fresh run, so
it starts again from the first research call; and when every call now succeeds,
all research calls, the injection call and the validation call are issued and
the page ends Completed, in the very state a fresh start would end in. -/
theorem C13_retry (ui failed : Ui) (replies : List Reply) (runs : List Pending) (samples : Nat)
    (hstate : failed = ui.applyAll (handleGenerate ui replies))
    (hfailed : ∃ r ∈ repliesOf (handleGenerate ui replies), r ≠ Reply.data true) :
    failed.stage = Stage.Failed
      ∧ SameRequest failed ui
      ∧ Page.enabled { ui := failed, runs := runs, samples := samples } Action.retry = true
      ∧ (Page.perform { ui := failed, runs := runs, samples := samples } Action.retry).ui
          = ({ failed with errorModal := none } : Ui).applyAll (startGenerate failed).1
      ∧ (Page.perform { ui := failed, runs := runs, samples := samples } Action.retry).runs
          = runs ++ (startGenerate failed).2.toList
      ∧ (∀ replies2, handleGenerate failed replies2 = handleGenerate ui replies2)
      ∧ callsOf (handleGenerate failed (allTruthy failed)) = plannedCalls ui
      ∧ (cweList ui.cweIds).map Call.research
          <+: callsOf (handleGenerate failed (allTruthy failed))
      ∧ (({ failed with errorModal := none } : Ui).applyAll
          (handleGenerate failed (allTruthy failed))).generationStep = 5
      ∧ (({ failed with errorModal := none } : Ui).applyAll
          (handleGenerate failed (allTruthy failed))).stage = Stage.Completed
      ∧ (ui.errorModal = none →
          ({ failed with errorModal := none } : Ui).applyAll
              (handleGenerate failed (allTruthy failed))
            = ui.applyAll (handleGenerate ui (allTruthy ui))) := by
  have hvalid : validateInput ui.funcCode ui.funcName ui.cweIds ui.rois = true := by
    cases hv : validateInput ui.funcCode ui.funcName ui.cweIds ui.rois with
    | true => rfl
    | false =>
      exfalso
      obtain ⟨r, hr, -⟩ := hfailed
      rw [handleGenerate_rejected ui replies hv] at hr
      simp [repliesOf] at hr
  have hsame : SameRequest failed ui := by
    rw [hstate]
    exact sameRequest_applyAll _ _
  have hvalid' : validateInput failed.funcCode failed.funcName failed.cweIds failed.rois
      = true := by
    obtain ⟨h1, h2, h3, h4, -⟩ := hsame
    rw [h1, h2, h3, h4]
    exact hvalid
  have hstage : failed.stage = Stage.Failed := by
    obtain ⟨r, hr, hne⟩ := hfailed
    obtain ⟨pre, post, h⟩ := mem_repliesOf hr
    obtain ⟨m, -, -, -, h3⟩ := failed_run ui replies pre r post h hne
    rw [hstate]
    exact h3
  have herr : failed.errorModal.isSome = true := by
    unfold Ui.stage at hstage
    cases h : failed.errorModal with
    | some m => rfl
    | none =>
      exfalso
      simp only [h, Option.isSome_none, Bool.false_eq_true, if_false] at hstage
      have : ∀ n, stageOfStep n ≠ Stage.Failed := by
        intro n
        unfold stageOfStep
        split <;> simp
      exact this _ hstage
  have hplan : plannedCalls failed = plannedCalls ui := plannedCalls_sameRequest hsame
  have hcalls : callsOf (handleGenerate failed (allTruthy failed)) = plannedCalls ui := by
    rw [callsOf_allTruthy failed hvalid', hplan]
  refine ⟨hstage, hsame, herr, rfl, rfl, fun replies2 => handleGenerate_sameRequest hsame replies2,
    hcalls, ?_, ?_, ?_, ?_⟩
  · rw [hcalls]
    unfold plannedCalls
    exact List.prefix_append _ _
  · rw [applyAll_allTruthy failed _ hvalid']
  · rw [applyAll_allTruthy failed _ hvalid']
    rfl
  · intro he
    rw [applyAll_allTruthy failed _ hvalid', applyAll_allTruthy ui _ hvalid]
    obtain ⟨h1, h2, h3, h4, h5⟩ := hsame
    cases failed
    cases ui
    simp_all

/-- Witness for C13: the example form, whose first research call resolved falsy. -/
theorem C13_retry_witness :
    (∃ r ∈ repliesOf (handleGenerate exampleUi [Reply.data false]), r ≠ Reply.data true)
      ∧ callsOf (handleGenerate (exampleUi.applyAll (handleGenerate exampleUi [Reply.data false]))
          (allTruthy (exampleUi.applyAll (handleGenerate exampleUi [Reply.data false]))))
          = plannedCalls exampleUi :=
  ⟨⟨Reply.data false, by decide, by decide⟩,
    (C13_retry exampleUi (exampleUi.applyAll (handleGenerate exampleUi [Reply.data false]))
      [Reply.data false] [] 0 rfl ⟨Reply.data false, by decide, by decide⟩).2.2.2.2.2.2.1⟩

/-- Claim C14, amended: the Reset button of the header is available exactly when the
stored step is 0 or 5 (Idle or Completed by the step), not while the stored step
is one of the steps 1 to 4 that are in flight; the Reset button of the error
dialog is available exactly while that dialog is shown, which is the stage
Failed, whatever the stored step is and whether or not a run is suspended on a
call; so one of the two is available exactly in the stages Idle, Completed and
Failed.  Reset, also as `Start New` of the completion dialog, yields the stage
Idle with function name, function code and CWE ids empty, the region list back
to its one blank region, the stored validation errors emptied and the error
cleared; it leaves the suspended runs as they are. -/
theorem C14_reset (p : Page) :
    ((p.enabled Action.reset = true ∨ p.enabled Action.errorReset = true)
        ↔ (p.ui.stage = Stage.Idle ∨ p.ui.stage = Stage.Completed ∨ p.ui.stage = Stage.Failed))
      ∧ (p.enabled Action.reset = true
        ↔ (stageOfStep p.ui.generationStep = Stage.Idle
            ∨ stageOfStep p.ui.generationStep = Stage.Completed))
      ∧ (p.enabled Action.reset = true ↔ (p.ui.generationStep = 0 ∨ 5 ≤ p.ui.generationStep))
      ∧ (1 ≤ p.ui.generationStep ∧ p.ui.generationStep ≤ 4 → p.enabled Action.reset = false)
      ∧ (p.enabled Action.errorReset = true ↔ p.ui.errorModal.isSome = true)
      ∧ (p.enabled Action.errorReset = true ↔ p.ui.stage = Stage.Failed)
      ∧ (∀ a, a = Action.reset ∨ a = Action.errorReset ∨ a = Action.startNew →
          (p.perform a).ui = handleReset p.ui
            ∧ (p.perform a).ui.stage = Stage.Idle
            ∧ (p.perform a).ui.funcName = []
            ∧ (p.perform a).ui.funcCode = []
            ∧ (p.perform a).ui.cweIds = []
            ∧ (p.perform a).ui.rois = Ui.initial.rois
            ∧ (p.perform a).ui.rois = [{ roi := [], line := [] }]
            ∧ (p.perform a).ui.errors = []
            ∧ (p.perform a).ui.errorModal = none
            ∧ (p.perform a).ui.generationStep = 0
            ∧ (p.perform a).runs = p.runs) := by
  have hfailed : p.ui.stage = Stage.Failed ↔ p.ui.errorModal.isSome = true := by
    unfold Ui.stage
    cases he : p.ui.errorModal with
    | some m => simp
    | none =>
      simp only [Option.isSome_none, Bool.false_eq_true, if_false, iff_false]
      exact stageOfStep_ne_failed _
  have herr : p.enabled Action.errorReset = true ↔ p.ui.errorModal.isSome = true := Iff.rfl
  have hiff : (p.enabled Action.reset = true ∨ p.enabled Action.errorReset = true)
      ↔ (p.ui.stage = Stage.Idle ∨ p.ui.stage = Stage.Completed
          ∨ p.ui.stage = Stage.Failed) := by
    rw [enabled_reset_iff, ← stageOfStep_rest_iff]
    unfold Ui.stage
    cases he : p.ui.errorModal with
    | some m => simp [Page.enabled, he]
    | none =>
      simp only [Page.enabled, he, Option.isSome_none, Bool.false_eq_true, or_false, if_false]
      constructor
      · rintro (h | h)
        · exact Or.inl h
        · exact Or.inr (Or.inl h)
      · rintro (h | h | h)
        · exact Or.inl h
        · exact Or.inr h
        · exact absurd h (stageOfStep_ne_failed _)
  refine ⟨hiff, ?_, enabled_reset_iff p, ?_, herr, herr.trans hfailed.symm, ?_⟩
  · rw [enabled_reset_iff, stageOfStep_rest_iff]
  · intro hs
    cases h : p.enabled Action.reset with
    | false => rfl
    | true =>
      have := (enabled_reset_iff p).1 h
      omega
  · rintro a (rfl | rfl | rfl) <;> exact ⟨rfl, rfl, rfl, rfl, rfl, rfl, rfl, rfl, rfl, rfl, rfl⟩

/-- Counterexample to C14 as stated: on the page reached from the mounted page by the
actions of `inflightPath`, all of them available in their turn, the stored step
is 2 and the injection call of the run is in flight, and the error dialog of the
failed sample request is up: the Reset of the header is disabled, the Reset of
the dialog is available; pressing it gives Idle with the request cleared while
the run stays suspended on its call. -/
theorem C14_counterexample :
    Page.initial.performAll inflightPath = some inflightPage
      ∧ inflightPage.ui.generationStep = 2
      ∧ inflightPage.runs = [{ ctx := exampleUi, awaiting := Await.injection }]
      ∧ inflightPage.enabled (Action.runSettles 0 (Reply.data true)) = true
      ∧ inflightPage.ui.errorModal = some "Failed to load sample data.".toList
      ∧ inflightPage.enabled Action.reset = false
      ∧ inflightPage.enabled Action.errorReset = true
      ∧ (inflightPage.perform Action.errorReset).ui.stage = Stage.Idle
      ∧ (inflightPage.perform Action.errorReset).ui.funcName = []
      ∧ (inflightPage.perform Action.errorReset).runs
          = [{ ctx := exampleUi, awaiting := Await.injection }]
      ∧ inflightPage.perform Action.errorReset = stalePage := by
  decide

/-- Claim C15: for every region list the `rois` string is the line-break join of the
strings `"<i+1>. <code_i>"` (decimal label counted from 1, a dot, one space, the
code as stored) and the `lines` string is the line-break join of the lineSpecs as
stored, both in region order; these are the strings that the injection call of
every run carries; for the regions `[{a, 1}, {b, 6-8}]` they are `"1. a\n2. b"`
and `"1\n6-8"`. -/
theorem C15_encoder (rois : List Roi) (ui : Ui) (replies : List Reply) :
    roiStr rois = numberedListing rois
      ∧ lineStr rois = lineListing rois
      ∧ (∀ c ∈ callsOf (handleGenerate ui replies), c.isInjection = true →
          c = Call.injection ui.funcName ui.funcCode (lineListing ui.rois)
                (numberedListing ui.rois) ui.cweIds)
      ∧ roiStr [⟨['a'], ['1']⟩, ⟨['b'], ['6', '-', '8']⟩] = "1. a\n2. b".toList
      ∧ lineStr [⟨['a'], ['1']⟩, ⟨['b'], ['6', '-', '8']⟩] = "1\n6-8".toList := by
  have h1 : ∀ rs : List Roi, roiStr rs = numberedListing rs := by
    intro rs
    unfold roiStr numberedListing List.enum
    rw [jsJoin_eq_intercalate, numberedFrom_eq]
  have h2 : ∀ rs : List Roi, lineStr rs = lineListing rs := by
    intro rs
    unfold lineStr lineListing
    rw [jsJoin_eq_intercalate]
  refine ⟨h1 rois, h2 rois, ?_, by decide, by decide⟩
  intro c hc hi
  rw [injection_of_run ui replies c hc hi, ← h1, ← h2]
  rfl

/-- Claim C16: the encoder turns the regions `[{a, 1}, {b, 6-8}]` into the pair
`"1. a\n2. b"`, `"1\n6-8"`, and importing that pair returns exactly the two
regions `{a, 1}` and `{b, 6-8}`, in that order. -/
theorem C16_round_trip_example :
    roiStr [⟨['a'], ['1']⟩, ⟨['b'], ['6', '-', '8']⟩] = "1. a\n2. b".toList
      ∧ lineStr [⟨['a'], ['1']⟩, ⟨['b'], ['6', '-', '8']⟩] = "1\n6-8".toList
      ∧ importSample "1. a\n2. b".toList "1\n6-8".toList
          = [⟨['a'], ['1']⟩, ⟨['b'], ['6', '-', '8']⟩] := by
  decide

/-- Claim C17: with `L` the trimmed non-empty lines of `lineBlock`, the `k`-th region
that the importer emits from the numbered markers has the trimmed `k`-th emitted
capture as its code and `L[k]` as its lineSpec whenever `k < |L|` (the empty
string otherwise); the labels play no part: replacing every label by another
string leaves the regions unchanged, and `"7. a\n3. b"` with `"1\n2"` gives
`[{a, 1}, {b, 2}]`. -/
theorem C17_positional_pairing (roiBlock lineBlock : Str) (k : Nat) (code : Str)
    (hk : (codesOf ((jsSplit matchMarker roiBlock).drop 1))[k]? = some code) :
    (importSample roiBlock lineBlock)[k]?
        = some { roi := trim code, line := ((sampleLines lineBlock)[k]?).getD [] }
      ∧ (∀ l, (sampleLines lineBlock)[k]? = some l →
          (importSample roiBlock lineBlock)[k]? = some { roi := trim code, line := l })
      ∧ (∀ label : Str,
          parseLoop (sampleLines lineBlock)
              (relabel label ((jsSplit matchMarker roiBlock).drop 1)) []
            = parseLoop (sampleLines lineBlock) ((jsSplit matchMarker roiBlock).drop 1) [])
      ∧ importSample "7. a\n3. b".toList "1\n2".toList = [⟨['a'], ['1']⟩, ⟨['b'], ['2']⟩] := by
  have hne : codesOf ((jsSplit matchMarker roiBlock).drop 1) ≠ [] := by
    intro h0
    rw [h0] at hk
    simp at hk
  have h1 : (importSample roiBlock lineBlock)[k]?
      = some { roi := trim code, line := ((sampleLines lineBlock)[k]?).getD [] } := by
    rw [importSample_eq, if_neg hne, getElem?_pairUp, hk]
    simp
  refine ⟨h1, ?_, ?_, by decide⟩
  · intro l hl
    rw [h1, hl]
    rfl
  · intro label
    rw [parseLoop_eq _ _ _ _ (le_refl _), parseLoop_eq _ _ _ _ (le_refl _),
      codesOf_relabel label _ _ (le_refl _)]

/-- Witness for C17: the second region of `"7. a\n3. b"` with lines `"1\n2"`. -/
theorem C17_positional_pairing_witness :
    (codesOf ((jsSplit matchMarker "7. a\n3. b".toList).drop 1))[1]? = some ['b']
      ∧ (importSample "7. a\n3. b".toList "1\n2".toList)[1]?
          = some { roi := trim ['b'], line := ((sampleLines "1\n2".toList)[1]?).getD [] } :=
  ⟨by decide, (C17_positional_pairing "7. a\n3. b".toList "1\n2".toList 1 ['b'] (by decide)).1⟩

/-- Claim C18, amended: a matched (label, code) pair produces a region if and only if
its captured code is a non-empty string, tested before trimming; the code of the
region is the capture trimmed, which is empty when the capture is white space
only, and such a region takes its entry of `L` like any other; a marker followed
by no character at all emits nothing and consumes no entry of `L`; and the
importer takes the single-region fallback exactly when no capture is non-empty. -/
theorem C18_emitted_codes (roiBlock lineBlock : Str) :
    (∀ code ∈ codesOf ((jsSplit matchMarker roiBlock).drop 1), code ≠ [])
      ∧ (∀ (label code : Str) (rest : List Str),
          (code ≠ [] → codesOf (label :: code :: rest) = code :: codesOf rest)
            ∧ codesOf (label :: [] :: rest) = codesOf rest)
      ∧ (codesOf ((jsSplit matchMarker roiBlock).drop 1) ≠ [] →
          importSample roiBlock lineBlock
              = pairUp (sampleLines lineBlock) 0 (codesOf ((jsSplit matchMarker roiBlock).drop 1))
            ∧ (importSample roiBlock lineBlock).length
                = (codesOf ((jsSplit matchMarker roiBlock).drop 1)).length
            ∧ ∀ (k : Nat) (code : Str),
                (codesOf ((jsSplit matchMarker roiBlock).drop 1))[k]? = some code →
                (importSample roiBlock lineBlock)[k]?
                  = some ({ roi := trim code,
                            line := ((sampleLines lineBlock)[k]?).getD [] } : Roi))
      ∧ (codesOf ((jsSplit matchMarker roiBlock).drop 1) = [] ↔
          importSample roiBlock lineBlock = [{ roi := roiBlock, line := lineBlock }]
            ∧ parseLoop (sampleLines lineBlock) ((jsSplit matchMarker roiBlock).drop 1) [] = []) := by
  refine ⟨mem_codesOf _ _ (le_refl _), ?_, ?_, ?_⟩
  · intro label code rest
    constructor
    · intro h
      rw [codesOf, if_pos h]
    · rw [codesOf, if_neg (by simp)]
  · intro hne
    have h1 := importSample_eq roiBlock lineBlock
    rw [if_neg hne] at h1
    refine ⟨h1, by rw [h1, length_pairUp], ?_⟩
    intro k code hk
    rw [h1, getElem?_pairUp, hk]
    simp
  · constructor
    · intro h0
      constructor
      · rw [importSample_eq, if_pos h0]
      · rw [parseLoop_eq _ _ _ _ (le_refl _), h0]
        rfl
    · rintro ⟨-, h⟩
      rw [parseLoop_eq _ _ _ _ (le_refl _), List.nil_append] at h
      have := congrArg List.length h
      rw [length_pairUp] at this
      exact List.length_eq_zero.1 this

/-- Witness for C18: in `"1. a\n2. \n3. c"` the second capture is a line break only;
three regions are emitted and the middle one has an empty code. -/
theorem C18_emitted_codes_witness :
    codesOf ((jsSplit matchMarker "1. a\n2. \n3. c".toList).drop 1) ≠ []
      ∧ (importSample "1. a\n2. \n3. c".toList "4\n5\n6".toList).length
          = (codesOf ((jsSplit matchMarker "1. a\n2. \n3. c".toList).drop 1)).length
      ∧ importSample "1. a\n2. \n3. c".toList "4\n5\n6".toList
          = [⟨['a'], ['4']⟩, ⟨[], ['5']⟩, ⟨['c'], ['6']⟩] :=
  ⟨by decide,
    ((C18_emitted_codes "1. a\n2. \n3. c".toList "4\n5\n6".toList).2.2.1 (by decide)).2.1,
    by decide⟩

/-- Counterexample to C18 as stated: in `"1. \n2. b"` the first marker is followed by
white space only, yet a region with an empty code is emitted and takes the first
entry of `L`; and for `"1.  "` the only capture is blank, yet the importer does
not fall back to the region `{"1.  ", "5"}`. -/
theorem C18_counterexample :
    importSample "1. \n2. b".toList "1\n6-8".toList
        = [⟨[], ['1']⟩, ⟨['b'], ['6', '-', '8']⟩]
      ∧ importSample "1.  ".toList ['5'] = [⟨[], ['5']⟩]
      ∧ importSample "1.  ".toList ['5'] ≠ [⟨"1.  ".toList, ['5']⟩] := by
  decide

/-- Claim C19: whenever the numbered parse emits no region, the importer returns
exactly one region, whose code is `roiBlock` and whose lineSpec is `lineBlock`,
both unchanged; this is the case in particular for every `roiBlock` in which
the marker expression matches nowhere. -/
theorem C19_lossless_fallback (roiBlock lineBlock : Str) :
    (parseLoop (sampleLines lineBlock) ((jsSplit matchMarker roiBlock).drop 1) [] = [] →
        importSample roiBlock lineBlock = [{ roi := roiBlock, line := lineBlock }])
      ∧ (hasMarker roiBlock = false →
        parseLoop (sampleLines lineBlock) ((jsSplit matchMarker roiBlock).drop 1) [] = []
          ∧ importSample roiBlock lineBlock = [{ roi := roiBlock, line := lineBlock }]) := by
  have h1 : parseLoop (sampleLines lineBlock) ((jsSplit matchMarker roiBlock).drop 1) [] = [] →
      importSample roiBlock lineBlock = [{ roi := roiBlock, line := lineBlock }] := by
    intro h
    show (if (parseLoop (sampleLines lineBlock) ((jsSplit matchMarker roiBlock).drop 1) []).length
        = 0 then _ else _) = _
    rw [h]
    rfl
  refine ⟨h1, ?_⟩
  intro hm
  have h2 : parseLoop (sampleLines lineBlock) ((jsSplit matchMarker roiBlock).drop 1) [] = [] := by
    unfold jsSplit
    rw [splitGo_no_marker roiBlock [] hm]
    rfl
  exact ⟨h2, h1 h2⟩

/-- Witness for C19: the block `" x\ty "` has no marker and comes back untrimmed,
with the line block `" 5\n6 "` unsplit. -/
theorem C19_lossless_fallback_witness :
    hasMarker " x\ty ".toList = false
      ∧ importSample " x\ty ".toList " 5\n6 ".toList = [⟨" x\ty ".toList, " 5\n6 ".toList⟩] :=
  ⟨by decide, ((C19_lossless_fallback " x\ty ".toList " 5\n6 ".toList).2 (by decide)).2⟩

/-- Claim C20: the importer is a total function of its two strings and never returns
an empty list; `importSample("", "")` is the one region `{"", ""}` and
`importSample("garbage no markers", "5")` is the one region
`{"garbage no markers", "5"}`. -/
theorem C20_importer_total (roiBlock lineBlock : Str) :
    importSample roiBlock lineBlock ≠ []
      ∧ 1 ≤ (importSample roiBlock lineBlock).length
      ∧ importSample [] [] = [{ roi := [], line := [] }]
      ∧ importSample "garbage no markers".toList ['5']
          = [{ roi := "garbage no markers".toList, line := ['5'] }] := by
  have h : importSample roiBlock lineBlock ≠ [] := by
    unfold importSample
    simp only
    split
    · simp
    · rename_i hlen
      intro h0
      rw [h0] at hlen
      exact hlen rfl
  refine ⟨h, ?_, by decide, by decide⟩
  exact Nat.pos_of_ne_zero (fun h0 => h (List.length_eq_zero.1 h0))

/-- Claim C21, the code at the failing inputs `"1.\tfoo"` and `"1.\nfoo"`: the claim, as
the comment next to the split ("N. " pattern, digit + dot + space) and as the
encoder, which writes a space after the dot, takes the delimiter to end in a
space, so that these blocks hold no marker and come back unchanged through
the fallback.  The expression of the importer ends in the class of all
white-space characters: it matches `1.` followed by the tab, respectively the
line break, the split cuts the block into `""`, `"1"`, `"foo"`, and the
importer returns the region `foo` with the first line, not the block. -/
theorem C21_tab_and_line_break :
    matchMarker "1.\tfoo".toList = some ([['1']], 3)
      ∧ jsSplit matchMarker "1.\tfoo".toList = [[], ['1'], "foo".toList]
      ∧ importSample "1.\tfoo".toList ['5'] = [⟨"foo".toList, ['5']⟩]
      ∧ importSample "1.\tfoo".toList ['5'] ≠ [⟨"1.\tfoo".toList, ['5']⟩]
      ∧ matchMarker "1.\nfoo".toList = some ([['1']], 3)
      ∧ jsSplit matchMarker "1.\nfoo".toList = [[], ['1'], "foo".toList]
      ∧ importSample "1.\nfoo".toList ['5'] = [⟨"foo".toList, ['5']⟩]
      ∧ importSample "1.\nfoo".toList ['5'] ≠ [⟨"1.\nfoo".toList, ['5']⟩]
      ∧ roiStr [⟨"foo".toList, ['5']⟩] = "1. foo".toList
      ∧ importSample "1.xfoo".toList ['5'] = [⟨"1.xfoo".toList, ['5']⟩] := by
  decide

/-- Claim C22, the code at the failing input, a sample whose `merged_roi_lines` is the
number 0: the coercion `String(...)` stands behind a truthiness test and 0 is
falsy, so the line block handed to the importer is the empty string, as for
an absent value, and not the decimal string `"0"`; the region emitted for the
sample `{roi: "1. a", merged_roi_lines: 0}` has an empty lineSpec, and so has
the fallback region of the sample `{roi: "a", merged_roi_lines: 0}`.  The
string `"0"` and the number 7 are handed on as `"0"` and `"7"`. -/
theorem C22_zero_line_locator :
    decimal 0 = ['0']
      ∧ rawLinesOf (LinesField.num 0 (by decide)) = []
      ∧ rawLinesOf (LinesField.num 0 (by decide)) = rawLinesOf LinesField.absent
      ∧ rawLinesOf (LinesField.str ['0']) = ['0']
      ∧ rawLinesOf (LinesField.num 7 (by decide)) = ['7']
      ∧ (sampleSettled Ui.initial (SampleReply.data (some
            { func_name := ['f'], raw_code := ['f'], cwe_ids := "CWE-1".toList,
              roi := some "1. a".toList, merged_roi_lines := LinesField.num 0 (by decide) }))).rois
          = [⟨['a'], []⟩]
      ∧ (sampleSettled Ui.initial (SampleReply.data (some
            { func_name := ['f'], raw_code := ['f'], cwe_ids := "CWE-1".toList,
              roi := some ['a'], merged_roi_lines := LinesField.num 0 (by decide) }))).rois
          = [⟨['a'], []⟩]
      ∧ (sampleSettled Ui.initial (SampleReply.data (some
            { func_name := ['f'], raw_code := ['f'], cwe_ids := "CWE-1".toList,
              roi := some "1. a".toList, merged_roi_lines := LinesField.str ['0'] }))).rois
          = [⟨['a'], ['0']⟩] := by
  decide

/-- Claim C23: in every run the injection call carries `funcName` and `funcCode` as
stored (not trimmed), `cweIds` as the raw string as stored (not joined again
from the identifiers), and as `lines` and `rois` the strings of the encoder;
the validation call carries the same `funcName` and `funcCode` and, as
`merged_roi_lines`, the `lines` string of the injection call of that run, which
was issued before it; a valid request whose calls all succeed issues both. -/
theorem C23_request_bodies (ui : Ui) (replies : List Reply) :
    (∀ c ∈ callsOf (handleGenerate ui replies), c.isInjection = true →
        c = Call.injection ui.funcName ui.funcCode (lineStr ui.rois) (roiStr ui.rois) ui.cweIds)
      ∧ (∀ c ∈ callsOf (handleGenerate ui replies), c.isValidation = true →
          c = Call.validation ui.funcName ui.funcCode (lineStr ui.rois)
            ∧ Call.injection ui.funcName ui.funcCode (lineStr ui.rois) (roiStr ui.rois) ui.cweIds
                ∈ callsOf (handleGenerate ui replies))
      ∧ (validateInput ui.funcCode ui.funcName ui.cweIds ui.rois = true →
          callsOf (handleGenerate ui (allTruthy ui))
            = (cweList ui.cweIds).map Call.research
                ++ Call.injection ui.funcName ui.funcCode (lineStr ui.rois) (roiStr ui.rois)
                    ui.cweIds
                  :: (if ui.skipValidation = true then []
                      else [Call.validation ui.funcName ui.funcCode (lineStr ui.rois)]))
      ∧ callsOf (handleGenerate paddedUi (allTruthy paddedUi))
          = [Call.research "CWE-1".toList, Call.research "CWE-2".toList,
             Call.injection " g ".toList " g() ".toList " 1 ".toList "1.  a ".toList
               " CWE-1,  CWE-2 ".toList,
             Call.validation " g ".toList " g() ".toList " 1 ".toList]
      ∧ jsJoin [','] (cweList paddedUi.cweIds) ≠ paddedUi.cweIds := by
  refine ⟨fun c hc hi => injection_of_run ui replies c hc hi,
    fun c hc hv => validation_of_run ui replies c hc hv, ?_, by decide, by decide⟩
  intro hvalid
  rw [callsOf_allTruthy ui hvalid]
  rfl

/-- Claim C24: for every raw `cweIds` string that the validator accepts, the list of
identifiers for which research calls are made is not empty, every identifier
in it is a token of `[A-Za-z0-9_-]+` with no white space around or inside it,
the length of the list is the number of commas of the raw string plus one, and
the identifiers stand in the order of the raw string: the raw string is its
comma-separated pieces joined by commas, and the list is these pieces, each
one an identifier with white space around it, trimmed, none dropped. -/
theorem C24_cwe_token_list (cweIds : Str) (haccepted : cweIdsErrors cweIds = []) :
    cweList cweIds ≠ []
      ∧ (∀ id ∈ cweList cweIds, Token id ∧ trim id = id ∧ ∀ c ∈ id, isSpace c = false)
      ∧ (cweList cweIds).length = cweIds.count ',' + 1
      ∧ jsJoin [','] (jsSplit matchComma cweIds) = cweIds
      ∧ (∀ piece ∈ jsSplit matchComma cweIds, ',' ∉ piece)
      ∧ cweList cweIds = (jsSplit matchComma cweIds).map trim
      ∧ List.Forall₂ Padded (jsSplit matchComma cweIds) (cweList cweIds)
      ∧ (∀ ui : Ui, ui.cweIds = cweIds →
          (plannedCalls ui).filterMap Call.researchId = cweList cweIds) := by
  obtain ⟨h1, h2⟩ := cweList_accepted cweIds haccepted
  have hlen : (cweList cweIds).length = cweIds.count ',' + 1 := by
    rw [h2, List.length_map]
    exact length_splitGo_comma cweIds []
  have htok := (map_trim_padded h1).2
  refine ⟨?_, ?_, hlen, ?_, ?_, h2, h1, ?_⟩
  · intro h0
    rw [h0] at hlen
    simp at hlen
  · intro id hid
    exact ⟨htok id hid, trim_of_no_space (token_no_space (htok id hid)),
      token_no_space (htok id hid)⟩
  · have := jsJoin_splitGo_comma cweIds []
    simpa using this
  · exact splitGo_comma_pieces cweIds [] (by simp)
  · intro ui hui
    rw [← hui]
    exact filterMap_researchId_planned ui

/-- Witness for C24: the accepted string `" CWE-78,  CWE-89 "` gives the two
identifiers `CWE-78` and `CWE-89`. -/
theorem C24_cwe_token_list_witness :
    cweIdsErrors " CWE-78,  CWE-89 ".toList = []
      ∧ cweList " CWE-78,  CWE-89 ".toList = ["CWE-78".toList, "CWE-89".toList]
      ∧ (cweList " CWE-78,  CWE-89 ".toList).length
          = " CWE-78,  CWE-89 ".toList.count ',' + 1 :=
  ⟨by decide, by decide, (C24_cwe_token_list " CWE-78,  CWE-89 ".toList (by decide)).2.2.1⟩

/-- Claim C25: the validator accepts `cweIds = "CWE-78, CWE-89"`, whatever the other
fields hold (no `cweIds` error), and rejects `cweIds = "CWE 78,CWE-89"`, whose
first token `CWE 78` contains a space (the `cweIds` error is present and the
validator returns false). -/
theorem C25_cweIds_examples (funcCode funcName : Str) (rois : List Roi) :
    cweIdsErrors "CWE-78, CWE-89".toList = []
      ∧ hasKey (newErrors funcCode funcName "CWE-78, CWE-89".toList rois) ErrKey.cweIds = false
      ∧ cweIdsErrors "CWE 78,CWE-89".toList
          = [(ErrKey.cweIds, "CWE IDs must be comma-separated (e.g., CWE-78, CWE-89).")]
      ∧ hasKey (newErrors funcCode funcName "CWE 78,CWE-89".toList rois) ErrKey.cweIds = true
      ∧ validateInput funcCode funcName "CWE 78,CWE-89".toList rois = false
      ∧ jsSplit matchComma "CWE 78,CWE-89".toList = ["CWE 78".toList, "CWE-89".toList]
      ∧ isWordOrDash ' ' = false := by
  have h2 : hasKey (newErrors funcCode funcName "CWE 78,CWE-89".toList rois) ErrKey.cweIds
      = true := by
    rw [hasKey_newErrors_cweIds]
    decide
  refine ⟨by decide, ?_, by decide, h2, ?_, by decide, by decide⟩
  · rw [hasKey_newErrors_cweIds]
    decide
  · cases hv : validateInput funcCode funcName "CWE 78,CWE-89".toList rois with
    | false => rfl
    | true =>
      rw [(validateInput_iff _ _ _ _).1 hv, hasKey_nil] at h2
      cases h2

/-- Claim C26: for every non-empty region list in which each code is non-empty, has no
leading or trailing white space and, followed by a line break, holds no
occurrence of one or more digits, a `.` and a white-space character, and in
which each lineSpec is non-empty, has no leading or trailing white space and
holds no line break, importing the encoder's `(rois, lines)` output returns
exactly the original region list. -/
theorem C26_round_trip_sufficient (rois : List Roi) (hne : rois ≠ [])
    (hcode : ∀ r ∈ rois, r.roi ≠ [] ∧ trim r.roi = r.roi ∧ ¬ MarkerOccurs (r.roi ++ ['\n']))
    (hline : ∀ r ∈ rois, r.line ≠ [] ∧ trim r.line = r.line ∧ '\n' ∉ r.line) :
    importSample (roiStr rois) (lineStr rois) = rois := by
  apply importSample_encoded rois hne
  intro r hr
  obtain ⟨h1, h2, h3⟩ := hcode r hr
  obtain ⟨h4, h5, h6⟩ := hline r hr
  refine ⟨h1, h2, ?_, h4, h5, ?_⟩
  · cases hm : hasMarker (r.roi ++ ['\n']) with
    | false => rfl
    | true => exact absurd ((hasMarker_iff _).1 hm) h3
  · intro c hc hn
    rw [hn] at hc
    exact h6 hc

/-- Witness for C26: the regions `{x = 1.5;, 3}` and `{return y, 10-12}`; the first
code holds digits and a dot, followed by a digit. -/
theorem C26_round_trip_sufficient_witness :
    importSample
        (roiStr [⟨"x = 1.5;".toList, ['3']⟩, ⟨"return y".toList, "10-12".toList⟩])
        (lineStr [⟨"x = 1.5;".toList, ['3']⟩, ⟨"return y".toList, "10-12".toList⟩])
      = [⟨"x = 1.5;".toList, ['3']⟩, ⟨"return y".toList, "10-12".toList⟩] :=
  C26_round_trip_sufficient [⟨"x = 1.5;".toList, ['3']⟩, ⟨"return y".toList, "10-12".toList⟩]
    (by decide)
    (by
      intro r hr
      simp only [List.mem_cons, List.mem_singleton, List.not_mem_nil, or_false] at hr
      rcases hr with rfl | rfl
      · exact ⟨by decide, by decide, fun h => absurd ((hasMarker_iff _).2 h) (by decide)⟩
      · exact ⟨by decide, by decide, fun h => absurd ((hasMarker_iff _).2 h) (by decide)⟩)
    (by decide)

/-- Claim C27: when the numbered parse emits `m >= 1` regions, the importer returns
these `m` regions whatever the line block is (same number, same codes, no
fallback); with `L` the trimmed non-empty lines of `lineBlock`, a region at a
position `k >= |L|` has the empty string as its lineSpec and a region at a
position `k < |L|` has `L[k]`, so that for `|L| >= m` the lineSpecs are the
first `m` entries of `L` and the others are dropped; `"1. a\n2. b\n3. c"` with
`"5"` gives `[{a, 5}, {b, ""}, {c, ""}]` and `"1. a"` with `"5\n6\n7"` gives
`[{a, 5}]`. -/
theorem C27_mismatched_counts (roiBlock lineBlock : Str)
    (hm : 1 ≤ (codesOf ((jsSplit matchMarker roiBlock).drop 1)).length) :
    (parseLoop (sampleLines lineBlock) ((jsSplit matchMarker roiBlock).drop 1) []).length
        = (codesOf ((jsSplit matchMarker roiBlock).drop 1)).length
      ∧ importSample roiBlock lineBlock
          = parseLoop (sampleLines lineBlock) ((jsSplit matchMarker roiBlock).drop 1) []
      ∧ (importSample roiBlock lineBlock).length
          = (codesOf ((jsSplit matchMarker roiBlock).drop 1)).length
      ∧ (∀ other : Str,
          (importSample roiBlock other).length = (importSample roiBlock lineBlock).length
            ∧ (importSample roiBlock other).map Roi.roi
                = (importSample roiBlock lineBlock).map Roi.roi)
      ∧ (∀ (k : Nat) (r : Roi), (importSample roiBlock lineBlock)[k]? = some r →
          ((sampleLines lineBlock).length ≤ k → r.line = [])
            ∧ (k < (sampleLines lineBlock).length → (sampleLines lineBlock)[k]? = some r.line))
      ∧ ((codesOf ((jsSplit matchMarker roiBlock).drop 1)).length ≤ (sampleLines lineBlock).length →
          (importSample roiBlock lineBlock).map Roi.line
            = (sampleLines lineBlock).take (codesOf ((jsSplit matchMarker roiBlock).drop 1)).length)
      ∧ importSample "1. a\n2. b\n3. c".toList ['5'] = [⟨['a'], ['5']⟩, ⟨['b'], []⟩, ⟨['c'], []⟩]
      ∧ importSample "1. a".toList "5\n6\n7".toList = [⟨['a'], ['5']⟩] := by
  have hne : codesOf ((jsSplit matchMarker roiBlock).drop 1) ≠ [] := by
    intro h0
    rw [h0] at hm
    simp at hm
  have himp : ∀ lb : Str, importSample roiBlock lb
      = pairUp (sampleLines lb) 0 (codesOf ((jsSplit matchMarker roiBlock).drop 1)) := by
    intro lb
    rw [importSample_eq, if_neg hne]
  have hloop : parseLoop (sampleLines lineBlock) ((jsSplit matchMarker roiBlock).drop 1) []
      = pairUp (sampleLines lineBlock) 0 (codesOf ((jsSplit matchMarker roiBlock).drop 1)) := by
    rw [parseLoop_eq _ _ _ _ (le_refl _)]
    rfl
  refine ⟨by rw [hloop, length_pairUp], by rw [hloop, himp], by rw [himp, length_pairUp], ?_, ?_,
    ?_, by decide, by decide⟩
  · intro other
    rw [himp, himp, length_pairUp, length_pairUp, map_roi_pairUp, map_roi_pairUp]
    exact ⟨rfl, rfl⟩
  · intro k r hr
    rw [himp, getElem?_pairUp, Nat.zero_add] at hr
    rcases hc : (codesOf ((jsSplit matchMarker roiBlock).drop 1))[k]? with _ | code
    · rw [hc] at hr
      cases hr
    · rw [hc] at hr
      have hr2 : r = { roi := trim code, line := ((sampleLines lineBlock)[k]?).getD [] } := by
        simpa using hr.symm
      constructor
      · intro hk
        rw [hr2, List.getElem?_eq_none hk]
        rfl
      · intro hk
        rw [hr2, List.getElem?_eq_getElem hk]
        rfl
  · intro hle
    rw [himp, map_line_pairUp _ _ _ (by omega)]
    rfl

/-- Witness for C27: three regions and one line. -/
theorem C27_mismatched_counts_witness :
    1 ≤ (codesOf ((jsSplit matchMarker "1. a\n2. b\n3. c".toList).drop 1)).length
      ∧ (importSample "1. a\n2. b\n3. c".toList ['5']).length
          = (codesOf ((jsSplit matchMarker "1. a\n2. b\n3. c".toList).drop 1)).length
      ∧ (importSample "1. a\n2. b\n3. c".toList ['5']).length = 3 :=
  ⟨by decide, (C27_mismatched_counts "1. a\n2. b\n3. c".toList ['5'] (by decide)).2.2.1,
    by decide⟩

/-- Claim C28: the reset handler leaves the `skipValidation` toggle as it is and
returns every other field to its initial value, the region list becoming the
one region with empty code and empty lineSpec; the three Reset controls run
this handler; a request typed in after a reset runs as the same request typed
in without it, so it has a validation call only if the toggle was off before
the reset; with the toggle on, the state after a reset is not the initial
state. -/
theorem C28_reset_frame (ui : Ui) :
    (handleReset ui).skipValidation = ui.skipValidation
      ∧ (handleReset ui).funcCode = Ui.initial.funcCode
      ∧ (handleReset ui).funcName = Ui.initial.funcName
      ∧ (handleReset ui).cweIds = Ui.initial.cweIds
      ∧ (handleReset ui).rois = Ui.initial.rois
      ∧ (handleReset ui).rois = [{ roi := [], line := [] }]
      ∧ handleReset ui = { Ui.initial with skipValidation := ui.skipValidation }
      ∧ (∀ p : Page, (p.perform Action.reset).ui = handleReset p.ui
          ∧ (p.perform Action.startNew).ui = handleReset p.ui
          ∧ (p.perform Action.errorReset).ui = handleReset p.ui)
      ∧ (∀ (fc fn ids : Str) (rois : List Roi) (replies : List Reply),
          handleGenerate (retype (handleReset ui) fc fn ids rois) replies
              = handleGenerate (retype ui fc fn ids rois) replies
            ∧ validationCalls (retype (handleReset ui) fc fn ids rois)
              = (if ui.skipValidation = true then []
                  else [Call.validation fn fc (lineStr rois)])
            ∧ ∀ c ∈ callsOf (handleGenerate (retype (handleReset ui) fc fn ids rois) replies),
                c.isValidation = true → ui.skipValidation = false)
      ∧ handleReset { Ui.initial with skipValidation := true } ≠ Ui.initial := by
  refine ⟨rfl, rfl, rfl, rfl, rfl, rfl, rfl, fun p => ⟨rfl, rfl, rfl⟩, ?_, by decide⟩
  intro fc fn ids rois replies
  have hsame : SameRequest (retype (handleReset ui) fc fn ids rois) (retype ui fc fn ids rois) :=
    ⟨rfl, rfl, rfl, rfl, rfl⟩
  refine ⟨handleGenerate_sameRequest hsame replies, rfl, ?_⟩
  intro c hc hv
  have hp := (callsOf_handleGenerate _ replies).subset hc
  unfold plannedCalls at hp
  rcases List.mem_append.1 hp with h | h
  · rw [(isInjection_research _ c h).2] at hv
    cases hv
  · rcases List.mem_cons.1 h with h | h
    · rw [h] at hv
      cases hv
    · cases hs : ui.skipValidation with
      | false => rfl
      | true =>
        have : validationCalls (retype (handleReset ui) fc fn ids rois) = [] := by
          show (if ui.skipValidation = true then [] else _) = _
          rw [hs]
          rfl
        rw [this] at h
        cases h

/-- Claim C29: whenever a call of a run does not settle with a truthy payload, the run
ends with the `catch` block: the error is logged, a message is stored in the
error modal and the step is set back to 0.  The message is `"Research failed
for "` followed by the identifier, a trimmed token of the request, when a
research call resolves with a falsy payload, `"Injection failed"` and
`"Validation failed"` when the injection and the validation call do, the
message of the error, verbatim, when the call throws an error with a non-empty
message, and `"An unexpected error occurred."` when the message of the error is
empty or missing. -/
theorem C29_failure_messages (ui start : Ui) (replies : List Reply) (pre : List Event)
    (c : Call) (r : Reply) (post : List Event)
    (hrun : handleGenerate ui replies = pre ++ Event.call c :: Event.reply r :: post)
    (hr : r ≠ Reply.data true) :
    (start.applyAll (handleGenerate ui replies)).generationStep = 0
      ∧ ∃ message,
          post = [Event.consoleError, Event.setErrorModal (some message),
                  Event.setGenerationStep 0]
            ∧ (start.applyAll (handleGenerate ui replies)).errorModal = some message
            ∧ (∀ cweId, c = Call.research cweId → r = Reply.data false →
                message = "Research failed for ".toList ++ cweId
                  ∧ cweId ∈ cweList ui.cweIds ∧ trim cweId = cweId)
            ∧ (c.isInjection = true → r = Reply.data false → message = "Injection failed".toList)
            ∧ (c.isValidation = true → r = Reply.data false →
                message = "Validation failed".toList)
            ∧ (∀ m, r = Reply.rejected (some m) → m ≠ [] → message = m)
            ∧ (r = Reply.rejected none ∨ r = Reply.rejected (some []) →
                message = "An unexpected error occurred.".toList) := by
  have hpost := failure_handleGenerate ui replies pre c r post hrun hr
  have hsplit : handleGenerate ui replies
      = (pre ++ [Event.call c, Event.reply r]) ++ failure (thrown c r) := by
    rw [hrun, hpost]
    simp
  obtain ⟨h1, h2, -⟩ := applyAll_failure start (pre ++ [Event.call c, Event.reply r]) (thrown c r)
  rw [← hsplit] at h1 h2
  refine ⟨h2, messageOr (thrown c r), by rw [hpost]; rfl, h1, ?_, ?_, ?_, ?_, ?_⟩
  · intro cweId hc hf
    have hmem : Call.research cweId ∈ callsOf (handleGenerate ui replies) := by
      rw [hrun, callsOf_append, callsOf_call, hc]
      simp
    rw [hc, hf]
    refine ⟨?_, research_of_run ui replies cweId hmem⟩
    simp [thrown, messageOr]
  · intro hc hf
    rw [hf]
    cases c <;> first | rfl | cases hc
  · intro hc hf
    rw [hf]
    cases c <;> first | rfl | cases hc
  · intro m hm hne
    rw [hm]
    simp [thrown, messageOr, hne]
  · rintro (hm | hm) <;> rw [hm] <;> rfl

/-- Witness for C29: in the example request the second research call resolves with a
falsy payload. -/
theorem C29_failure_messages_witness :
    handleGenerate exampleUi [Reply.data true, Reply.data false]
        = [Event.setErrors [], Event.setGenerationStep 1,
            Event.call (Call.research "CWE-1".toList), Event.reply (Reply.data true)]
          ++ Event.call (Call.research "CWE-2".toList) :: Event.reply (Reply.data false)
            :: [Event.consoleError,
                Event.setErrorModal (some "Research failed for CWE-2".toList),
                Event.setGenerationStep 0]
      ∧ (exampleUi.applyAll
          (handleGenerate exampleUi [Reply.data true, Reply.data false])).generationStep = 0 :=
  ⟨by decide,
    (C29_failure_messages exampleUi exampleUi [Reply.data true, Reply.data false]
      [Event.setErrors [], Event.setGenerationStep 1,
        Event.call (Call.research "CWE-1".toList), Event.reply (Reply.data true)]
      (Call.research "CWE-2".toList) (Reply.data false)
      [Event.consoleError, Event.setErrorModal (some "Research failed for CWE-2".toList),
        Event.setGenerationStep 0] (by decide) (by decide)).1⟩

/-- Claim C30: in every run the injection call is issued while the stored step is 2, and
the step is still 2 until its reply, the next event of the run; step 3 is set
only right after the injection call has resolved with a truthy payload, and is
replaced at once by step 4 or 5; at no moment of the run at which a call is
outstanding is the stored step 3 (it is 1, 2 or 4); the steps set during the
run are an initial part of 1, 2, 3, 4, 5 (of 1, 2, 3, 5 when `skipValidation`
is set), followed by 0 if and only if a call did not settle with a truthy
payload. -/
theorem C30_injection_stage (ui start : Ui) (replies : List Reply) :
    (∀ (pre : List Event) (c : Call) (post : List Event),
        handleGenerate ui replies = pre ++ Event.call c :: post → c.isInjection = true →
        (start.applyAll pre).generationStep = 2
          ∧ (start.applyAll (pre ++ [Event.call c])).generationStep = 2
          ∧ (post = [] ∨ ∃ r post', post = Event.reply r :: post'))
      ∧ (∀ pre post : List Event,
          handleGenerate ui replies = pre ++ Event.setGenerationStep 3 :: post →
          (∃ pre', pre = pre' ++ [Event.call (injectionCall ui), Event.reply (Reply.data true)])
            ∧ ∃ n post', (n = 4 ∨ n = 5) ∧ post = Event.setGenerationStep n :: post')
      ∧ (∀ pre post : List Event, handleGenerate ui replies = pre ++ post →
          (repliesOf pre).length < (callsOf pre).length →
          (start.applyAll pre).generationStep ≠ 3
            ∧ ((start.applyAll pre).generationStep = 1 ∨ (start.applyAll pre).generationStep = 2
              ∨ (start.applyAll pre).generationStep = 4))
      ∧ (∃ fwd, fwd <+: stepOrder ui.skipValidation
          ∧ (stepsOf (handleGenerate ui replies) = fwd
            ∨ stepsOf (handleGenerate ui replies) = fwd ++ [0])
          ∧ (stepsOf (handleGenerate ui replies) = fwd ++ [0]
            ↔ ∃ r ∈ repliesOf (handleGenerate ui replies), r ≠ Reply.data true))
      ∧ stepOrder false = [1, 2, 3, 4, 5] ∧ stepOrder true = [1, 2, 3, 5]
      ∧ stepsOf (handleGenerate exampleUi (allTruthy exampleUi)) = [1, 2, 3, 4, 5]
      ∧ stepsOf (handleGenerate exampleUi [Reply.data true, Reply.data true, Reply.data false])
          = [1, 2, 0] := by
  refine ⟨?_, step3_handleGenerate ui replies, ?_, ?_, rfl, rfl, by decide, by decide⟩
  · intro pre c post h hc
    have h1 := call_step_handleGenerate ui start replies pre c post h
    have h2 : c.step = 2 := by
      cases c <;> first | rfl | cases hc
    rw [h2] at h1
    refine ⟨h1, ?_, orderly_call_next (orderly_handleGenerate ui replies) pre c post h⟩
    rw [applyAll_append]
    exact h1
  · intro pre post h hlt
    rcases orderly_outstanding (orderly_handleGenerate ui replies) pre post h with h1 | ⟨pre', c, h1⟩
    · omega
    · have h2 := call_step_handleGenerate ui start replies pre' c post (by rw [h, h1]; simp)
      have h3 : (start.applyAll pre).generationStep = c.step := by
        rw [h1, applyAll_append]
        exact h2
      rw [h3]
      cases c <;> simp [Call.step]
  · rcases stepsOf_handleGenerate ui replies with ⟨hv, h0⟩ | ⟨-, fwd, hf, -, h1 | h1⟩
    · refine ⟨[], List.nil_prefix, Or.inl h0, ?_⟩
      rw [h0, handleGenerate_rejected ui replies hv]
      simp [repliesOf]
    · refine ⟨fwd, hf, Or.inl h1.1, ?_⟩
      constructor
      · intro h2
        rw [h1.1] at h2
        have := congrArg List.length h2
        simp at this
      · rintro ⟨r, hr, hne⟩
        exact absurd (h1.2 r hr) hne
    · exact ⟨fwd, hf, Or.inr h1.1, fun _ => h1.2, fun _ => h1.1⟩

end Sophgen
